import Mathlib

/-!
# tinydtls ECC core (`ecc/ecc.c`): embedding and verified properties

Numbers are little-endian sequences of 32-bit words, modelled as `List Nat`
with every word below `2 ^ 32`.  Machine arithmetic of the source is written
out with explicit `% 2 ^ 32` / `% 2 ^ 64`.  Loops of the source that may run
forever (`fieldInv`) take a fuel argument and return `none` when it runs out.
-/

namespace Ecc

/-! ## Data model -/

/-- Value denoted by a little-endian sequence of 32-bit words. -/
def value : List Nat → Nat
  | [] => 0
  | w :: ws => w + 2 ^ 32 * value ws

/-- Every word of the sequence fits 32 bits. -/
def Limbs (xs : List Nat) : Prop := ∀ w ∈ xs, w < 2 ^ 32

instance (xs : List Nat) : Decidable (Limbs xs) := by
  unfold Limbs; infer_instance

/-- `arrayLength` of `ecc.h`. -/
def arrayLength : Nat := 8

/-! ## Big number functions -/

/-- Loop of `add`: `d` is the 64-bit accumulator carrying into the next word. -/
def addLoop : List Nat → List Nat → Nat → List Nat × Nat
  | x :: xs, y :: ys, d =>
    let d1 := (d + (x + y) % 2 ^ 64) % 2 ^ 64
    let r := addLoop xs ys (d1 >>> 32)
    ((d1 % 2 ^ 32) :: r.1, r.2)
  | _, _, d => ([], d % 2 ^ 32)

/-- `add(x, y, result, length)`: the words written to `result` and the returned carry. -/
def add (x y : List Nat) (length : Nat) : List Nat × Nat :=
  addLoop (x.take length) (y.take length) 0

/-- Loop of `sub`: `d` is the borrow taken from the next word. -/
def subLoop : List Nat → List Nat → Nat → List Nat × Nat
  | x :: xs, y :: ys, d =>
    let d1 := ((x + (2 ^ 64 - y % 2 ^ 64)) % 2 ^ 64 + (2 ^ 64 - d % 2 ^ 64)) % 2 ^ 64
    let r := subLoop xs ys ((d1 >>> 32) &&& 1)
    ((d1 &&& 0xFFFFFFFF) :: r.1, r.2)
  | _, _, d => ([], d % 2 ^ 32)

/-- `sub(x, y, result, length)`: the words written to `result` and the returned borrow. -/
def sub (x y : List Nat) (length : Nat) : List Nat × Nat :=
  subLoop (x.take length) (y.take length) 0

/-- `rshiftby(in, in_size, out, out_size, shift)`: the `out_size` words written to `out`. -/
def rshiftby (inp : List Nat) (in_size out_size shift : Nat) : List Nat :=
  (List.range out_size).map fun i => if i + shift < in_size then inp.getD (i + shift) 0 else 0

/-- `setZero(A, length)`. -/
def setZero (length : Nat) : List Nat := List.replicate length 0

/-- `copy(from, to, length)`: the first `length` words of `to` are replaced. -/
def copy (src dst : List Nat) (length : Nat) : List Nat :=
  src.take length ++ dst.drop length

/-- `isSame(A, B, length)`: `memcmp` over `length` words is zero. -/
def isSame (A B : List Nat) (length : Nat) : Bool :=
  decide (A.take length = B.take length)

/-- `isGreater(A, B, length)`: compares from word `length - 1` down to word 0. -/
def isGreater (A B : List Nat) : Nat → Int
  | 0 => 0
  | i + 1 =>
    if A.getD i 0 > B.getD i 0 then 1
    else if A.getD i 0 < B.getD i 0 then -1
    else isGreater A B i

/-- `isOne(A)`. -/
def isOne (A : List Nat) : Bool :=
  (List.range 7).all (fun n => A.getD (n + 1) 0 == 0) && A.getD 0 0 == 1

/-- `isZero(A)`: counts the zero words among the first eight. -/
def isZero (A : List Nat) : Bool :=
  ((List.range 8).filter (fun n => A.getD n 0 == 0)).length == 8

/-- Loop of `rshift`: words above are shifted first (`i` counts down); the second
component is `nOld`, the bit leaving the lowest word processed so far. -/
def rshiftLoop : List Nat → List Nat × Nat
  | [] => ([], 0)
  | a :: as =>
    let r := rshiftLoop as
    (((a >>> 1) ||| ((r.2 <<< 31) % 2 ^ 32)) :: r.1, a &&& 1)

/-- `rshift(A)`: the eight words of `A` shifted right by one bit. -/
def rshift (A : List Nat) : List Nat :=
  (rshiftLoop (A.take 8)).1 ++ A.drop 8

/-! ## Finite field functions -/

/-- `fieldAdd(x, y, reducer, result)`. -/
def fieldAdd (x y reducer : List Nat) : List Nat :=
  let r := add x y arrayLength
  if r.2 ≠ 0 then
    let tempas := (add r.1 reducer arrayLength).1
    copy tempas r.1 arrayLength
  else r.1

/-- `fieldSub(x, y, modulus, result)`. -/
def fieldSub (x y modulus : List Nat) : List Nat :=
  let r := sub x y arrayLength
  if r.2 ≠ 0 then
    let tempas := (add r.1 modulus arrayLength).1
    copy tempas r.1 arrayLength
  else r.1

/-- One pass of the inner loop of `fieldMult`: the 64-bit product `x[n] * y[k]` is
placed in `temp[n+k]`, `temp[n+k+1]` and added into `result` from word `n+k` up. -/
def fieldMultInner (x y : List Nat) (length k : Nat) (result : List Nat) (n : Nat) : List Nat :=
  let l := (x.getD n 0 * y.getD k 0) % 2 ^ 64
  let temp := ((setZero (length * 2)).set (n + k) (l &&& 0xFFFFFFFF)).set (n + k + 1) (l >>> 32)
  let s := add (temp.drop (n + k)) (result.drop (n + k)) (length * 2 - (n + k))
  result.take (n + k) ++ s.1

/-- `fieldMult(x, y, result, length)`: the `2 * length` words written to `result`. -/
def fieldMult (x y : List Nat) (length : Nat) : List Nat :=
  (List.range length).foldl
    (fun result k => (List.range length).foldl (fieldMultInner x y length k) result)
    (setZero (length * 2))

/-- The term `S1` formed by `fieldModP256`. -/
def formS1 (B : List Nat) : List Nat :=
  (List.range 8).map fun n => if n < 3 then 0 else B.getD (n + 8) 0

/-- The term `S2` formed by `fieldModP256`. -/
def formS2 (B : List Nat) : List Nat :=
  (List.range 8).map fun n => if n < 3 then 0 else if n < 7 then B.getD (n + 9) 0 else 0

/-- The term `S3` formed by `fieldModP256`. -/
def formS3 (B : List Nat) : List Nat :=
  (List.range 8).map fun n => if n < 3 then B.getD (n + 8) 0 else if n < 6 then 0 else B.getD (n + 8) 0

/-- The term `S4` formed by `fieldModP256`. -/
def formS4 (B : List Nat) : List Nat :=
  (List.range 8).map fun n =>
    if n < 3 then B.getD (n + 9) 0 else if n < 6 then B.getD (n + 10) 0
    else if n < 7 then B.getD (n + 7) 0 else B.getD (n + 1) 0

/-- The term `D1` formed by `fieldModP256`. -/
def formD1 (B : List Nat) : List Nat :=
  (List.range 8).map fun n =>
    if n < 3 then B.getD (n + 11) 0 else if n < 6 then 0
    else if n < 7 then B.getD (n + 2) 0 else B.getD (n + 3) 0

/-- The term `D2` formed by `fieldModP256`. -/
def formD2 (B : List Nat) : List Nat :=
  (List.range 8).map fun n =>
    if n < 4 then B.getD (n + 12) 0 else if n < 6 then 0
    else if n < 7 then B.getD (n + 3) 0 else B.getD (n + 4) 0

/-- The term `D3` formed by `fieldModP256`. -/
def formD3 (B : List Nat) : List Nat :=
  (List.range 8).map fun n =>
    if n < 3 then B.getD (n + 13) 0 else if n < 6 then B.getD (n + 5) 0
    else if n < 7 then 0 else B.getD (n + 5) 0

/-- The term `D4` formed by `fieldModP256`. -/
def formD4 (B : List Nat) : List Nat :=
  (List.range 8).map fun n =>
    if n < 2 then B.getD (n + 14) 0 else if n < 3 then 0
    else if n < 6 then B.getD (n + 6) 0 else if n < 7 then 0 else B.getD (n + 6) 0

/-- `fieldModP256(A, B)` with the globals `ecc_prime_m`, `ecc_prime_r` passed explicitly:
the eight words written to `A`. -/
def fieldModP256 (ecc_prime_m ecc_prime_r B : List Nat) : List Nat :=
  let A := copy B (setZero 8) arrayLength
  let tempm2 := fieldAdd A (formS1 B) ecc_prime_r
  let A := fieldAdd tempm2 (formS1 B) ecc_prime_r
  let tempm2 := fieldAdd A (formS2 B) ecc_prime_r
  let A := fieldAdd tempm2 (formS2 B) ecc_prime_r
  let tempm2 := fieldAdd A (formS3 B) ecc_prime_r
  let A := fieldAdd tempm2 (formS4 B) ecc_prime_r
  let tempm2 := fieldSub A (formD1 B) ecc_prime_m
  let A := fieldSub tempm2 (formD2 B) ecc_prime_m
  let tempm2 := fieldSub A (formD3 B) ecc_prime_m
  let A := fieldSub tempm2 (formD4 B) ecc_prime_m
  if isGreater A ecc_prime_m arrayLength ≥ 0 then
    copy (fieldSub A ecc_prime_m ecc_prime_m) A arrayLength
  else A

/-- Final loop of `fieldModX`: `while (isGreater(result, modulus, result_length) == 1)`
subtract the modulus in place. -/
def fieldModXLoop (modulus : List Nat) (result_length : Nat) : Nat → List Nat → Option (List Nat)
  | 0, _ => none
  | fuel + 1, result =>
    if isGreater result modulus result_length = 1 then
      fieldModXLoop modulus result_length fuel
        (copy (sub result modulus result_length).1 result result_length)
    else some result

/-- `fieldModX(A, result, length, modulus, mu, k, result_length)`: the contents of
`result` afterwards.  The test guarding the second shortcut is
`isZero((uint32_t*)A + (sizeof(uint32_t) * arrayLength))`, which inspects the eight
words `A[32..39]`; these lie outside every buffer passed in and are supplied as
`stray`. -/
def fieldModX (fuel : Nat) (A stray result : List Nat) (length : Nat) (modulus mu : List Nat)
    (k result_length : Nat) : Option (List Nat) :=
  if length = arrayLength ∧ isGreater A modulus arrayLength ≤ 0 then
    some (copy A result arrayLength)
  else if length = 2 * arrayLength ∧ isZero stray = true ∧
      isGreater A modulus result_length ≤ 0 then
    some (copy A result result_length)
  else
    let q1 := rshiftby A length 9 (((k + (2 ^ 32 - 1)) % 2 ^ 32) % 2 ^ 8)
    let q2 := fieldMult mu q1 9
    let q3 := rshiftby q2 18 8 (((k + 1) % 2 ^ 32) % 2 ^ 8)
    let q2_tmp := fieldMult q3 modulus 8
    let result := copy (sub A q2_tmp result_length).1 result result_length
    fieldModXLoop modulus result_length fuel result

/-- `fieldAddAndDivide(x, modulus, reducer, result)`. -/
def fieldAddAndDivide (x modulus reducer : List Nat) : List Nat :=
  let r := add x modulus arrayLength
  let result := rshift r.1
  if r.2 ≠ 0 then
    let result := result.set 7 (result.getD 7 0 ||| 0x80000000)
    if isGreater result modulus arrayLength = 1 then
      copy (add result reducer 8).1 result arrayLength
    else result
  else result

/-- The two inner loops of `fieldInv` (`while (!(u[0] & 1))`, and the same for `v`):
halve `u` and halve `x1` modulo the modulus. -/
def fieldInvEven (modulus reducer : List Nat) : Nat → List Nat → List Nat →
    Option (List Nat × List Nat)
  | 0, _, _ => none
  | fuel + 1, u, x1 =>
    if u.getD 0 0 &&& 1 = 0 then
      let u := rshift u
      let x1 :=
        if x1.getD 0 0 &&& 1 = 0 then rshift x1
        else copy (fieldAddAndDivide x1 modulus reducer) x1 arrayLength
      fieldInvEven modulus reducer fuel u x1
    else some (u, x1)

/-- Outer loop of `fieldInv`, `while ((isOne(u) || isOne(v)) == 0)`, followed by the
selection of the result; `inner` is the fuel handed to each inner loop. -/
def fieldInvLoop (modulus reducer : List Nat) (inner : Nat) :
    Nat → List Nat → List Nat → List Nat → List Nat → Option (List Nat)
  | 0, _, _, _, _ => none
  | fuel + 1, u, v, x1, x2 =>
    if (isOne u || isOne v) = false then
      match fieldInvEven modulus reducer inner u x1 with
      | none => none
      | some (u, x1) =>
        match fieldInvEven modulus reducer inner v x2 with
        | none => none
        | some (v, x2) =>
          let t := sub u v arrayLength
          if t.2 % 2 ^ 8 = 0 then
            fieldInvLoop modulus reducer inner fuel (copy t.1 u arrayLength) v
              (copy (fieldSub x1 x2 modulus) x1 arrayLength) x2
          else
            fieldInvLoop modulus reducer inner fuel u (copy (sub v u arrayLength).1 v arrayLength)
              x1 (copy (fieldSub x2 x1 modulus) x2 arrayLength)
    else some (if isOne u then copy x1 (setZero 8) arrayLength else copy x2 (setZero 8) arrayLength)

/-- `fieldInv(A, modulus, reducer, B)`: the eight words written to `B`, or `none`
when the loops have not finished within `fuel` rounds. -/
def fieldInv (fuel : Nat) (A modulus reducer : List Nat) : Option (List Nat) :=
  fieldInvLoop modulus reducer fuel fuel
    (copy A (setZero 8) arrayLength) (copy modulus (setZero 8) arrayLength)
    ((setZero 8).set 0 1) (setZero 8)

/-! ## Constants and initialization -/

/-- The functions the pointer `fieldModP` can hold. -/
inductive ModFun where
  | fieldModP256
  | fieldModGeneric
  deriving DecidableEq, Repr

/-- The process-wide globals of `ecc.c` that select the active curve. -/
structure Params where
  ecc_param_a : List Nat
  ecc_prime_m : List Nat
  ecc_prime_p : List Nat
  ecc_prime_r : List Nat
  ecc_order_m : List Nat
  ecc_order_r : List Nat
  ecc_order_mu : List Nat
  ecc_prime_mu : List Nat
  ecc_g_point_x : List Nat
  ecc_g_point_y : List Nat
  ecc_order_k : Nat
  ecc_prime_shift : Nat
  fieldModP : ModFun
  deriving DecidableEq, Repr

def p256_a : List Nat := [0x00000003, 0x00000000, 0x00000000, 0x00000000, 0x00000000, 0x00000000, 0x00000000, 0x00000000]
def p256_p : List Nat := [0xffffffff, 0xffffffff, 0xffffffff, 0x00000000, 0x00000000, 0x00000000, 0x00000001, 0xffffffff, 0x00000000]
def p256_pr : List Nat := [0x00000001, 0x00000000, 0x00000000, 0xffffffff, 0xffffffff, 0xffffffff, 0xfffffffe, 0x00000000]
def p256_n : List Nat := [0xFC632551, 0xF3B9CAC2, 0xA7179E84, 0xBCE6FAAD, 0xFFFFFFFF, 0xFFFFFFFF, 0x00000000, 0xFFFFFFFF, 0x00000000]
def p256_or : List Nat := [0x039CDAAF, 0x0C46353D, 0x58E8617B, 0x43190552, 0x00000000, 0x00000000, 0xFFFFFFFF, 0x00000000]
def p256_omu : List Nat := [0xEEDF9BFE, 0x012FFD85, 0xDF1A6C21, 0x43190552, 0xFFFFFFFF, 0xFFFFFFFE, 0xFFFFFFFF, 0x00000000, 0x00000001]
def p256_pmu : List Nat := [0x00000003, 0x00000000, 0xffffffff, 0xfffffffe, 0xfffffffe, 0xfffffffe, 0xffffffff, 0x00000000, 0x00000001]
def p256_gx : List Nat := [0xD898C296, 0xF4A13945, 0x2DEB33A0, 0x77037D81, 0x63A440F2, 0xF8BCE6E5, 0xE12C4247, 0x6B17D1F2]
def p256_gy : List Nat := [0x37BF51F5, 0xCBB64068, 0x6B315ECE, 0x2BCE3357, 0x7C0F9E16, 0x8EE7EB4A, 0xFE1A7F9B, 0x4FE342E2]
def p256_k : Nat := 8
def p256_prime_shift : Nat := 0

def wei25519_a : List Nat := [0xb6eb5ea9, 0x55555567, 0x55555555, 0x55555555, 0x55555555, 0x55555555, 0x55555555, 0x55555555]
def wei25519_p : List Nat := [0xffffffed, 0xffffffff, 0xffffffff, 0xffffffff, 0xffffffff, 0xffffffff, 0xffffffff, 0x7fffffff, 0x00000000]
def wei25519_pr : List Nat := [0x00000013, 0x00000000, 0x00000000, 0x00000000, 0x00000000, 0x00000000, 0x00000000, 0x80000000]
def wei25519_n : List Nat := [0x5cf5d3ed, 0x5812631a, 0xa2f79cd6, 0x14def9de, 0x00000000, 0x00000000, 0x00000000, 0x10000000, 0x00000000]
def wei25519_or : List Nat := [0xa30a2c13, 0xa7ed9ce5, 0x5d086329, 0xeb210621, 0xffffffff, 0xffffffff, 0xffffffff, 0xefffffff]
def wei25519_omu : List Nat := [0x0a2c131b, 0xed9ce5a3, 0x086329a7, 0x2106215d, 0xffffffeb, 0xffffffff, 0xffffffff, 0xffffffff, 0x0000000f]
def wei25519_pmu : List Nat := [0x0000004c, 0x00000000, 0x00000000, 0x00000000, 0x00000000, 0x00000000, 0x00000000, 0x00000000, 0x00000002]
def wei25519_gx : List Nat := [0xaaad245a, 0xaaaaaaaa, 0xaaaaaaaa, 0xaaaaaaaa, 0xaaaaaaaa, 0xaaaaaaaa, 0xaaaaaaaa, 0x2aaaaaaa]
def wei25519_gy : List Nat := [0x7eced3d9, 0x29e9c5a2, 0x6d7c61b2, 0x923d4d7e, 0x7748d14c, 0xe01edd2c, 0xb8a086b4, 0x20ae19a1]
def wei25519_k : Nat := 8
def wei25519_prime_shift : Nat := 3

def wei25519_2_a : List Nat := [0x00000002, 0x00000000, 0x00000000, 0x00000000, 0x00000000, 0x00000000, 0x00000000, 0x00000000]
def wei25519_2_gx : List Nat := [0x7a940ffa, 0x5ee3c4e8, 0x072ea193, 0xd9ad4def, 0x582275b6, 0x318e8634, 0x78aed661, 0x17cfeac3]
def wei25519_2_gy : List Nat := [0x51e16b4d, 0xf0d7fdcc, 0x297a37b6, 0xdc5c331d, 0xa8f68dca, 0x2c4f13f1, 0xc55dfad6, 0x0c08a952]

/-- The static `init` of `ecc.c`: stores its arguments in the globals and returns 0
(the parameter `b` is not stored). -/
def init (a p n pr or_ omu pmu gx gy : List Nat) (k prime_shift : Nat) (modfun : ModFun) :
    Int × Params :=
  (0, { ecc_param_a := a, ecc_prime_m := p, ecc_prime_p := p, ecc_prime_r := pr,
        ecc_order_m := n, ecc_order_r := or_, ecc_order_mu := omu, ecc_prime_mu := pmu,
        ecc_g_point_x := gx, ecc_g_point_y := gy, ecc_order_k := k,
        ecc_prime_shift := prime_shift, fieldModP := modfun })

/-- Enumerators of `ec_curve_t`. -/
def SECP256R1 : Nat := 0
/-- Enumerator of `ec_curve_t`. -/
def WEI25519 : Nat := 1
/-- Enumerator of `ec_curve_t`. -/
def WEI25519_2 : Nat := 2

/-- `ecc_ec_init(curve)` run on the globals `g`: the return value and the globals afterwards. -/
def ecc_ec_init (g : Params) (curve : Nat) : Int × Params :=
  if curve = SECP256R1 then
    init p256_a p256_p p256_n p256_pr p256_or p256_omu p256_pmu p256_gx p256_gy p256_k
      p256_prime_shift ModFun.fieldModP256
  else if curve = WEI25519 then
    init wei25519_a wei25519_p wei25519_n wei25519_pr wei25519_or wei25519_omu wei25519_pmu
      wei25519_gx wei25519_gy wei25519_k wei25519_prime_shift ModFun.fieldModGeneric
  else if curve = WEI25519_2 then
    init wei25519_2_a wei25519_p wei25519_n wei25519_pr wei25519_or wei25519_omu wei25519_pmu
      wei25519_2_gx wei25519_2_gy wei25519_k wei25519_prime_shift ModFun.fieldModGeneric
  else (-1, g)

/-- The globals as statically initialised ("initialize with P-256 by default"). -/
def initialParams : Params :=
  { ecc_param_a := p256_a, ecc_prime_m := p256_p, ecc_prime_p := p256_p, ecc_prime_r := p256_pr,
    ecc_order_m := p256_n, ecc_order_r := p256_or, ecc_order_mu := p256_omu,
    ecc_prime_mu := p256_pmu, ecc_g_point_x := p256_gx, ecc_g_point_y := p256_gy,
    ecc_order_k := p256_k, ecc_prime_shift := p256_prime_shift, fieldModP := ModFun.fieldModP256 }

/-- The globals after `ecc_ec_init(SECP256R1)`. -/
def secp256r1 : Params := (ecc_ec_init initialParams SECP256R1).2
/-- The globals after `ecc_ec_init(WEI25519)`. -/
def wei25519 : Params := (ecc_ec_init initialParams WEI25519).2
/-- The globals after `ecc_ec_init(WEI25519_2)`. -/
def wei25519_2 : Params := (ecc_ec_init initialParams WEI25519_2).2

/-! ## Reductions through the active curve -/

/-- `fieldModGeneric(A, B)`: `fieldModX(B, A, 2 * arrayLength, ecc_prime_p, ecc_prime_mu,
ecc_order_k, 8)`. -/
def fieldModGeneric (g : Params) (fuel : Nat) (stray B : List Nat) : Option (List Nat) :=
  fieldModX fuel B stray (setZero 8) (2 * arrayLength) g.ecc_prime_p g.ecc_prime_mu g.ecc_order_k 8

/-- `fieldModO(A, result, length)`: `fieldModX(A, result, length, ecc_order_m, ecc_order_mu,
ecc_order_k, 9)`. -/
def fieldModO (g : Params) (fuel : Nat) (stray A result : List Nat) (length : Nat) :
    Option (List Nat) :=
  fieldModX fuel A stray result length g.ecc_order_m g.ecc_order_mu g.ecc_order_k 9

/-- Call through the pointer `fieldModP(result, A)`. -/
def fieldModP (g : Params) (fuel : Nat) (stray A : List Nat) : Option (List Nat) :=
  match g.fieldModP with
  | ModFun.fieldModP256 => some (fieldModP256 g.ecc_prime_m g.ecc_prime_r A)
  | ModFun.fieldModGeneric => fieldModGeneric g fuel stray A

/-! ## Group law and scalar multiplication -/

/-- `ec_double(px, py, Dx, Dy)`: the words written to `Dx` and `Dy`. -/
def ec_double (g : Params) (fuel : Nat) (stray px py : List Nat) : Option (List Nat × List Nat) :=
  if isZero px && isZero py then
    some (copy px (setZero 8) arrayLength, copy py (setZero 8) arrayLength)
  else do
    let tempD := fieldMult px px arrayLength
    let tempC ← fieldModP g fuel stray tempD
    let tempA := (setZero 8).set 0 0x00000003
    let tempD := fieldMult tempC tempA arrayLength
    let tempC ← fieldModP g fuel stray tempD
    let tempA := fieldSub tempC g.ecc_param_a g.ecc_prime_m
    let tempB := fieldAdd py py g.ecc_prime_r
    let tempC ← fieldInv fuel tempB g.ecc_prime_m g.ecc_prime_r
    let tempD := fieldMult tempA tempC arrayLength
    let tempB ← fieldModP g fuel stray tempD
    let tempD := fieldMult tempB tempB arrayLength
    let tempC ← fieldModP g fuel stray tempD
    let tempA := fieldSub tempC px g.ecc_prime_m
    let Dx := fieldSub tempA px g.ecc_prime_m
    let tempA := fieldSub px Dx g.ecc_prime_m
    let tempD := fieldMult tempB tempA arrayLength
    let tempC ← fieldModP g fuel stray tempD
    let Dy := fieldSub tempC py g.ecc_prime_m
    pure (Dx, Dy)

/-- `ec_add(px, py, qx, qy, Sx, Sy)`: the words written to `Sx` and `Sy`. -/
def ec_add (g : Params) (fuel : Nat) (stray px py qx qy : List Nat) :
    Option (List Nat × List Nat) :=
  if isZero px && isZero py then
    some (copy qx (setZero 8) arrayLength, copy qy (setZero 8) arrayLength)
  else if isZero qx && isZero qy then
    some (copy px (setZero 8) arrayLength, copy py (setZero 8) arrayLength)
  else if isSame px qx arrayLength then
    if !isSame py qy arrayLength then
      some (setZero 8, setZero 8)
    else
      ec_double g fuel stray px py
  else do
    let tempA := fieldSub py qy g.ecc_prime_m
    let tempB := fieldSub px qx g.ecc_prime_m
    let tempB ← fieldInv fuel tempB g.ecc_prime_m g.ecc_prime_r
    let tempD := fieldMult tempA tempB arrayLength
    let tempC ← fieldModP g fuel stray tempD
    let tempD := fieldMult tempC tempC arrayLength
    let tempA ← fieldModP g fuel stray tempD
    let tempB := fieldSub tempA px g.ecc_prime_m
    let Sx := fieldSub tempB qx g.ecc_prime_m
    let tempB := fieldSub qx Sx g.ecc_prime_m
    let tempD := fieldMult tempC tempB arrayLength
    let tempC ← fieldModP g fuel stray tempD
    let Sy := fieldSub tempC qy g.ecc_prime_m
    pure (Sx, Sy)

/-- Body of the loop of `ecc_ec_mult` for the index `i`, acting on `(Qx, Qy)`. -/
def ecc_ec_mult_body (g : Params) (fuel : Nat) (stray px py secret : List Nat) (i : Nat)
    (Q : List Nat × List Nat) : Option (List Nat × List Nat) := do
  let temp ← ec_double g fuel stray Q.1 Q.2
  let Q := (copy temp.1 Q.1 arrayLength, copy temp.2 Q.2 arrayLength)
  if secret.getD (i / 32) 0 &&& ((1 <<< (i % 32)) % 2 ^ 32) ≠ 0 then
    let temp ← ec_add g fuel stray Q.1 Q.2 px py
    pure (copy temp.1 Q.1 arrayLength, copy temp.2 Q.2 arrayLength)
  else pure Q

/-- Loop `for (i = 256; i--;)` of `ecc_ec_mult`: `i` is the value of the counter before
the test; the second component counts the iterations performed. -/
def ecc_ec_mult_loop (g : Params) (fuel : Nat) (stray px py secret : List Nat) :
    Nat → List Nat × List Nat → Nat → Option ((List Nat × List Nat) × Nat)
  | 0, Q, count => some (Q, count)
  | i + 1, Q, count =>
    match ecc_ec_mult_body g fuel stray px py secret i Q with
    | none => none
    | some Q => ecc_ec_mult_loop g fuel stray px py secret i Q (count + 1)

/-- `ecc_ec_mult(px, py, secret, resultx, resulty)`: the words written to `resultx`,
`resulty`. -/
def ecc_ec_mult (g : Params) (fuel : Nat) (stray px py secret : List Nat) :
    Option (List Nat × List Nat) :=
  match ecc_ec_mult_loop g fuel stray px py secret 256 (setZero 8, setZero 8) 0 with
  | none => none
  | some (Q, _) => some (copy Q.1 (setZero 8) arrayLength, copy Q.2 (setZero 8) arrayLength)

/-- `ecc_ecdh` of `ecc.h`. -/
def ecc_ecdh (g : Params) (fuel : Nat) (stray px py secret : List Nat) :
    Option (List Nat × List Nat) :=
  ecc_ec_mult g fuel stray px py secret

/-- `ecc_is_valid_key(priv_key)`. -/
def ecc_is_valid_key (g : Params) (priv_key : List Nat) : Int :=
  if isGreater g.ecc_order_m priv_key arrayLength = 1 then 1 else 0

/-! ## ECDSA -/

/-- The loop `for (i = 0; i < ecc_prime_shift; i++) rshift(z)`. -/
def shiftDigest (g : Params) (z : List Nat) : List Nat :=
  Nat.iterate rshift g.ecc_prime_shift z

/-- `ecc_ecdsa_sign(d, e, k, r, s)`: the return value and the contents of the output
buffers `r` and `s` afterwards (`r`, `s` on the left are their contents before). -/
def ecc_ecdsa_sign (g : Params) (fuel : Nat) (stray d e k r s : List Nat) :
    Option (Int × List Nat × List Nat) :=
  if isZero k then some (-1, r, s)
  else do
    let kG ← ecc_ec_mult g fuel stray g.ecc_g_point_x g.ecc_g_point_y k
    let tmp2 := (copy kG.1 (setZero 9) arrayLength).set 8 0x00000000
    let r ← fieldModO g fuel stray tmp2 r 8
    if isZero r then some (-1, r, s)
    else do
      let tmp1 := fieldMult r d arrayLength
      let tmp2 ← fieldModO g fuel stray tmp1 tmp2 16
      let z := shiftDigest g (copy e (setZero 8) 8)
      let tmp1 := setZero 16
      let a := add z tmp2 8
      let tmp1 := (copy a.1 tmp1 8).set 8 a.2
      let tmp3 ← fieldModO g fuel stray tmp1 (setZero 9) 16
      let kinv ← fieldInv fuel k g.ecc_order_m g.ecc_order_r
      let tmp2 := copy kinv tmp2 arrayLength
      let tmp1 := fieldMult tmp2 tmp3 arrayLength
      let s ← fieldModO g fuel stray tmp1 s 16
      if isZero s then some (-1, r, s) else some (0, r, s)

/-- `ecc_ecdsa_validate(x, y, e, r, s)`: the return value. -/
def ecc_ecdsa_validate (g : Params) (fuel : Nat) (stray x y e r s : List Nat) : Option Int := do
  let w ← fieldInv fuel s g.ecc_order_m g.ecc_order_r
  let z := shiftDigest g (copy e (setZero 8) 8)
  let tmp := fieldMult z w arrayLength
  let u1 ← fieldModO g fuel stray tmp (setZero 9) 16
  let tmp := fieldMult r w arrayLength
  let u2 ← fieldModO g fuel stray tmp (setZero 9) 16
  let tmp1 ← ecc_ec_mult g fuel stray g.ecc_g_point_x g.ecc_g_point_y u1
  let tmp2 ← ecc_ec_mult g fuel stray x y u2
  let tmp3 ← ec_add g fuel stray tmp1.1 tmp1.2 tmp2.1 tmp2.2
  let u1 := copy tmp3.1 u1 arrayLength
  let tmp3_x ← fieldModO g fuel stray u1 (setZero 8) 9
  pure (if isSame tmp3_x r arrayLength then 0 else -1)

/-! ## Double-and-add as the specification words it -/

/-- Bit `i` of the scalar as the specification words it: `(secret[i/32] >> (i%32)) & 1`. -/
def scalarBit (secret : List Nat) (i : Nat) : Nat :=
  (secret.getD (i / 32) 0 >>> (i % 32)) &&& 1

/-- One step of the recurrence of the specification: `D = ec_double(Q)`, then `ec_add(D, P)`
when bit `i` of the scalar is set, else `D`. -/
def doubleAndAddStep (g : Params) (fuel : Nat) (stray px py secret : List Nat)
    (Q : List Nat × List Nat) (i : Nat) : Option (List Nat × List Nat) :=
  match ec_double g fuel stray Q.1 Q.2 with
  | none => none
  | some D => if scalarBit secret i = 1 then ec_add g fuel stray D.1 D.2 px py else some D

/-- The recurrence of the specification from `Q` down through the indices `i - 1, ..., 0`. -/
def doubleAndAddFrom (g : Params) (fuel : Nat) (stray px py secret : List Nat) :
    Nat → List Nat × List Nat → Option (List Nat × List Nat)
  | 0, Q => some Q
  | i + 1, Q =>
    match doubleAndAddStep g fuel stray px py secret Q i with
    | none => none
    | some Q => doubleAndAddFrom g fuel stray px py secret i Q

/-- Left-to-right double-and-add of the specification: `Q_256 = (0,0)` and `Q_0` is returned. -/
def doubleAndAdd (g : Params) (fuel : Nat) (stray px py secret : List Nat) :
    Option (List Nat × List Nat) :=
  doubleAndAddFrom g fuel stray px py secret 256 (setZero 8, setZero 8)

/-! ## Conversions between curve models (`convert.c`) -/

namespace Convert

/-- Constant `A` of `convert.c`. -/
def A : List Nat := [0x00076d06, 0x00000000, 0x00000000, 0x00000000, 0x00000000, 0x00000000, 0x00000000, 0x00000000]
/-- Constant `A_3` of `convert.c`. -/
def A_3 : List Nat := [0x000279ac, 0x00000000, 0x00000000, 0x00000000, 0x00000000, 0x00000000, 0x00000000, 0x00000000]
/-- Constant `delta` of `convert.c`. -/
def delta : List Nat := [0xaaad2451, 0xaaaaaaaa, 0xaaaaaaaa, 0xaaaaaaaa, 0xaaaaaaaa, 0xaaaaaaaa, 0xaaaaaaaa, 0x2aaaaaaa]
/-- Constant `c` of `convert.c`. -/
def c : List Nat := [0x00ba81e7, 0x3391fb55, 0xb482e57d, 0x3a5e2c2e, 0xfc03b081, 0x2d84f723, 0x9f5ff944, 0x70d9120b]
/-- Constant `minus_one` of `convert.c`. -/
def minus_one : List Nat := [0xffffffec, 0xffffffff, 0xffffffff, 0xffffffff, 0xffffffff, 0xffffffff, 0xffffffff, 0x7fffffff]
/-- Constant `three` of `short_weierstrass_to_twisted_edwards`. -/
def three : List Nat := [0x00000003, 0x00000000, 0x00000000, 0x00000000, 0x00000000, 0x00000000, 0x00000000, 0x00000000]

/-- `ecc_isZero(A)` of `convert.c`. -/
def ecc_isZero (A : List Nat) : Bool :=
  ((List.range 8).filter (fun n => A.getD n 0 == 0)).length == 8

end Convert

/-- `twisted_edwards_to_short_weierstrass(px, py, rx, ry)`: the words written to `rx`, `ry`. -/
def twisted_edwards_to_short_weierstrass (g : Params) (fuel : Nat) (stray px py : List Nat) :
    Option (List Nat × List Nat) :=
  if Convert.ecc_isZero px ∧ Convert.ecc_isZero py then
    some (setZero arrayLength, setZero arrayLength)
  else if Convert.ecc_isZero px ∧ isSame py Convert.minus_one arrayLength then
    some (copy Convert.A_3 (setZero 8) arrayLength, setZero arrayLength)
  else do
    let tmp := (setZero arrayLength).set 0 0x00000001
    let nom := fieldAdd tmp py g.ecc_prime_r
    let tmp2 := fieldSub tmp py g.ecc_prime_m
    let den ← fieldInv fuel tmp2 g.ecc_prime_m g.ecc_prime_r
    let mul := fieldMult nom den arrayLength
    let tmp ← fieldModP g fuel stray mul
    let mul := setZero 16
    let mul := copy (fieldAdd tmp Convert.delta g.ecc_prime_r) mul arrayLength
    let rx ← fieldModP g fuel stray mul
    let mul := fieldMult tmp2 px arrayLength
    let tmp ← fieldModP g fuel stray mul
    let mul := fieldMult Convert.c nom arrayLength
    let nom ← fieldModP g fuel stray mul
    let den ← fieldInv fuel tmp g.ecc_prime_m g.ecc_prime_r
    let mul := fieldMult nom den arrayLength
    let ry ← fieldModP g fuel stray mul
    pure (rx, ry)

/-- `short_weierstrass_to_twisted_edwards(px, py, rx, ry)`: the words written to `rx`, `ry`. -/
def short_weierstrass_to_twisted_edwards (g : Params) (fuel : Nat) (stray px py : List Nat) :
    Option (List Nat × List Nat) :=
  if Convert.ecc_isZero py ∧ Convert.ecc_isZero px then
    some (setZero arrayLength, setZero arrayLength)
  else if Convert.ecc_isZero py ∧ isSame px Convert.A_3 arrayLength then
    some (setZero arrayLength, copy Convert.minus_one (setZero 8) arrayLength)
  else do
    let mul := fieldMult Convert.three py arrayLength
    let tmp ← fieldModP g fuel stray mul
    let den ← fieldInv fuel tmp g.ecc_prime_m g.ecc_prime_r
    let mul := fieldMult Convert.three px arrayLength
    let tmp ← fieldModP g fuel stray mul
    let pa := fieldSub tmp Convert.A g.ecc_prime_m
    let mul := fieldMult Convert.c pa arrayLength
    let nom ← fieldModP g fuel stray mul
    let mul := fieldMult nom den arrayLength
    let rx ← fieldModP g fuel stray mul
    let nom := fieldSub pa Convert.three g.ecc_prime_m
    let den := fieldAdd pa Convert.three g.ecc_prime_r
    let tmp ← fieldInv fuel den g.ecc_prime_m g.ecc_prime_r
    let mul := fieldMult nom tmp arrayLength
    let ry ← fieldModP g fuel stray mul
    pure (rx, ry)

/-- `short_weierstrass_to_montgomery(px, py, rx, ry)`: the words written to `rx`, `ry`.
The local `tmp` has `arrayLength` words, while `ecc_fieldModP` reads sixteen words from the
address it is given; the eight words that follow `tmp` in memory are supplied as `junk`. -/
def short_weierstrass_to_montgomery (g : Params) (fuel : Nat) (stray junk px py : List Nat) :
    Option (List Nat × List Nat) :=
  let ry := copy py (setZero 8) arrayLength
  if Convert.ecc_isZero px && Convert.ecc_isZero py then
    some (copy px (setZero 8) arrayLength, ry)
  else do
    let tmp := fieldSub px Convert.delta g.ecc_prime_m
    let rx ← fieldModP g fuel stray (tmp ++ junk)
    pure (rx, ry)

/-- `montgomery_to_short_weierstrass(px, py, rx, ry)`: the words written to `rx`, `ry`.
The local `tmp` has `arrayLength` words, while `ecc_fieldModP` reads sixteen words from the
address it is given; the eight words that follow `tmp` in memory are supplied as `junk`. -/
def montgomery_to_short_weierstrass (g : Params) (fuel : Nat) (stray junk px py : List Nat) :
    Option (List Nat × List Nat) :=
  let ry := copy py (setZero 8) arrayLength
  if Convert.ecc_isZero px && Convert.ecc_isZero py then
    some (copy px (setZero 8) arrayLength, ry)
  else do
    let tmp := fieldAdd px Convert.delta g.ecc_prime_r
    let rx ← fieldModP g fuel stray (tmp ++ junk)
    pure (rx, ry)

/-! ## Curve equation as the specification words it -/

/-- The point `(x, y)` satisfies `y² ≡ x³ + a·x + b (mod p)`. -/
def onCurve (a b p x y : Nat) : Prop :=
  (y * y) % p = (x * x * x + a * x + b) % p

instance (a b p x y : Nat) : Decidable (onCurve a b p x y) := by
  unfold onCurve; infer_instance

/-- The constant term of the curve `y^2 = x^3 + 0x2 x + b` documented for `WEI25519_2`. -/
def wei25519_2_b : Nat := 0x1ac1da05b55bc14633bd39e47f94302ef19843dcf669916f6a5dfd0165538cd1

/-! ## Auxiliary: canonical words of a number -/

/-- The `n` little-endian 32-bit words of `v` (of `v mod 2^(32 n)`); not part of the source,
used to name the word sequence that a computed value determines. -/
def toLimbs : Nat → Nat → List Nat
  | 0, _ => []
  | n + 1, v => (v % 2 ^ 32) :: toLimbs n (v / 2 ^ 32)

/-! ## Auxiliary: the field functions on values

The functions below are not translations of further source code: they restate the
functions above on the numbers denoted by the word sequences, so that results determined
by a value can be computed on numbers.  Each is proved equal to the function it restates. -/

/-- Value computed by `fieldAdd` on the values `x`, `y` of its operands; `r` is the value of
the reducer. -/
def fieldAddV (x y r : Nat) : Nat :=
  let x := x % 2 ^ 256
  let y := y % 2 ^ 256
  if x + y < 2 ^ 256 then x + y else (x + y - 2 ^ 256 + r) % 2 ^ 256

/-- Value computed by `fieldSub` on the values `x`, `y` of its operands; `m` is the value of
the modulus. -/
def fieldSubV (x y m : Nat) : Nat :=
  let x := x % 2 ^ 256
  let y := y % 2 ^ 256
  if y ≤ x then x - y else (x + 2 ^ 256 - y + m) % 2 ^ 256

/-- Value computed by `fieldAddAndDivide`. -/
def fieldAddAndDivideV (x m r : Nat) : Nat :=
  let x := x % 2 ^ 256
  let n := x + m
  let result := (n % 2 ^ 256) / 2
  if 2 ^ 256 ≤ n then
    let result := result + 2 ^ 255
    if result > m then (result + r) % 2 ^ 256 else result
  else result

/-- The inner loops of `fieldInv` on values. -/
def fieldInvEvenV (m r : Nat) : Nat → Nat → Nat → Option (Nat × Nat)
  | 0, _, _ => none
  | fuel + 1, u, x1 =>
    if u % 2 = 0 then
      fieldInvEvenV m r fuel (u / 2) (if x1 % 2 = 0 then x1 / 2 else fieldAddAndDivideV x1 m r)
    else some (u, x1)

/-- The outer loop of `fieldInv` on values. -/
def fieldInvLoopV (m r inner : Nat) : Nat → Nat → Nat → Nat → Nat → Option Nat
  | 0, _, _, _, _ => none
  | fuel + 1, u, v, x1, x2 =>
    if u ≠ 1 ∧ v ≠ 1 then
      match fieldInvEvenV m r inner u x1 with
      | none => none
      | some (u, x1) =>
        match fieldInvEvenV m r inner v x2 with
        | none => none
        | some (v, x2) =>
          if v ≤ u then fieldInvLoopV m r inner fuel (u - v) v (fieldSubV x1 x2 m) x2
          else fieldInvLoopV m r inner fuel u (v - u) x1 (fieldSubV x2 x1 m)
    else some (if u = 1 then x1 else x2)

/-- Value computed by `fieldInv` for the operand value `a`. -/
def fieldInvV (fuel a m r : Nat) : Option Nat :=
  fieldInvLoopV m r fuel fuel (a % 2 ^ 256) m 1 0

/-- The final loop of `fieldModX` on values. -/
def fieldModXLoopV (m : Nat) : Nat → Nat → Option Nat
  | 0, _ => none
  | fuel + 1, v => if v > m then fieldModXLoopV m fuel (v - m) else some v

/-- The Barrett part of `fieldModX` (after the two shortcuts) on the value `a` of the input:
the value left in the first `rl` words of `result`. -/
def barrettV (fuel a length m mu k rl : Nat) : Option Nat :=
  let q1 := (a % 2 ^ (32 * length)) / 2 ^ (32 * (((k + (2 ^ 32 - 1)) % 2 ^ 32) % 2 ^ 8)) %
    2 ^ (32 * 9)
  let q2 := (mu % 2 ^ (32 * 9)) * q1
  let q3 := q2 / 2 ^ (32 * (((k + 1) % 2 ^ 32) % 2 ^ 8)) % 2 ^ (32 * 8)
  let q2_tmp := q3 * (m % 2 ^ (32 * 8))
  let r := (a % 2 ^ (32 * rl) + 2 ^ (32 * rl) - q2_tmp % 2 ^ (32 * rl)) % 2 ^ (32 * rl)
  fieldModXLoopV (m % 2 ^ (32 * rl)) fuel r

/-- Value computed by `fieldModP256` for the sixteen input words of value `b`; `m` and `r`
are the values of the first eight words of `ecc_prime_m` and of `ecc_prime_r`. -/
def fieldModP256V (m r b : Nat) : Nat :=
  let B := toLimbs 16 b
  let tempm2 := fieldAddV b (value (formS1 B)) r
  let A := fieldAddV tempm2 (value (formS1 B)) r
  let tempm2 := fieldAddV A (value (formS2 B)) r
  let A := fieldAddV tempm2 (value (formS2 B)) r
  let tempm2 := fieldAddV A (value (formS3 B)) r
  let A := fieldAddV tempm2 (value (formS4 B)) r
  let tempm2 := fieldSubV A (value (formD1 B)) m
  let A := fieldSubV tempm2 (value (formD2 B)) m
  let tempm2 := fieldSubV A (value (formD3 B)) m
  let A := fieldSubV tempm2 (value (formD4 B)) m
  if A ≥ m then fieldSubV A m m else A

/-- Value computed by `fieldModGeneric` for the sixteen input words of value `b`;
`strayZero` tells whether the eight words tested by the shortcut are all zero. -/
def fieldModGenericV (fuel : Nat) (strayZero : Bool) (p pmu k b : Nat) : Option Nat :=
  if strayZero = true ∧ b % 2 ^ 256 ≤ p % 2 ^ 256 then some (b % 2 ^ 256)
  else barrettV fuel (b % 2 ^ (32 * 16)) 16 p pmu k 8

/-- Extended Euclid with `fuel` rounds: with `s0 * a ≡ r0` and `s1 * a ≡ r1 (mod m)`
maintained, the coefficient belonging to the last non-zero remainder. -/
def xgcdAux (m : Nat) : Nat → Nat → Nat → Nat → Nat → Nat
  | 0, _, _, s0, _ => s0
  | fuel + 1, r0, r1, s0, s1 =>
    if r1 = 0 then s0
    else xgcdAux m fuel r1 (r0 % r1) s1 ((s0 + (m - (r0 / r1 * s1) % m)) % m)

/-- The value returned by `fieldInv`, computed by Euclid's algorithm where its result is
checked to be the inverse (and the fuel covers the crude bound `a + m` on the rounds of
`fieldInv`); the loop of `fieldInv` itself otherwise. -/
def fieldInvFastV (fuel a m r : Nat) : Option Nat :=
  if m < 2 ^ 256 ∧ r < 2 ^ 256 ∧ m % 2 = 1 ∧ 1 < m ∧ a % 2 ^ 256 + m ≤ fuel ∧
      xgcdAux m 600 m (a % 2 ^ 256 % m) 0 1 < m ∧
      (xgcdAux m 600 m (a % 2 ^ 256 % m) 0 1 * (a % 2 ^ 256)) % m = 1 then
    some (xgcdAux m 600 m (a % 2 ^ 256 % m) 0 1)
  else fieldInvV fuel a m r

/-- The numbers denoted by the active curve parameters. -/
structure CurveV where
  a : Nat
  p : Nat
  pfull : Nat
  r : Nat
  pmu : Nat
  n : Nat
  nfull : Nat
  nr : Nat
  nmu : Nat
  k : Nat
  shift : Nat
  modfun : ModFun
  deriving DecidableEq, Repr

/-- The values of the parameters `g`: of the first eight words where the code reads eight
words, of all words where it reads the whole array. -/
def curveV (g : Params) : CurveV :=
  { a := value (g.ecc_param_a.take 8), p := value (g.ecc_prime_m.take 8),
    pfull := value g.ecc_prime_p, r := value (g.ecc_prime_r.take 8),
    pmu := value g.ecc_prime_mu, n := value (g.ecc_order_m.take 8),
    nfull := value g.ecc_order_m, nr := value (g.ecc_order_r.take 8),
    nmu := value g.ecc_order_mu, k := g.ecc_order_k, shift := g.ecc_prime_shift,
    modfun := g.fieldModP }

/-- The parameter arrays consist of 32-bit words and have the sizes the code relies on. -/
def wellFormed (g : Params) : Prop :=
  Limbs g.ecc_param_a ∧ 8 ≤ g.ecc_param_a.length ∧
  Limbs g.ecc_prime_m ∧ 8 ≤ g.ecc_prime_m.length ∧
  Limbs g.ecc_prime_p ∧ 8 ≤ g.ecc_prime_p.length ∧
  Limbs g.ecc_prime_r ∧ 8 ≤ g.ecc_prime_r.length ∧
  Limbs g.ecc_prime_mu ∧ 9 ≤ g.ecc_prime_mu.length ∧
  Limbs g.ecc_order_m ∧ 9 ≤ g.ecc_order_m.length ∧
  Limbs g.ecc_order_r ∧ 8 ≤ g.ecc_order_r.length ∧
  Limbs g.ecc_order_mu ∧ 9 ≤ g.ecc_order_mu.length

instance (g : Params) : Decidable (wellFormed g) := by
  unfold wellFormed; infer_instance

/-- Word `i` of the number `b`. -/
def wordAt (b i : Nat) : Nat := b / 2 ^ (32 * i) % 2 ^ 32

/-- The value computed by `fieldModP256`, with the terms `S1..S4`, `D1..D4` written out on the
words of `b` (equal to `fieldModP256V`). -/
def fieldModP256W (m r b : Nat) : Nat :=
  let tempm2 := fieldAddV b
    (value [0, 0, 0, wordAt b 11, wordAt b 12, wordAt b 13, wordAt b 14, wordAt b 15]) r
  let A := fieldAddV tempm2
    (value [0, 0, 0, wordAt b 11, wordAt b 12, wordAt b 13, wordAt b 14, wordAt b 15]) r
  let tempm2 := fieldAddV A
    (value [0, 0, 0, wordAt b 12, wordAt b 13, wordAt b 14, wordAt b 15, 0]) r
  let A := fieldAddV tempm2
    (value [0, 0, 0, wordAt b 12, wordAt b 13, wordAt b 14, wordAt b 15, 0]) r
  let tempm2 := fieldAddV A
    (value [wordAt b 8, wordAt b 9, wordAt b 10, 0, 0, 0, wordAt b 14, wordAt b 15]) r
  let A := fieldAddV tempm2
    (value [wordAt b 9, wordAt b 10, wordAt b 11, wordAt b 13, wordAt b 14, wordAt b 15,
      wordAt b 13, wordAt b 8]) r
  let tempm2 := fieldSubV A
    (value [wordAt b 11, wordAt b 12, wordAt b 13, 0, 0, 0, wordAt b 8, wordAt b 10]) m
  let A := fieldSubV tempm2
    (value [wordAt b 12, wordAt b 13, wordAt b 14, wordAt b 15, 0, 0, wordAt b 9, wordAt b 11]) m
  let tempm2 := fieldSubV A
    (value [wordAt b 13, wordAt b 14, wordAt b 15, wordAt b 8, wordAt b 9, wordAt b 10, 0,
      wordAt b 12]) m
  let A := fieldSubV tempm2
    (value [wordAt b 14, wordAt b 15, 0, wordAt b 9, wordAt b 10, wordAt b 11, 0, wordAt b 13]) m
  if A ≥ m then fieldSubV A m m else A

/-- Value computed through the pointer `fieldModP` for sixteen input words of value `b`. -/
def fieldModPV (c : CurveV) (fuel : Nat) (strayZero : Bool) (b : Nat) : Option Nat :=
  match c.modfun with
  | ModFun.fieldModP256 => some (fieldModP256W c.p c.r b)
  | ModFun.fieldModGeneric => fieldModGenericV fuel strayZero c.pfull c.pmu c.k b

/-- `ec_double` on the values of the coordinates. -/
def ec_doubleV (c : CurveV) (fuel : Nat) (strayZero : Bool) (px py : Nat) : Option (Nat × Nat) :=
  if (decide (px % 2 ^ 256 = 0) && decide (py % 2 ^ 256 = 0)) = true then some (px, py)
  else
    (fieldModPV c fuel strayZero (px % 2 ^ 256 * (px % 2 ^ 256))).bind fun tempC =>
    (fieldModPV c fuel strayZero (tempC % 2 ^ 256 * (3 % 2 ^ 256))).bind fun tempC =>
    (fieldInvFastV fuel (fieldAddV py py c.r) c.p c.r).bind fun inv =>
    (fieldModPV c fuel strayZero (fieldSubV tempC c.a c.p % 2 ^ 256 * (inv % 2 ^ 256))).bind
      fun tempB =>
    (fieldModPV c fuel strayZero (tempB % 2 ^ 256 * (tempB % 2 ^ 256))).bind fun tempC =>
    (fieldModPV c fuel strayZero
      (tempB % 2 ^ 256 * (fieldSubV px (fieldSubV (fieldSubV tempC px c.p) px c.p) c.p %
        2 ^ 256))).bind fun t =>
    some (fieldSubV (fieldSubV tempC px c.p) px c.p, fieldSubV t py c.p)

/-- `ec_add` on the values of the coordinates. -/
def ec_addV (c : CurveV) (fuel : Nat) (strayZero : Bool) (px py qx qy : Nat) :
    Option (Nat × Nat) :=
  if (decide (px % 2 ^ 256 = 0) && decide (py % 2 ^ 256 = 0)) = true then some (qx, qy)
  else if (decide (qx % 2 ^ 256 = 0) && decide (qy % 2 ^ 256 = 0)) = true then some (px, py)
  else if decide (px % 2 ^ 256 = qx % 2 ^ 256) = true then
    if (!decide (py % 2 ^ 256 = qy % 2 ^ 256)) = true then some (0, 0)
    else ec_doubleV c fuel strayZero px py
  else
    (fieldInvFastV fuel (fieldSubV px qx c.p) c.p c.r).bind fun inv =>
    (fieldModPV c fuel strayZero (fieldSubV py qy c.p % 2 ^ 256 * (inv % 2 ^ 256))).bind
      fun lam =>
    (fieldModPV c fuel strayZero (lam % 2 ^ 256 * (lam % 2 ^ 256))).bind fun tempA =>
    (fieldModPV c fuel strayZero
      (lam % 2 ^ 256 * (fieldSubV qx (fieldSubV (fieldSubV tempA px c.p) qx c.p) c.p %
        2 ^ 256))).bind fun t =>
    some (fieldSubV (fieldSubV tempA px c.p) qx c.p, fieldSubV t qy c.p)

/-- The words of a pair of coordinate values. -/
def pointLimbs (Q : Nat × Nat) : List Nat × List Nat := (toLimbs 8 Q.1, toLimbs 8 Q.2)

/-- Evaluates `n` before handing it to `f` (it equals `f n`); keeps intermediate values in
normal form when the functions on values are computed. -/
def strictNat {α : Type} (n : Nat) (f : Nat → α) : α :=
  match n with
  | 0 => f 0
  | k + 1 => f (k + 1)

/-- The double-and-add recurrence on the values of the coordinates. -/
def doubleAndAddFromV (c : CurveV) (fuel : Nat) (strayZero : Bool) (px py : Nat)
    (secret : List Nat) : Nat → Nat × Nat → Option (Nat × Nat)
  | 0, Q => some Q
  | i + 1, Q =>
    match ec_doubleV c fuel strayZero Q.1 Q.2 with
    | none => none
    | some D =>
      match (if scalarBit secret i = 1 then ec_addV c fuel strayZero D.1 D.2 px py
             else some D) with
      | none => none
      | some Q =>
        strictNat Q.1 fun x => strictNat Q.2 fun y =>
          doubleAndAddFromV c fuel strayZero px py secret i (x, y)

/-- `ecc_ec_mult` on the values of the coordinates of the point. -/
def ecc_ec_multV (c : CurveV) (fuel : Nat) (strayZero : Bool) (px py : Nat)
    (secret : List Nat) : Option (Nat × Nat) :=
  doubleAndAddFromV c fuel strayZero px py secret 256 (0, 0)

/-- Contents of `result` in `fieldModX` when control reaches the final `while` loop (neither
shortcut taken): `r = r1 - r2` on `result_length` words. -/
def fieldModXResidue (A result : List Nat) (length : Nat) (modulus mu : List Nat)
    (k result_length : Nat) : List Nat :=
  let q1 := rshiftby A length 9 (((k + (2 ^ 32 - 1)) % 2 ^ 32) % 2 ^ 8)
  let q2 := fieldMult mu q1 9
  let q3 := rshiftby q2 18 8 (((k + 1) % 2 ^ 32) % 2 ^ 8)
  let q2_tmp := fieldMult q3 modulus 8
  copy (sub A q2_tmp result_length).1 result result_length

/-- The words of the number one. -/
def oneWords : List Nat := [1, 0, 0, 0, 0, 0, 0, 0]

/-- First coordinate of a point used to exercise `ec_add` on SECP256R1:
`1 + (2^65 + (2^32 - 1) * 2^128)^-1 mod p`. -/
def chordP_x : List Nat :=
  [0x8469ee59, 0xa7b9611a, 0xe58469ee, 0x8d3dcb08, 0xf72c2350, 0xb08d3dc9, 0xb08d3dcc, 0xb9611a7a]

/-- Second coordinate of the same point: `1 + 2^224`. -/
def chordP_y : List Nat := [1, 0, 0, 0, 0, 0, 0, 1]

/-- Second coordinate used to exercise `twisted_edwards_to_short_weierstrass` on WEI25519: the
`y` with `(1 + y)·(1 - y)^-1 + delta ≡ 0 (mod p)`. -/
def edwardsT_y : List Nat :=
  [0x45d57852, 0x9b859ccf, 0xdc01ceb5, 0x4e8d8b6c, 0x1c27023a, 0xc829d5a6, 0x645ae035, 0x0ccb1f98]

/-- `twisted_edwards_to_short_weierstrass` on the values of the coordinates. -/
def twisted_edwards_to_short_weierstrassV (c : CurveV) (fuel : Nat) (strayZero : Bool)
    (px py : Nat) : Option (Nat × Nat) :=
  if decide (px % 2 ^ 256 = 0) = true ∧ decide (py % 2 ^ 256 = 0) = true then some (0, 0)
  else if decide (px % 2 ^ 256 = 0) = true ∧
      decide (py % 2 ^ 256 = value Convert.minus_one % 2 ^ 256) = true then
    some (value Convert.A_3, 0)
  else
    (fieldInvFastV fuel (fieldSubV 1 py c.p) c.p c.r).bind fun den =>
    (fieldModPV c fuel strayZero (fieldAddV 1 py c.r % 2 ^ 256 * (den % 2 ^ 256))).bind fun tmp =>
    (fieldModPV c fuel strayZero
      (fieldAddV tmp (value (Convert.delta.take 8)) c.r % 2 ^ 256)).bind fun rx =>
    (fieldModPV c fuel strayZero (fieldSubV 1 py c.p % 2 ^ 256 * (px % 2 ^ 256))).bind fun tmp =>
    (fieldModPV c fuel strayZero
      (value Convert.c % 2 ^ 256 * (fieldAddV 1 py c.r % 2 ^ 256))).bind fun nom =>
    (fieldInvFastV fuel tmp c.p c.r).bind fun den =>
    (fieldModPV c fuel strayZero (nom % 2 ^ 256 * (den % 2 ^ 256))).bind fun ry =>
    some (rx, ry)

/-- Constant term `b` of the curve Wei25519, `y² = x³ + a·x + b` over `2^255 - 19`, whose
coefficient `a` is `p - wei25519_a` (the array `wei25519_a` holds `-a`). -/
def wei25519_b : Nat := 0x7b425ed097b425ed097b425ed097b425ed097b425ed097b4260b5e9c7710c864

/-- First coordinate of the double of the base point of WEI25519. -/
def wei25519_dbl_x : List Nat :=
  [0x8815734c, 0x0758f147, 0xc8dfb607, 0x39ea0797, 0x27c01bbf, 0x841fb713, 0xc31e9c62, 0x4b7ded7f]

/-- Second coordinate of the double of the base point of WEI25519. -/
def wei25519_dbl_y : List Nat :=
  [0xc72df563, 0xbcd70465, 0x8d8d391e, 0x77659eb2, 0x5d2ba2f3, 0x050a0094, 0x1700e8ae, 0x13b57e01]

/-- The words of the scalar two. -/
def twoWords : List Nat := [2, 0, 0, 0, 0, 0, 0, 0]

/-- The words of the scalar three. -/
def threeWords : List Nat := [3, 0, 0, 0, 0, 0, 0, 0]

/-- `short_weierstrass_to_twisted_edwards` on the values of the coordinates. -/
def short_weierstrass_to_twisted_edwardsV (c : CurveV) (fuel : Nat) (strayZero : Bool)
    (px py : Nat) : Option (Nat × Nat) :=
  if decide (py % 2 ^ 256 = 0) = true ∧ decide (px % 2 ^ 256 = 0) = true then some (0, 0)
  else if decide (py % 2 ^ 256 = 0) = true ∧
      decide (px % 2 ^ 256 = value Convert.A_3 % 2 ^ 256) = true then
    some (0, value Convert.minus_one)
  else
    (fieldModPV c fuel strayZero (value Convert.three % 2 ^ 256 * (py % 2 ^ 256))).bind fun tmp =>
    (fieldInvFastV fuel tmp c.p c.r).bind fun den =>
    (fieldModPV c fuel strayZero (value Convert.three % 2 ^ 256 * (px % 2 ^ 256))).bind fun tmp =>
    (fieldModPV c fuel strayZero
      (value Convert.c % 2 ^ 256 * (fieldSubV tmp (value Convert.A) c.p % 2 ^ 256))).bind
      fun nom =>
    (fieldModPV c fuel strayZero (nom % 2 ^ 256 * (den % 2 ^ 256))).bind fun rx =>
    (fieldInvFastV fuel (fieldAddV (fieldSubV tmp (value Convert.A) c.p) (value Convert.three)
      c.r) c.p c.r).bind fun inv =>
    (fieldModPV c fuel strayZero
      (fieldSubV (fieldSubV tmp (value Convert.A) c.p) (value Convert.three) c.p % 2 ^ 256 *
        (inv % 2 ^ 256))).bind fun ry =>
    some (rx, ry)

/-- Constant `ed25519_Gx` of `testconvert.c`: first coordinate of the Ed25519 base point. -/
def ed25519_Gx : List Nat :=
  [0x8f25d51a, 0xc9562d60, 0x9525a7b2, 0x692cc760, 0xfdd6dc5c, 0xc0a4e231, 0xcd6e53fe, 0x216936d3]

/-- Constant `ed25519_Gy` of `testconvert.c`: second coordinate of the Ed25519 base point. -/
def ed25519_Gy : List Nat :=
  [0x66666658, 0x66666666, 0x66666666, 0x66666666, 0x66666666, 0x66666666, 0x66666666, 0x66666666]

/-- `fieldModX` on the value `a` of the input, as a function of the content `result` of the
output buffer before the call (which is at most `rl` words long). -/
def fieldModXV (fuel a : Nat) (strayZero : Bool) (result : List Nat) (length m mu k rl : Nat) :
    Option (List Nat) :=
  if length = arrayLength ∧ a % 2 ^ 256 ≤ m % 2 ^ 256 then
    some (copy (toLimbs 8 a) result arrayLength)
  else if length = 2 * arrayLength ∧ strayZero = true ∧ a % 2 ^ (32 * rl) ≤ m % 2 ^ (32 * rl) then
    some (toLimbs rl a)
  else (barrettV fuel a length m mu k rl).map (toLimbs rl)

/-- `ecc_ecdsa_sign` on the values `d`, `e` of the key and the digest. -/
def ecc_ecdsa_signV (c : CurveV) (fuel : Nat) (strayZero : Bool) (gx gy d e : Nat)
    (k r s : List Nat) : Option (Int × List Nat × List Nat) :=
  if isZero k then some (-1, r, s)
  else
    match ecc_ec_multV c fuel strayZero gx gy k with
    | none => none
    | some kG =>
      match fieldModXV fuel (kG.1 % 2 ^ 256) strayZero r 8 c.nfull c.nmu c.k 9 with
      | none => none
      | some r =>
        if isZero r then some (-1, r, s)
        else
          match fieldModXV fuel (value (r.take 8) * (d % 2 ^ 256)) strayZero [] 16 c.nfull
              c.nmu c.k 9 with
          | none => none
          | some tmp2 =>
            match fieldModXV fuel ((e % 2 ^ 256) / 2 ^ c.shift + value (tmp2.take 8)) strayZero
                [] 16 c.nfull c.nmu c.k 9 with
            | none => none
            | some tmp3 =>
              match fieldInvFastV fuel (value k) c.n c.nr with
              | none => none
              | some kinv =>
                match fieldModXV fuel ((kinv % 2 ^ 256) * value (tmp3.take 8)) strayZero s 16
                    c.nfull c.nmu c.k 9 with
                | none => none
                | some s => if isZero s then some (-1, r, s) else some (0, r, s)

/-- `ecc_ecdsa_validate` on the values of the public key and the digest. -/
def ecc_ecdsa_validateV (c : CurveV) (fuel : Nat) (strayZero : Bool) (gx gy x y e : Nat)
    (r s : List Nat) : Option Int :=
  match fieldInvFastV fuel (value (s.take 8)) c.n c.nr with
  | none => none
  | some w =>
    match fieldModXV fuel ((e % 2 ^ 256) / 2 ^ c.shift * (w % 2 ^ 256)) strayZero [] 16 c.nfull
        c.nmu c.k 9 with
    | none => none
    | some u1 =>
      match fieldModXV fuel (value (r.take 8) * (w % 2 ^ 256)) strayZero [] 16 c.nfull c.nmu
          c.k 9 with
      | none => none
      | some u2 =>
        match ecc_ec_multV c fuel strayZero gx gy u1 with
        | none => none
        | some tmp1 =>
          match ecc_ec_multV c fuel strayZero x y u2 with
          | none => none
          | some tmp2 =>
            match ec_addV c fuel strayZero tmp1.1 tmp1.2 tmp2.1 tmp2.2 with
            | none => none
            | some tmp3 =>
              match fieldModXV fuel (tmp3.1 % 2 ^ 256 + 2 ^ 256 * u1.getD 8 0) strayZero [] 9
                  c.nfull c.nmu c.k 9 with
              | none => none
              | some tmp3_x => some (if isSame tmp3_x r arrayLength then 0 else -1)

/-- Digest used to exercise the sign/verify round trip on WEI25519_2 with `d = 1`, `k = 2`:
`e = 8 z` with `z ≡ -3 r (mod n)`, `r` being the first coordinate of `ecc_ec_mult(G, 2)`
reduced modulo `n`. -/
def roundTrip_e : List Nat :=
  [0x13dc65f0, 0x11e3abad, 0x47ca2560, 0x7562fd56, 0xdbe5a1bb, 0x190eb212, 0x33209121, 0x7e648442]

/-- Private key used to exercise `ecc_ecdsa_sign` on SECP256R1: `⌈2^288 / Gx⌉`, for which the
product `Gx * d` has a zero ninth word and low eight words below `n`. -/
def signTest_d : List Nat := [0x63f42deb, 0x00000002, 0x00000000, 0x00000000, 0x00000000, 0x00000000, 0x00000000, 0x00000000]

/-- Constant term `b` of the curve P-256, `y² = x³ - 3 x + b`. -/
def p256_b : Nat := 0x5ac635d8aa3a93e7b3ebbd55769886bc651d06b0cc53b0f63bce3c3e27d2604b

/-- First coordinate of a point of P-256 used to exercise `ecc_ecdsa_validate`:
`2^192 - 2^96 + 1`, which times `2^96 + 1` is `2^288 + 1`. -/
def verifyTest_x : List Nat := [0x00000001, 0x00000000, 0x00000000, 0xffffffff, 0xffffffff, 0xffffffff, 0x00000000, 0x00000000]

/-- Second coordinate of that point. -/
def verifyTest_y : List Nat :=
  [0xd40e1bc0, 0x2b875e28, 0x070d5c71, 0x59a3e554, 0x36951474, 0xc08643b5, 0x7596245b, 0xe7f018e6]

/-- The `s` of the signature used to exercise `ecc_ecdsa_validate`: the inverse of `2^96 + 1`
modulo the order of P-256. -/
def verifyTest_s : List Nat :=
  [0x4834e78f, 0x269adc8a, 0xa38aec9d, 0xf44e52d6, 0xe508f1d9, 0x1af70e25, 0xbea93508, 0x937f4bb2]

/-- The scalar `(2^288 + 1) mod n` for the order `n` of P-256, in nine words. -/
def verifyTest_u2 : List Nat :=
  [0x00000001, 0x039cdaaf, 0x0c46353d, 0x58e8617b, 0x43190552, 0x00000000, 0x00000000, 0xffffffff, 0x00000000]

/-- The value of `sizeof(uint32_t)`. -/
def sizeofUint32 : Nat := 4

/-- Word indices, counted from `A`, inspected by the test
`isZero((uint32_t*)A + (sizeof(uint32_t) * arrayLength))` of `fieldModX`: `isZero` reads the
words `0 .. 7` of its argument, and the argument is `A` advanced by
`sizeof(uint32_t) * arrayLength` words. -/
def shortcutReads : List Nat := (List.range 8).map (fun n => sizeofUint32 * arrayLength + n)

/-- `fieldModX` called on a buffer `A` lying at the start of the memory region `mem`: the
input is the first `length` words of `mem`, and the words tested by the second shortcut are
those at the indices `shortcutReads`. -/
def fieldModXAt (fuel : Nat) (mem result : List Nat) (length : Nat) (modulus mu : List Nat)
    (k result_length : Nat) : Option (List Nat) :=
  fieldModX fuel (mem.take length) (shortcutReads.map (fun i => mem.getD i 0)) result length
    modulus mu k result_length

/-- A 16-word input of value `2^288`; its upper half, words 8 to 15, is not zero. -/
def shortcutInput : List Nat := [0, 0, 0, 0, 0, 0, 0, 0, 0, 1, 0, 0, 0, 0, 0, 0]

/-- The u-coordinate `9` of the Montgomery base point of Curve25519. -/
def nineWords : List Nat := [9, 0, 0, 0, 0, 0, 0, 0]

/-- Square-and-multiply with `fuel` rounds: `acc * a ^ e` modulo `m`. -/
def powModAux (m : Nat) : Nat → Nat → Nat → Nat → Nat
  | 0, _, _, acc => acc
  | fuel + 1, a, e, acc =>
    if e = 0 then acc
    else
      strictNat (a * a % m) fun a2 =>
        strictNat (if e % 2 = 1 then acc * a % m else acc) fun acc2 =>
          powModAux m fuel a2 (e / 2) acc2

/-- The certificate of Lucas for `p`: `a ^ (p - 1) ≡ 1` and `a ^ ((p - 1) / f) ≢ 1` for
each `f` of the list `fs`, some power of whose product is a multiple of `p - 1`. -/
def lucasCert (p a : Nat) (fs : List Nat) : Bool :=
  decide (1 < p) && decide (p - 1 < 2 ^ 256) && decide (fs.prod ^ 256 % (p - 1) = 0) &&
    decide (powModAux p 256 a (p - 1) 1 % p = 1) &&
    fs.all (fun f => decide (powModAux p 256 a ((p - 1) / f) 1 % p ≠ 1))

/-! ## Properties of the big number functions -/

theorem and_mask32 (a : Nat) : a &&& 0xFFFFFFFF = a % 2 ^ 32 := by
  have h := Nat.and_pow_two_sub_one_eq_mod a 32
  simpa using h

theorem limbs_nil : Limbs [] := by intro w hw; cases hw

theorem limbs_cons {a : Nat} {as : List Nat} : Limbs (a :: as) ↔ a < 2 ^ 32 ∧ Limbs as := by
  simp [Limbs]

theorem limbs_append {xs ys : List Nat} : Limbs (xs ++ ys) ↔ Limbs xs ∧ Limbs ys := by
  simp [Limbs, or_imp, forall_and]

theorem limbs_take {xs : List Nat} (n : Nat) (h : Limbs xs) : Limbs (xs.take n) :=
  fun w hw => h w (List.mem_of_mem_take hw)

theorem limbs_drop {xs : List Nat} (n : Nat) (h : Limbs xs) : Limbs (xs.drop n) :=
  fun w hw => h w (List.mem_of_mem_drop hw)

theorem limbs_replicate_zero (n : Nat) : Limbs (List.replicate n 0) := by
  intro w hw
  rw [List.eq_of_mem_replicate hw]; decide

theorem value_nil : value [] = 0 := rfl

theorem value_cons (a : Nat) (as : List Nat) : value (a :: as) = a + 2 ^ 32 * value as := rfl

theorem value_lt : ∀ {xs : List Nat}, Limbs xs → value xs < 2 ^ (32 * xs.length)
  | [], _ => by simp [value]
  | a :: as, h => by
    have ha := (limbs_cons.1 h).1
    have ih := value_lt (limbs_cons.1 h).2
    have e : 2 ^ (32 * (a :: as).length) = 2 ^ 32 * 2 ^ (32 * as.length) := by
      rw [List.length_cons, Nat.mul_succ, Nat.pow_add, Nat.mul_comm]
    rw [e, value_cons]
    have : 2 ^ 32 * (value as + 1) ≤ 2 ^ 32 * 2 ^ (32 * as.length) := Nat.mul_le_mul_left _ ih
    omega

theorem value_append (xs ys : List Nat) :
    value (xs ++ ys) = value xs + 2 ^ (32 * xs.length) * value ys := by
  induction xs with
  | nil => simp [value]
  | cons a as ih =>
    rw [List.cons_append, value_cons, ih, value_cons, List.length_cons, Nat.mul_succ, Nat.pow_add]
    ring

theorem value_replicate_zero (n : Nat) : value (List.replicate n 0) = 0 := by
  induction n with
  | zero => rfl
  | succ n ih => rw [List.replicate_succ, value_cons, ih]; rfl

/-- Specification of the carry chain of `add`. -/
theorem addLoop_spec : ∀ (x y : List Nat) (d : Nat), x.length = y.length → Limbs x → Limbs y →
    d ≤ 1 →
    value (addLoop x y d).1 + 2 ^ (32 * x.length) * (addLoop x y d).2 = value x + value y + d ∧
    (addLoop x y d).2 ≤ 1 ∧ (addLoop x y d).1.length = x.length ∧ Limbs (addLoop x y d).1
  | [], [], d, _, _, _, hd => by
    simp only [addLoop, value_nil, List.length_nil]
    refine ⟨by omega, by omega, trivial, limbs_nil⟩
  | [], _ :: _, _, hl, _, _, _ => by simp at hl
  | _ :: _, [], _, hl, _, _, _ => by simp at hl
  | a :: as, b :: bs, d, hl, hx, hy, hd => by
    have ha := (limbs_cons.1 hx).1
    have hb := (limbs_cons.1 hy).1
    have hd1 : (d + (a + b) % 2 ^ 64) % 2 ^ 64 = d + a + b := by omega
    have ih := addLoop_spec as bs ((d + a + b) >>> 32) (by simpa using hl) (limbs_cons.1 hx).2
      (limbs_cons.1 hy).2 (by rw [Nat.shiftRight_eq_div_pow]; omega)
    simp only [addLoop, hd1]
    obtain ⟨h1, h2, h3, h4⟩ := ih
    refine ⟨?_, h2, by simp [h3], limbs_cons.2 ⟨by omega, h4⟩⟩
    rw [Nat.shiftRight_eq_div_pow] at h1
    have e : 2 ^ (32 * (a :: as).length) = 2 ^ 32 * 2 ^ (32 * as.length) := by
      rw [List.length_cons, Nat.mul_succ, Nat.pow_add, Nat.mul_comm]
    rw [e, value_cons, value_cons, value_cons, Nat.mul_assoc]
    have := Nat.div_add_mod (d + a + b) (2 ^ 32)
    have h5 : 2 ^ 32 * (value (addLoop as bs ((d + a + b) >>> 32)).1 +
        2 ^ (32 * as.length) * (addLoop as bs ((d + a + b) >>> 32)).2) =
        2 ^ 32 * (value as + value bs + (d + a + b) / 2 ^ 32) := by
      rw [Nat.shiftRight_eq_div_pow, h1]
    rw [Nat.shiftRight_eq_div_pow] at h5 ⊢
    rw [Nat.mul_add] at h5
    omega

theorem add_spec (x y : List Nat) (n : Nat) (hx : Limbs x) (hy : Limbs y)
    (hlx : n ≤ x.length) (hly : n ≤ y.length) :
    value (add x y n).1 + 2 ^ (32 * n) * (add x y n).2 = value (x.take n) + value (y.take n) ∧
    (add x y n).2 ≤ 1 ∧ (add x y n).1.length = n ∧ Limbs (add x y n).1 := by
  have h := addLoop_spec (x.take n) (y.take n) 0 (by simp [hlx, hly]) (limbs_take n hx)
    (limbs_take n hy) (by omega)
  simpa [add, hlx] using h

/-- Specification of the borrow chain of `sub`. -/
theorem subLoop_spec : ∀ (x y : List Nat) (d : Nat), x.length = y.length → Limbs x → Limbs y →
    d ≤ 1 →
    value (subLoop x y d).1 + value y + d = value x + 2 ^ (32 * x.length) * (subLoop x y d).2 ∧
    (subLoop x y d).2 ≤ 1 ∧ (subLoop x y d).1.length = x.length ∧ Limbs (subLoop x y d).1
  | [], [], d, _, _, _, hd => by
    simp only [subLoop, value_nil, List.length_nil]
    refine ⟨by omega, by omega, trivial, limbs_nil⟩
  | [], _ :: _, _, hl, _, _, _ => by simp at hl
  | _ :: _, [], _, hl, _, _, _ => by simp at hl
  | a :: as, b :: bs, d, hl, hx, hy, hd => by
    have ha := (limbs_cons.1 hx).1
    have hb := (limbs_cons.1 hy).1
    have hd1 : ((a + (2 ^ 64 - b % 2 ^ 64)) % 2 ^ 64 + (2 ^ 64 - d % 2 ^ 64)) % 2 ^ 64 =
        (a + 2 ^ 64 - b - d) % 2 ^ 64 := by omega
    have hb1 : (((a + 2 ^ 64 - b - d) % 2 ^ 64) >>> 32) &&& 1 = if a < b + d then 1 else 0 := by
      rw [Nat.and_one_is_mod, Nat.shiftRight_eq_div_pow]
      split <;> omega
    have hl1 : ((a + 2 ^ 64 - b - d) % 2 ^ 64) &&& 0xFFFFFFFF =
        if a < b + d then a + 2 ^ 32 - b - d else a - b - d := by
      rw [and_mask32]
      split <;> omega
    have ih := subLoop_spec as bs (if a < b + d then 1 else 0) (by simpa using hl)
      (limbs_cons.1 hx).2 (limbs_cons.1 hy).2 (by split <;> omega)
    simp only [subLoop, hd1, hb1, hl1]
    obtain ⟨h1, h2, h3, h4⟩ := ih
    refine ⟨?_, h2, by simp [h3], limbs_cons.2 ⟨by split <;> omega, h4⟩⟩
    have e : 2 ^ (32 * (a :: as).length) = 2 ^ 32 * 2 ^ (32 * as.length) := by
      rw [List.length_cons, Nat.mul_succ, Nat.pow_add, Nat.mul_comm]
    rw [e, value_cons, value_cons, value_cons, Nat.mul_assoc]
    have h5 := congrArg (fun t => 2 ^ 32 * t) h1
    simp only [Nat.mul_add] at h5
    split at h5 <;> rename_i hc <;> simp only [hc, if_true, if_false] <;> omega

theorem sub_spec (x y : List Nat) (n : Nat) (hx : Limbs x) (hy : Limbs y)
    (hlx : n ≤ x.length) (hly : n ≤ y.length) :
    value (sub x y n).1 + value (y.take n) = value (x.take n) + 2 ^ (32 * n) * (sub x y n).2 ∧
    (sub x y n).2 ≤ 1 ∧ (sub x y n).1.length = n ∧ Limbs (sub x y n).1 := by
  have h := subLoop_spec (x.take n) (y.take n) 0 (by simp [hlx, hly]) (limbs_take n hx)
    (limbs_take n hy) (by omega)
  simpa [sub, hlx] using h

/-- The borrow returned by `sub` is set exactly when the minuend is the smaller value. -/
theorem sub_borrow (x y : List Nat) (n : Nat) (hx : Limbs x) (hy : Limbs y)
    (hlx : n ≤ x.length) (hly : n ≤ y.length) :
    ((sub x y n).2 = 0 ↔ value (y.take n) ≤ value (x.take n)) := by
  obtain ⟨h1, h2, h3, h4⟩ := sub_spec x y n hx hy hlx hly
  have hr := value_lt h4
  have hxl := value_lt (limbs_take n hx)
  rw [h3] at hr
  simp only [List.length_take, Nat.min_eq_left hlx] at hxl
  constructor
  · intro h0; rw [h0] at h1; omega
  · intro hle
    by_contra hne
    have : (sub x y n).2 = 1 := by omega
    rw [this] at h1; omega

theorem length_eight {A : List Nat} (h : A.length = 8) :
    ∃ a0 a1 a2 a3 a4 a5 a6 a7, A = [a0, a1, a2, a3, a4, a5, a6, a7] := by
  match A, h with
  | [a0, a1, a2, a3, a4, a5, a6, a7], _ => exact ⟨a0, a1, a2, a3, a4, a5, a6, a7, rfl⟩

theorem range_seven : List.range 7 = [0, 1, 2, 3, 4, 5, 6] := by decide

theorem range_eight : List.range 8 = [0, 1, 2, 3, 4, 5, 6, 7] := by decide

theorem isZero_spec {A : List Nat} (h : A.length = 8) : isZero A = true ↔ value A = 0 := by
  obtain ⟨a0, a1, a2, a3, a4, a5, a6, a7, rfl⟩ := length_eight h
  have hz : isZero [a0, a1, a2, a3, a4, a5, a6, a7] = true ↔
      (a0 = 0 ∧ a1 = 0 ∧ a2 = 0 ∧ a3 = 0 ∧ a4 = 0 ∧ a5 = 0 ∧ a6 = 0 ∧ a7 = 0) := by
    unfold isZero
    rw [beq_iff_eq]
    have h8 : ∀ (p : Nat → Bool), ((List.range 8).filter p).length = 8 ↔
        ∀ a ∈ List.range 8, p a = true := fun p => by
      have := @List.filter_length_eq_length _ p (List.range 8)
      simpa using this
    rw [h8, range_eight]
    simp
  rw [hz]
  simp only [value]
  omega

theorem isOne_spec {A : List Nat} (h : A.length = 8) : isOne A = true ↔ value A = 1 := by
  obtain ⟨a0, a1, a2, a3, a4, a5, a6, a7, rfl⟩ := length_eight h
  have hz : isOne [a0, a1, a2, a3, a4, a5, a6, a7] = true ↔
      (a0 = 1 ∧ a1 = 0 ∧ a2 = 0 ∧ a3 = 0 ∧ a4 = 0 ∧ a5 = 0 ∧ a6 = 0 ∧ a7 = 0) := by
    unfold isOne
    rw [range_seven]
    simp
    tauto
  rw [hz]
  simp only [value]
  omega

theorem lowbit_spec {A : List Nat} (h : A ≠ []) : A.getD 0 0 &&& 1 = value A % 2 := by
  match A, h with
  | a :: as, _ =>
    rw [Nat.and_one_is_mod, List.getD_cons_zero, value_cons]
    omega

/-- Specification of the bit chain of `rshift`. -/
theorem rshiftLoop_spec : ∀ (l : List Nat), Limbs l →
    value (rshiftLoop l).1 = value l / 2 ∧ (rshiftLoop l).2 = value l % 2 ∧
    (rshiftLoop l).1.length = l.length ∧ Limbs (rshiftLoop l).1
  | [], _ => by simp [rshiftLoop, value, limbs_nil]
  | a :: as, hl => by
    have ha := (limbs_cons.1 hl).1
    obtain ⟨h1, h2, h3, h4⟩ := rshiftLoop_spec as (limbs_cons.1 hl).2
    have hb : (rshiftLoop as).2 ≤ 1 := by omega
    have ha2 : a >>> 1 < 2 ^ 31 := by rw [Nat.shiftRight_eq_div_pow]; omega
    have hor : (a >>> 1) ||| (((rshiftLoop as).2 <<< 31) % 2 ^ 32) =
        a >>> 1 + (rshiftLoop as).2 * 2 ^ 31 := by
      have hb' : (rshiftLoop as).2 = 0 ∨ (rshiftLoop as).2 = 1 := by omega
      rcases hb' with h0 | h0 <;> rw [h0]
      · simp
      · have e1 : (1 <<< 31) % 2 ^ 32 = 2 ^ 31 * 1 := by decide
        rw [e1, Nat.lor_comm, ← Nat.mul_add_lt_is_or ha2 1]
        omega
    simp only [rshiftLoop, hor]
    rw [Nat.shiftRight_eq_div_pow] at ha2 ⊢
    refine ⟨?_, ?_, by simp [h3], limbs_cons.2 ⟨by omega, h4⟩⟩
    · rw [value_cons, value_cons, h1, h2]; omega
    · rw [Nat.and_one_is_mod, value_cons]; omega

theorem rshift_spec {A : List Nat} (h : A.length = 8) (hl : Limbs A) :
    value (rshift A) = value A / 2 ∧ (rshift A).length = 8 ∧ Limbs (rshift A) := by
  have e1 : A.take 8 = A := List.take_of_length_le (by omega)
  have e2 : A.drop 8 = [] := List.drop_of_length_le (by omega)
  obtain ⟨h1, _, h3, h4⟩ := rshiftLoop_spec A hl
  simp only [rshift, e1, e2, List.append_nil]
  exact ⟨h1, by omega, h4⟩

theorem value_take_succ : ∀ (xs : List Nat) (i : Nat), i < xs.length →
    value (xs.take (i + 1)) = value (xs.take i) + 2 ^ (32 * i) * xs.getD i 0
  | [], _, h => by simp at h
  | a :: as, 0, _ => by simp [value]
  | a :: as, i + 1, h => by
    have ih := value_take_succ as i (by simpa using h)
    rw [List.take_succ_cons, value_cons, ih, List.take_succ_cons, value_cons, List.getD_cons_succ,
      Nat.mul_succ, Nat.pow_add]
    ring

theorem getD_lt {xs : List Nat} (h : Limbs xs) (i : Nat) : xs.getD i 0 < 2 ^ 32 := by
  by_cases hi : i < xs.length
  · rw [List.getD_eq_getElem _ _ hi]; exact h _ (List.getElem_mem _)
  · rw [List.getD_eq_default _ _ (by omega)]; decide

/-- `isGreater` compares the values of the first `n` words. -/
theorem isGreater_spec (A B : List Nat) (hA : Limbs A) (hB : Limbs B) :
    ∀ n, n ≤ A.length → n ≤ B.length →
    isGreater A B n = (if value (A.take n) > value (B.take n) then 1
      else if value (A.take n) < value (B.take n) then -1 else 0)
  | 0, _, _ => by simp [isGreater, value]
  | i + 1, h1, h2 => by
    have ih := isGreater_spec A B hA hB i (by omega) (by omega)
    have ea := value_take_succ A i (by omega)
    have eb := value_take_succ B i (by omega)
    have la := value_lt (limbs_take i hA)
    have lb := value_lt (limbs_take i hB)
    have ga := getD_lt hA i
    have gb := getD_lt hB i
    simp only [List.length_take, Nat.min_eq_left (show i ≤ A.length by omega)] at la
    simp only [List.length_take, Nat.min_eq_left (show i ≤ B.length by omega)] at lb
    rw [isGreater, ih, ea, eb]
    generalize 2 ^ (32 * i) = P at *
    generalize value (List.take i A) = va at *
    generalize value (List.take i B) = vb at *
    generalize A.getD i 0 = a at *
    generalize B.getD i 0 = b at *
    by_cases hab : a > b
    · have : P * (b + 1) ≤ P * a := Nat.mul_le_mul_left _ hab
      have h3 : va + P * a > vb + P * b := by rw [Nat.mul_add] at this; omega
      simp [hab, h3]
    · by_cases hba : a < b
      · have : P * (a + 1) ≤ P * b := Nat.mul_le_mul_left _ hba
        have h3 : va + P * a < vb + P * b := by rw [Nat.mul_add] at this; omega
        have h4 : ¬ (va + P * a > vb + P * b) := by omega
        simp only [hab, hba, h3, h4, if_true, if_false]
      · have : a = b := by omega
        subst this
        simp only [hab, hba, if_false]
        by_cases c1 : va > vb
        · have : va + P * a > vb + P * a := by omega
          simp only [c1, this, if_true]
        · by_cases c2 : va < vb
          · have c3 : va + P * a < vb + P * a := by omega
            have c4 : ¬ (va + P * a > vb + P * a) := by omega
            simp only [c1, c2, c3, c4, if_true, if_false]
          · have c3 : ¬ va + P * a < vb + P * a := by omega
            have c4 : ¬ (va + P * a > vb + P * a) := by omega
            simp only [c1, c2, c3, c4, if_false]

/-! ## Properties of the field functions -/

theorem copy_eq_src {src dst : List Nat} {n : Nat} (hs : src.length = n) (hd : dst.length ≤ n) :
    copy src dst n = src := by
  unfold copy
  rw [List.take_of_length_le (by omega), List.drop_of_length_le hd, List.append_nil]

theorem take_eq_self {x : List Nat} {n : Nat} (h : x.length = n) : x.take n = x :=
  List.take_of_length_le (by omega)

/-- Value computed by `fieldSub` on eight-word operands. -/
theorem fieldSub_spec (x y m : List Nat) (hx : Limbs x) (hy : Limbs y) (hm : Limbs m)
    (hlx : x.length = 8) (hly : y.length = 8) (hlm : 8 ≤ m.length) :
    (fieldSub x y m).length = 8 ∧ Limbs (fieldSub x y m) ∧
    value (fieldSub x y m) =
      if value y ≤ value x then value x - value y
      else (value x + 2 ^ 256 - value y + value (m.take 8)) % 2 ^ 256 := by
  obtain ⟨h1, h2, h3, h4⟩ := sub_spec x y 8 hx hy (by omega) (by omega)
  have hb := sub_borrow x y 8 hx hy (by omega) (by omega)
  rw [take_eq_self hlx, take_eq_self hly] at h1 hb
  have hxl := value_lt hx
  have hyl := value_lt hy
  have hrl := value_lt h4
  rw [hlx] at hxl; rw [hly] at hyl; rw [h3] at hrl
  unfold fieldSub
  simp only [arrayLength]
  by_cases hc : value y ≤ value x
  · have h0 : (sub x y 8).2 = 0 := hb.2 hc
    simp only [h0, ne_eq, not_true_eq_false, if_false, hc, if_true]
    refine ⟨h3, h4, ?_⟩
    rw [h0] at h1; omega
  · have h0 : (sub x y 8).2 = 1 := by
      have : (sub x y 8).2 ≠ 0 := fun h => hc (hb.1 h)
      omega
    obtain ⟨a1, a2, a3, a4⟩ := add_spec (sub x y 8).1 m 8 h4 hm (by omega) hlm
    rw [take_eq_self h3] at a1
    have hal := value_lt a4
    rw [a3] at hal
    simp only [h0, ne_eq, one_ne_zero, not_false_eq_true, if_true, hc, if_false]
    rw [copy_eq_src a3 (by omega)]
    refine ⟨a3, a4, ?_⟩
    rw [h0] at h1
    have a2' : (add (sub x y 8).1 m 8).2 = 0 ∨ (add (sub x y 8).1 m 8).2 = 1 := by omega
    simp only [Nat.reduceMul] at *
    rcases a2' with e | e <;> rw [e] at a1 <;> omega

/-- Value computed by `fieldAdd` on eight-word operands. -/
theorem fieldAdd_spec (x y r : List Nat) (hx : Limbs x) (hy : Limbs y) (hr : Limbs r)
    (hlx : x.length = 8) (hly : y.length = 8) (hlr : 8 ≤ r.length) :
    (fieldAdd x y r).length = 8 ∧ Limbs (fieldAdd x y r) ∧
    value (fieldAdd x y r) =
      if value x + value y < 2 ^ 256 then value x + value y
      else (value x + value y - 2 ^ 256 + value (r.take 8)) % 2 ^ 256 := by
  obtain ⟨h1, h2, h3, h4⟩ := add_spec x y 8 hx hy (by omega) (by omega)
  rw [take_eq_self hlx, take_eq_self hly] at h1
  have hxl := value_lt hx
  have hyl := value_lt hy
  have hrl := value_lt h4
  rw [hlx] at hxl; rw [hly] at hyl; rw [h3] at hrl
  unfold fieldAdd
  simp only [arrayLength]
  simp only [Nat.reduceMul] at *
  by_cases hc : value x + value y < 2 ^ 256
  · have h0 : (add x y 8).2 = 0 := by
      by_contra hne
      have : (add x y 8).2 = 1 := by omega
      rw [this] at h1; omega
    simp only [h0, ne_eq, not_true_eq_false, if_false, hc, if_true]
    refine ⟨h3, h4, ?_⟩
    rw [h0] at h1; omega
  · have h0 : (add x y 8).2 = 1 := by
      have : (add x y 8).2 ≠ 0 := fun h => by rw [h] at h1; omega
      omega
    obtain ⟨a1, a2, a3, a4⟩ := add_spec (add x y 8).1 r 8 h4 hr (by omega) hlr
    rw [take_eq_self h3] at a1
    have hal := value_lt a4
    rw [a3] at hal
    simp only [h0, ne_eq, one_ne_zero, not_false_eq_true, if_true, hc, if_false]
    rw [copy_eq_src a3 (by omega)]
    refine ⟨a3, a4, ?_⟩
    rw [h0] at h1
    have a2' : (add (add x y 8).1 r 8).2 = 0 ∨ (add (add x y 8).1 r 8).2 = 1 := by omega
    simp only [Nat.reduceMul] at *
    rcases a2' with e | e <;> rw [e] at a1 <;> omega

/-! ## Verified claims -/

/-- C6. With the nonce `k` equal to zero (all eight words zero) `ecc_ecdsa_sign` returns -1
at once, for every key, digest, curve and amount of fuel (also none), and leaves the output
buffers `r` and `s` exactly as they were. -/
theorem ecc_ecdsa_sign_zero_nonce (g : Params) (fuel : Nat) (stray d e r s : List Nat) :
    ecc_ecdsa_sign g fuel stray d e (setZero 8) r s = some (-1, r, s) := by
  have h : isZero (setZero 8) = true := by decide
  simp [ecc_ecdsa_sign, h]

/-- C9. `fieldSub` is exact modular subtraction: for eight-word `x`, `y` below the modulus `m`
(the first eight words of `modulus`), the result is `x - y` when `x ≥ y` and `x - y + m`
otherwise, that is `(x - y) mod m`, and lies in `[0, m)`. -/
theorem fieldSub_exact (x y modulus : List Nat) (hx : Limbs x) (hy : Limbs y)
    (hm : Limbs modulus) (hlx : x.length = 8) (hly : y.length = 8) (hlm : 8 ≤ modulus.length)
    (hxm : value x < value (modulus.take 8)) (hym : value y < value (modulus.take 8)) :
    value (fieldSub x y modulus) =
        (if value y ≤ value x then value x - value y
         else value x + value (modulus.take 8) - value y) ∧
      (value (fieldSub x y modulus) : Int) =
        ((value x : Int) - (value y : Int)) % (value (modulus.take 8) : Int) ∧
      value (fieldSub x y modulus) < value (modulus.take 8) ∧
      (fieldSub x y modulus).length = 8 ∧ Limbs (fieldSub x y modulus) := by
  obtain ⟨h1, h2, h3⟩ := fieldSub_spec x y modulus hx hy hm hlx hly hlm
  have hML := value_lt (limbs_take 8 hm)
  simp only [List.length_take, Nat.min_eq_left hlm, Nat.reduceMul] at hML
  have hv : value (fieldSub x y modulus) =
      (if value y ≤ value x then value x - value y
       else value x + value (modulus.take 8) - value y) := by
    rw [h3]; split <;> omega
  refine ⟨hv, ?_, ?_, h1, h2⟩
  · rw [hv]
    by_cases hc : value y ≤ value x
    · simp only [hc, if_true]
      rw [Int.emod_eq_of_lt (by omega) (by omega)]; omega
    · simp only [hc, if_false]
      rw [← Int.add_emod_self, Int.emod_eq_of_lt (by omega) (by omega)]; omega
  · rw [hv]; split <;> omega

/-- Witness for C9 on the P-256 prime: `5 - 7`. -/
theorem fieldSub_exact_witness :
    value (fieldSub [5, 0, 0, 0, 0, 0, 0, 0] [7, 0, 0, 0, 0, 0, 0, 0] p256_p) =
      value (p256_p.take 8) - 2 ∧
    value (fieldSub [5, 0, 0, 0, 0, 0, 0, 0] [7, 0, 0, 0, 0, 0, 0, 0] p256_p) <
      value (p256_p.take 8) := by
  have h := fieldSub_exact [5, 0, 0, 0, 0, 0, 0, 0] [7, 0, 0, 0, 0, 0, 0, 0] p256_p
    (by decide) (by decide) (by decide) (by decide) (by decide) (by decide) (by decide) (by decide)
  refine ⟨?_, h.2.2.1⟩
  rw [h.1]
  decide

/-- Counterexample to C8 as stated: on the P-256 prime `p`, `x = p - 1` and `y = 1` are
both below `p`, yet `fieldAdd` returns `p` itself, which is not below `p`. -/
theorem fieldAdd_not_reduced :
    Limbs [0xfffffffe, 0xffffffff, 0xffffffff, 0, 0, 0, 1, 0xffffffff] ∧
    value [0xfffffffe, 0xffffffff, 0xffffffff, 0, 0, 0, 1, 0xffffffff] < value p256_p ∧
    value [1, 0, 0, 0, 0, 0, 0, 0] < value p256_p ∧
    value p256_pr + value p256_p = 2 ^ 256 ∧
    ¬ value (fieldAdd [0xfffffffe, 0xffffffff, 0xffffffff, 0, 0, 0, 1, 0xffffffff]
        [1, 0, 0, 0, 0, 0, 0, 0] p256_pr) < value p256_p := by
  decide

/-- C8 (amended). `fieldAdd` folds only when the 256-bit addition carries: for a modulus `m`
with `reducer = 2^256 - m` and eight-word `x`, `y` below `m`, the result is congruent to
`x + y` modulo `m`, and it lies in `[0, m)` exactly when `x + y < m` or `x + y ≥ 2^256`.
Its value is `x + y` when `x + y < 2^256` and `x + y - m` otherwise; in particular for
`m ≤ x + y < 2^256` the unreduced sum `x + y` is returned. -/
theorem fieldAdd_reduced_iff (x y reducer modulus : List Nat) (hx : Limbs x) (hy : Limbs y)
    (hr : Limbs reducer) (hlx : x.length = 8) (hly : y.length = 8) (hlr : 8 ≤ reducer.length)
    (hR : value (reducer.take 8) + value (modulus.take 8) = 2 ^ 256)
    (hxm : value x < value (modulus.take 8)) (hym : value y < value (modulus.take 8)) :
    (value (fieldAdd x y reducer) < value (modulus.take 8) ↔
        (value x + value y < value (modulus.take 8) ∨ 2 ^ 256 ≤ value x + value y)) ∧
      value (fieldAdd x y reducer) % value (modulus.take 8) =
        (value x + value y) % value (modulus.take 8) ∧
      (fieldAdd x y reducer).length = 8 ∧ Limbs (fieldAdd x y reducer) ∧
      value (fieldAdd x y reducer) =
        (if value x + value y < 2 ^ 256 then value x + value y
         else value x + value y - value (modulus.take 8)) ∧
      (value (modulus.take 8) ≤ value x + value y → value x + value y < 2 ^ 256 →
        value (fieldAdd x y reducer) = value x + value y) := by
  obtain ⟨h1, h2, h3⟩ := fieldAdd_spec x y reducer hx hy hr hlx hly hlr
  have hv : value (fieldAdd x y reducer) =
      (if value x + value y < 2 ^ 256 then value x + value y
       else value x + value y - value (modulus.take 8)) := by
    rw [h3]; split <;> omega
  refine ⟨?_, ?_, h1, h2, hv, fun _ hlt => by rw [hv, if_pos hlt]⟩
  · rw [hv]; split <;> omega
  · rw [hv]; split
    · rfl
    · rw [Nat.mod_eq_sub_mod (a := value x + value y) (by omega)]

/-- Witness for the amended C8: `(p - 1) + (p - 1)` on the P-256 prime carries and is folded. -/
theorem fieldAdd_reduced_iff_witness :
    value (fieldAdd [0xfffffffe, 0xffffffff, 0xffffffff, 0, 0, 0, 1, 0xffffffff]
        [0xfffffffe, 0xffffffff, 0xffffffff, 0, 0, 0, 1, 0xffffffff] p256_pr) <
      value (p256_p.take 8) :=
  (fieldAdd_reduced_iff [0xfffffffe, 0xffffffff, 0xffffffff, 0, 0, 0, 1, 0xffffffff]
    [0xfffffffe, 0xffffffff, 0xffffffff, 0, 0, 0, 1, 0xffffffff] p256_pr p256_p
    (by decide) (by decide) (by decide) (by decide) (by decide) (by decide) (by decide)
    (by decide) (by decide)).1.2 (Or.inr (by decide))

theorem isZero_iff_eq {A : List Nat} (h : A.length = 8) : isZero A = true ↔ A = setZero 8 := by
  obtain ⟨a0, a1, a2, a3, a4, a5, a6, a7, rfl⟩ := length_eight h
  unfold isZero
  rw [beq_iff_eq]
  have h8 : ∀ (p : Nat → Bool), ((List.range 8).filter p).length = 8 ↔
      ∀ a ∈ List.range 8, p a = true := fun p => by
    have := @List.filter_length_eq_length _ p (List.range 8)
    simpa using this
  rw [h8, range_eight]
  simp [setZero, List.replicate]

theorem isZero_setZero : isZero (setZero 8) = true := by decide

theorem copy_setZero {x : List Nat} (h : x.length = 8) : copy x (setZero 8) arrayLength = x := by
  unfold copy arrayLength
  rw [List.take_of_length_le (by omega)]
  simp [setZero]

/-- C13. The pair `(0,0)` is a two-sided identity of `ec_add`: for every pair of eight-word
coordinates the other operand is returned unchanged, word for word, on every curve. -/
theorem ec_add_identity (g : Params) (fuel : Nat) (stray px py : List Nat)
    (hx : px.length = 8) (hy : py.length = 8) :
    ec_add g fuel stray px py (setZero 8) (setZero 8) = some (px, py) ∧
    ec_add g fuel stray (setZero 8) (setZero 8) px py = some (px, py) := by
  constructor
  · unfold ec_add
    by_cases h : (isZero px && isZero py) = true
    · rw [if_pos h]
      simp only [Bool.and_eq_true] at h
      rw [(isZero_iff_eq hx).1 h.1, (isZero_iff_eq hy).1 h.2]
      rfl
    · rw [if_neg h, isZero_setZero, Bool.and_self, if_pos rfl, copy_setZero hx, copy_setZero hy]
  · unfold ec_add
    rw [isZero_setZero, Bool.and_self, if_pos rfl, copy_setZero hx, copy_setZero hy]

/-- Witness for C13 on the P-256 base point. -/
theorem ec_add_identity_witness :
    ec_add secp256r1 0 [] p256_gx p256_gy (setZero 8) (setZero 8) = some (p256_gx, p256_gy) ∧
    ec_add secp256r1 0 [] (setZero 8) (setZero 8) p256_gx p256_gy = some (p256_gx, p256_gy) :=
  ec_add_identity secp256r1 0 [] p256_gx p256_gy (by decide) (by decide)

/-- C15. Doubling agrees with self-addition: `ec_add(P, P)` and `ec_double(P)` return the
same coordinates for every pair of coordinates `P` (the identity included), on every curve. -/
theorem ec_add_self_eq_ec_double (g : Params) (fuel : Nat) (stray px py : List Nat) :
    ec_add g fuel stray px py px py = ec_double g fuel stray px py := by
  unfold ec_add
  by_cases h : (isZero px && isZero py) = true
  · rw [if_pos h]; unfold ec_double; rw [if_pos h]
  · rw [if_neg h, if_neg h]
    simp [isSame]

/-- C16. `ecc_is_valid_key(d)` returns 1 when the eight-word `d` is below the group order
(the first eight words of `ecc_order_m`) as a 256-bit integer, and 0 otherwise. -/
theorem ecc_is_valid_key_spec (g : Params) (d : List Nat) (hn : Limbs g.ecc_order_m)
    (hd : Limbs d) (hln : 8 ≤ g.ecc_order_m.length) (hld : d.length = 8) :
    ecc_is_valid_key g d = if value d < value (g.ecc_order_m.take 8) then 1 else 0 := by
  unfold ecc_is_valid_key arrayLength
  rw [isGreater_spec g.ecc_order_m d hn hd 8 hln (by omega), List.take_of_length_le (le_of_eq hld)]
  by_cases h : value d < value (g.ecc_order_m.take 8)
  · simp [h]
  · have h2 : ¬ value (List.take 8 g.ecc_order_m) > value d := h
    rw [if_neg h, if_neg h2]
    split <;> simp

/-- Witness for C16: on P-256 the key `n - 1` is accepted and the key `n` is rejected. -/
theorem ecc_is_valid_key_spec_witness :
    ecc_is_valid_key secp256r1
        [0xFC632550, 0xF3B9CAC2, 0xA7179E84, 0xBCE6FAAD, 0xFFFFFFFF, 0xFFFFFFFF, 0, 0xFFFFFFFF] = 1 ∧
      ecc_is_valid_key secp256r1 (p256_n.take 8) = 0 := by
  constructor
  · rw [ecc_is_valid_key_spec secp256r1 _ (by decide) (by decide) (by decide) (by decide)]
    decide
  · rw [ecc_is_valid_key_spec secp256r1 _ (by decide) (by decide) (by decide) (by decide)]
    decide

/-- C17. `ecc_ec_init` returns 0 for `SECP256R1`, `WEI25519` and `WEI25519_2` and stores the
constants registered for that curve (shift 0 and the NIST reduction for `SECP256R1`, shift 3
and the generic Barrett reduction for the two 25519 curves); for every other identifier it
returns -1 and leaves the active parameters as they were. -/
theorem ecc_ec_init_spec (g : Params) (curve : Nat) :
    ecc_ec_init g SECP256R1 =
      (0, { ecc_param_a := p256_a, ecc_prime_m := p256_p, ecc_prime_p := p256_p,
            ecc_prime_r := p256_pr, ecc_order_m := p256_n, ecc_order_r := p256_or,
            ecc_order_mu := p256_omu, ecc_prime_mu := p256_pmu, ecc_g_point_x := p256_gx,
            ecc_g_point_y := p256_gy, ecc_order_k := p256_k, ecc_prime_shift := 0,
            fieldModP := ModFun.fieldModP256 }) ∧
    ecc_ec_init g WEI25519 =
      (0, { ecc_param_a := wei25519_a, ecc_prime_m := wei25519_p, ecc_prime_p := wei25519_p,
            ecc_prime_r := wei25519_pr, ecc_order_m := wei25519_n, ecc_order_r := wei25519_or,
            ecc_order_mu := wei25519_omu, ecc_prime_mu := wei25519_pmu,
            ecc_g_point_x := wei25519_gx, ecc_g_point_y := wei25519_gy,
            ecc_order_k := wei25519_k, ecc_prime_shift := 3,
            fieldModP := ModFun.fieldModGeneric }) ∧
    ecc_ec_init g WEI25519_2 =
      (0, { ecc_param_a := wei25519_2_a, ecc_prime_m := wei25519_p, ecc_prime_p := wei25519_p,
            ecc_prime_r := wei25519_pr, ecc_order_m := wei25519_n, ecc_order_r := wei25519_or,
            ecc_order_mu := wei25519_omu, ecc_prime_mu := wei25519_pmu,
            ecc_g_point_x := wei25519_2_gx, ecc_g_point_y := wei25519_2_gy,
            ecc_order_k := wei25519_k, ecc_prime_shift := 3,
            fieldModP := ModFun.fieldModGeneric }) ∧
    ((curve ≠ SECP256R1 ∧ curve ≠ WEI25519 ∧ curve ≠ WEI25519_2) ↔
      ecc_ec_init g curve = (-1, g)) ∧
    ((curve = SECP256R1 ∨ curve = WEI25519 ∨ curve = WEI25519_2) ↔
      (ecc_ec_init g curve).1 = 0) := by
  refine ⟨rfl, rfl, rfl, ?_, ?_⟩
  · unfold ecc_ec_init init
    by_cases h0 : curve = SECP256R1
    · simp [h0]
    · by_cases h1 : curve = WEI25519
      · simp [h1, WEI25519, SECP256R1]
      · by_cases h2 : curve = WEI25519_2
        · simp [h2, WEI25519_2, WEI25519, SECP256R1]
        · simp [h0, h1, h2]
  · unfold ecc_ec_init init
    by_cases h0 : curve = SECP256R1
    · simp [h0]
    · by_cases h1 : curve = WEI25519
      · simp [h1, WEI25519, SECP256R1]
      · by_cases h2 : curve = WEI25519_2
        · simp [h2, WEI25519_2, WEI25519, SECP256R1]
        · simp [h0, h1, h2]

/-- C14. Adding a point to its negative gives the identity: for an odd prime `p` (the first
eight words of `ecc_prime_m`), every `P = (Px, Py)` other than `(0,0)` with `Py` below `p`,
and `qy` the eight-word number `p - Py`, `ec_add(P, (Px, qy))` returns `(0, 0)`. -/
theorem ec_add_neg (g : Params) (fuel : Nat) (stray px py qy : List Nat)
    (hlx : px.length = 8) (hly : py.length = 8) (hlq : qy.length = 8)
    (hodd : value (g.ecc_prime_m.take 8) % 2 = 1)
    (hpy : value py < value (g.ecc_prime_m.take 8))
    (hneg : value qy = value (g.ecc_prime_m.take 8) - value py)
    (hnz : ¬ (value px = 0 ∧ value py = 0)) :
    ec_add g fuel stray px py px qy = some (setZero 8, setZero 8) := by
  have h1 : (isZero px && isZero py) = false := by
    rw [Bool.and_eq_false_iff]
    by_cases hx : isZero px = true
    · right
      by_contra hc
      rw [Bool.not_eq_false] at hc
      exact hnz ⟨(isZero_spec hlx).1 hx, (isZero_spec hly).1 hc⟩
    · left; simpa using hx
  have h2 : isZero qy = false := by
    by_contra hc
    rw [Bool.not_eq_false] at hc
    have := (isZero_spec hlq).1 hc
    omega
  have h3 : isSame py qy arrayLength = false := by
    unfold isSame arrayLength
    rw [decide_eq_false_iff_not, List.take_of_length_le (le_of_eq hly),
      List.take_of_length_le (le_of_eq hlq)]
    intro hc
    rw [hc] at hpy hneg
    omega
  have h4 : isSame px px arrayLength = true := by simp [isSame]
  unfold ec_add
  simp [h1, h2, h3, h4]

/-- Witness for C14 on P-256: the base point `G` and `(Gx, p - Gy)`. -/
theorem ec_add_neg_witness :
    ec_add secp256r1 0 [] p256_gx p256_gy p256_gx
      [0xc840ae0a, 0x3449bf97, 0x94cea131, 0xd431cca9, 0x83f061e9, 0x711814b5, 0x01e58065,
        0xb01cbd1c] = some (setZero 8, setZero 8) :=
  ec_add_neg secp256r1 0 [] p256_gx p256_gy _ (by decide) (by decide) (by decide) (by decide)
    (by decide) (by decide) (by decide)

theorem fieldInvEven_zero (modulus reducer : List Nat) :
    ∀ (fuel : Nat) (x1 : List Nat), fieldInvEven modulus reducer fuel (setZero 8) x1 = none
  | 0, _ => rfl
  | fuel + 1, x1 => by
    have h1 : (setZero 8).getD 0 0 &&& 1 = 0 := by decide
    have h2 : rshift (setZero 8) = setZero 8 := by decide
    rw [fieldInvEven, if_pos h1]
    simp only [h2]
    exact fieldInvEven_zero modulus reducer fuel _

theorem fieldInv_zero (fuel : Nat) (modulus reducer : List Nat)
    (h1 : isOne (copy modulus (setZero 8) arrayLength) = false) :
    fieldInv fuel (setZero 8) modulus reducer = none := by
  have hc : copy (setZero 8) (setZero 8) arrayLength = setZero 8 := by decide
  have hz : isOne (setZero 8) = false := by decide
  unfold fieldInv
  rw [hc]
  cases fuel with
  | zero => rfl
  | succ n =>
    rw [fieldInvLoop, hz, h1, Bool.or_self, if_pos rfl, fieldInvEven_zero]

/-- C5 (divergence). With `s = 0` (all eight words zero) `ecc_ecdsa_validate` never returns,
whatever the key, digest and `r`: on every curve whose order is not 1 the inversion of `s`
stays in its first inner loop, so no amount of fuel yields a result. -/
theorem ecc_ecdsa_validate_zero_s_diverges (g : Params) (fuel : Nat) (stray x y e r : List Nat)
    (h1 : isOne (copy g.ecc_order_m (setZero 8) arrayLength) = false) :
    ecc_ecdsa_validate g fuel stray x y e r (setZero 8) = none := by
  unfold ecc_ecdsa_validate
  rw [fieldInv_zero fuel _ _ h1]
  rfl

/-- Witness for the divergence of C5 on the three registered curves, with the base point as
public key and a fuel of 1000. -/
theorem ecc_ecdsa_validate_zero_s_diverges_witness :
    ecc_ecdsa_validate secp256r1 1000 [] p256_gx p256_gy (setZero 8) p256_gx (setZero 8) = none ∧
    ecc_ecdsa_validate wei25519 1000 [] wei25519_gx wei25519_gy (setZero 8) wei25519_gx
      (setZero 8) = none ∧
    ecc_ecdsa_validate wei25519_2 1000 [] wei25519_2_gx wei25519_2_gy (setZero 8) wei25519_2_gx
      (setZero 8) = none :=
  ⟨ecc_ecdsa_validate_zero_s_diverges secp256r1 1000 [] _ _ _ _ (by decide),
   ecc_ecdsa_validate_zero_s_diverges wei25519 1000 [] _ _ _ _ (by decide),
   ecc_ecdsa_validate_zero_s_diverges wei25519_2 1000 [] _ _ _ _ (by decide)⟩

theorem addLoop_length_le : ∀ (x y : List Nat) (d : Nat), (addLoop x y d).1.length ≤ x.length
  | [], _, _ => by simp [addLoop]
  | _ :: _, [], _ => by simp [addLoop]
  | a :: as, b :: bs, d => by
    simp only [addLoop, List.length_cons]
    exact Nat.succ_le_succ (addLoop_length_le as bs _)

theorem subLoop_length_le : ∀ (x y : List Nat) (d : Nat), (subLoop x y d).1.length ≤ x.length
  | [], _, _ => by simp [subLoop]
  | _ :: _, [], _ => by simp [subLoop]
  | a :: as, b :: bs, d => by
    simp only [subLoop, List.length_cons]
    exact Nat.succ_le_succ (subLoop_length_le as bs _)

theorem add_length_le (x y : List Nat) (n : Nat) : (add x y n).1.length ≤ n := by
  unfold add
  exact le_trans (addLoop_length_le _ _ _) (by simp)

theorem sub_length_le (x y : List Nat) (n : Nat) : (sub x y n).1.length ≤ n := by
  unfold sub
  exact le_trans (subLoop_length_le _ _ _) (by simp)

theorem copy_length_le {src dst : List Nat} {n : Nat} (h : dst.length ≤ n) :
    (copy src dst n).length ≤ n := by
  unfold copy
  rw [List.length_append, List.length_take, List.length_drop]
  omega

theorem copy_of_length_le {src dst : List Nat} {n : Nat} (hs : src.length ≤ n)
    (hd : dst.length ≤ n) : copy src dst n = src := by
  unfold copy
  rw [List.take_of_length_le hs, List.drop_of_length_le hd, List.append_nil]

theorem fieldSub_length_le (x y m : List Nat) : (fieldSub x y m).length ≤ 8 := by
  unfold fieldSub arrayLength
  have h := sub_length_le x y 8
  simp only
  split
  · exact copy_length_le h
  · exact h

theorem ec_double_length_le {g : Params} {fuel : Nat} {stray px py : List Nat}
    {D : List Nat × List Nat} (h : ec_double g fuel stray px py = some D) :
    D.1.length ≤ 8 ∧ D.2.length ≤ 8 := by
  unfold ec_double at h
  split at h
  · injection h with h
    rw [← h]
    exact ⟨copy_length_le (by simp [setZero, arrayLength]), copy_length_le (by simp [setZero, arrayLength])⟩
  · simp only [Option.bind_eq_bind, Option.bind_eq_some, Option.pure_def, Option.some.injEq] at h
    obtain ⟨_, _, _, _, _, _, _, _, _, _, _, _, h⟩ := h
    rw [← h]
    exact ⟨fieldSub_length_le _ _ _, fieldSub_length_le _ _ _⟩

theorem ec_add_length_le {g : Params} {fuel : Nat} {stray px py qx qy : List Nat}
    {S : List Nat × List Nat} (h : ec_add g fuel stray px py qx qy = some S) :
    S.1.length ≤ 8 ∧ S.2.length ≤ 8 := by
  unfold ec_add at h
  split at h
  · injection h with h
    rw [← h]
    exact ⟨copy_length_le (by simp [setZero, arrayLength]), copy_length_le (by simp [setZero, arrayLength])⟩
  · split at h
    · injection h with h
      rw [← h]
      exact ⟨copy_length_le (by simp [setZero, arrayLength]), copy_length_le (by simp [setZero, arrayLength])⟩
    · split at h
      · split at h
        · injection h with h
          rw [← h]
          simp [setZero]
        · exact ec_double_length_le h
      · simp only [Option.bind_eq_bind, Option.bind_eq_some, Option.pure_def,
          Option.some.injEq] at h
        obtain ⟨_, _, _, _, _, _, _, _, h⟩ := h
        rw [← h]
        exact ⟨fieldSub_length_le _ _ _, fieldSub_length_le _ _ _⟩

/-- The test of the code, `secret[i/32] & ((uint32_t)1 << (i%32))`, is non-zero exactly when
the bit `(secret[i/32] >> (i%32)) & 1` is one. -/
theorem bit_test_iff (secret : List Nat) (i : Nat) :
    secret.getD (i / 32) 0 &&& ((1 <<< (i % 32)) % 2 ^ 32) ≠ 0 ↔ scalarBit secret i = 1 := by
  unfold scalarBit
  generalize secret.getD (i / 32) 0 = a
  have hj : i % 32 < 32 := Nat.mod_lt _ (by decide)
  generalize i % 32 = j at hj
  have h1 : (1 <<< j) % 2 ^ 32 = 2 ^ j := by
    rw [Nat.one_shiftLeft]
    exact Nat.mod_eq_of_lt (Nat.pow_lt_pow_right (by decide) hj)
  rw [h1, Nat.and_two_pow, Nat.toNat_testBit, Nat.and_one_is_mod, Nat.shiftRight_eq_div_pow]
  have hp : 0 < 2 ^ j := Nat.two_pow_pos j
  constructor
  · intro h
    by_contra hc
    have : a / 2 ^ j % 2 = 0 := by omega
    rw [this] at h
    simp at h
  · intro h
    rw [h]
    omega

theorem ecc_ec_mult_body_eq (g : Params) (fuel : Nat) (stray px py secret : List Nat) (i : Nat)
    (Q : List Nat × List Nat) (h1 : Q.1.length ≤ 8) (h2 : Q.2.length ≤ 8) :
    ecc_ec_mult_body g fuel stray px py secret i Q =
      doubleAndAddStep g fuel stray px py secret Q i := by
  unfold ecc_ec_mult_body doubleAndAddStep
  cases hD : ec_double g fuel stray Q.1 Q.2 with
  | none => rfl
  | some D =>
    obtain ⟨d1, d2⟩ := ec_double_length_le hD
    simp only [Option.bind_eq_bind, Option.some_bind, arrayLength]
    rw [copy_of_length_le d1 h1, copy_of_length_le d2 h2]
    by_cases hb : scalarBit secret i = 1
    · rw [if_pos ((bit_test_iff secret i).2 hb), if_pos hb]
      cases hS : ec_add g fuel stray D.1 D.2 px py with
      | none => rfl
      | some S =>
        obtain ⟨s1, s2⟩ := ec_add_length_le hS
        simp only [Option.some_bind, Option.pure_def]
        rw [copy_of_length_le s1 d1, copy_of_length_le s2 d2]
    · rw [if_neg (fun h => hb ((bit_test_iff secret i).1 h)), if_neg hb]
      rfl

theorem doubleAndAddStep_length_le {g : Params} {fuel : Nat} {stray px py secret : List Nat}
    {Q R : List Nat × List Nat} {i : Nat}
    (h : doubleAndAddStep g fuel stray px py secret Q i = some R) :
    R.1.length ≤ 8 ∧ R.2.length ≤ 8 := by
  unfold doubleAndAddStep at h
  cases hD : ec_double g fuel stray Q.1 Q.2 with
  | none => rw [hD] at h; cases h
  | some D =>
    rw [hD] at h
    simp only at h
    split at h
    · exact ec_add_length_le h
    · injection h with h
      rw [← h]
      exact ec_double_length_le hD

theorem ecc_ec_mult_loop_eq (g : Params) (fuel : Nat) (stray px py secret : List Nat) :
    ∀ (i : Nat) (Q : List Nat × List Nat) (count : Nat), Q.1.length ≤ 8 → Q.2.length ≤ 8 →
      ecc_ec_mult_loop g fuel stray px py secret i Q count =
        (doubleAndAddFrom g fuel stray px py secret i Q).map (fun R => (R, count + i))
  | 0, Q, count, _, _ => rfl
  | i + 1, Q, count, h1, h2 => by
    rw [ecc_ec_mult_loop, doubleAndAddFrom, ecc_ec_mult_body_eq g fuel stray px py secret i Q h1 h2]
    cases hS : doubleAndAddStep g fuel stray px py secret Q i with
    | none => rfl
    | some R =>
      obtain ⟨r1, r2⟩ := doubleAndAddStep_length_le hS
      simp only
      rw [ecc_ec_mult_loop_eq g fuel stray px py secret i R (count + 1) r1 r2]
      have : count + 1 + i = count + (i + 1) := by omega
      rw [this]

theorem doubleAndAddFrom_length_le {g : Params} {fuel : Nat} {stray px py secret : List Nat} :
    ∀ (i : Nat) (Q R : List Nat × List Nat), Q.1.length ≤ 8 → Q.2.length ≤ 8 →
      doubleAndAddFrom g fuel stray px py secret i Q = some R → R.1.length ≤ 8 ∧ R.2.length ≤ 8
  | 0, Q, R, h1, h2, h => by
    rw [doubleAndAddFrom] at h
    injection h with h
    rw [← h]; exact ⟨h1, h2⟩
  | i + 1, Q, R, _, _, h => by
    rw [doubleAndAddFrom] at h
    cases hS : doubleAndAddStep g fuel stray px py secret Q i with
    | none => rw [hS] at h; cases h
    | some T =>
      rw [hS] at h
      obtain ⟨t1, t2⟩ := doubleAndAddStep_length_le hS
      exact doubleAndAddFrom_length_le i T R t1 t2 h

/-- C10. `ecc_ec_mult` is the left-to-right double-and-add of the specification: for every
point, scalar, curve and fuel it returns `Q_0` of the recurrence `Q_256 = (0,0)`,
`Q_i = ec_add(ec_double(Q_{i+1}), P)` when bit `i` of the scalar, `(k[i/32] >> (i%32)) & 1`,
is set and `Q_i = ec_double(Q_{i+1})` otherwise (it returns nothing exactly when the
recurrence does), and whenever the loop finishes it has performed exactly 256 iterations. -/
theorem ecc_ec_mult_eq_doubleAndAdd (g : Params) (fuel : Nat) (stray px py secret : List Nat) :
    ecc_ec_mult g fuel stray px py secret = doubleAndAdd g fuel stray px py secret ∧
    ecc_ec_mult_loop g fuel stray px py secret 256 (setZero 8, setZero 8) 0 =
      (doubleAndAdd g fuel stray px py secret).map (fun R => (R, 256)) := by
  have hl := ecc_ec_mult_loop_eq g fuel stray px py secret 256 (setZero 8, setZero 8) 0
    (by simp [setZero]) (by simp [setZero])
  rw [Nat.zero_add] at hl
  refine ⟨?_, hl⟩
  unfold ecc_ec_mult doubleAndAdd
  rw [hl]
  cases hS : doubleAndAddFrom g fuel stray px py secret 256 (setZero 8, setZero 8) with
  | none => rfl
  | some R =>
    obtain ⟨r1, r2⟩ := doubleAndAddFrom_length_le 256 _ R (by simp [setZero]) (by simp [setZero]) hS
    have z8 : (setZero 8).length ≤ 8 := by simp [setZero]
    show some (copy R.1 (setZero 8) 8, copy R.2 (setZero 8) 8) = some R
    rw [copy_of_length_le r1 z8, copy_of_length_le r2 z8]

theorem value_set_top (a0 a1 a2 a3 a4 a5 a6 a7 w : Nat) :
    value ([a0, a1, a2, a3, a4, a5, a6, a7].set 7 w) + 2 ^ 224 * a7 =
      value [a0, a1, a2, a3, a4, a5, a6, a7] + 2 ^ 224 * w := by
  simp only [List.set, value]
  omega

/-- Value computed by `fieldAddAndDivide` for an odd sum below twice the modulus. -/
theorem fieldAddAndDivide_spec (x m r : List Nat) (hx : Limbs x) (hm : Limbs m)
    (hlx : x.length = 8) (hlm : 8 ≤ m.length) (hxm : value x < value (m.take 8)) :
    (fieldAddAndDivide x m r).length = 8 ∧ Limbs (fieldAddAndDivide x m r) ∧
    value (fieldAddAndDivide x m r) = (value x + value (m.take 8)) / 2 := by
  obtain ⟨h1, h2, h3, h4⟩ := add_spec x m 8 hx hm (by omega) hlm
  rw [take_eq_self hlx] at h1
  obtain ⟨s1, s2, s3⟩ := rshift_spec h3 h4
  have hml := value_lt (limbs_take 8 hm)
  simp only [List.length_take, Nat.min_eq_left hlm, Nat.reduceMul] at hml
  have hal := value_lt h4
  rw [h3] at hal
  simp only [Nat.reduceMul] at h1 hal
  unfold fieldAddAndDivide arrayLength
  simp only
  by_cases hc : (add x m 8).2 = 0
  · rw [if_neg (by simpa using hc)]
    refine ⟨s2, s3, ?_⟩
    rw [s1]; rw [hc] at h1; omega
  · have hc1 : (add x m 8).2 = 1 := by omega
    rw [if_pos hc]
    rw [hc1] at h1
    obtain ⟨a0, a1, a2, a3, a4, a5, a6, a7, e⟩ := length_eight s2
    have hs3 := s3
    rw [e] at hs3
    have l7 : a7 < 2 ^ 31 := by
      have hv : value (rshift (add x m 8).1) < 2 ^ 255 := by rw [s1]; omega
      rw [e] at hv
      simp only [value] at hv
      omega
    have hor : a7 ||| 0x80000000 = a7 + 2 ^ 31 := by
      have := Nat.mul_add_lt_is_or l7 1
      rw [Nat.lor_comm]
      simpa [Nat.add_comm] using this.symm
    have hset : (rshift (add x m 8).1).set 7 ((rshift (add x m 8).1).getD 7 0 ||| 0x80000000) =
        [a0, a1, a2, a3, a4, a5, a6, a7 + 2 ^ 31] := by
      rw [e]
      simp only [List.getD_cons_succ, List.getD_cons_zero, hor, List.set]
    rw [hset]
    have hv2 : value [a0, a1, a2, a3, a4, a5, a6, a7 + 2 ^ 31] =
        (value x + value (m.take 8)) / 2 := by
      have hv : value (rshift (add x m 8).1) = value (add x m 8).1 / 2 := s1
      rw [e] at hv
      simp only [value] at hv ⊢
      omega
    have hl2 : Limbs [a0, a1, a2, a3, a4, a5, a6, a7 + 2 ^ 31] := by
      intro w hw
      simp only [List.mem_cons, List.mem_singleton, List.not_mem_nil, or_false] at hw
      have ha : ∀ w ∈ [a0, a1, a2, a3, a4, a5, a6, a7], w < 2 ^ 32 := hs3
      simp only [List.mem_cons, List.mem_singleton, List.not_mem_nil, or_false,
        forall_eq_or_imp, forall_eq] at ha
      rcases hw with h | h | h | h | h | h | h | h <;> rw [h] <;> omega
    have hg : isGreater [a0, a1, a2, a3, a4, a5, a6, a7 + 2 ^ 31] m 8 ≠ 1 := by
      rw [isGreater_spec _ _ hl2 hm 8 (by simp) hlm, List.take_of_length_le (by simp), hv2]
      have : ¬ ((value x + value (m.take 8)) / 2 > value (m.take 8)) := by omega
      rw [if_neg this]
      split <;> simp
    rw [if_neg hg]
    exact ⟨rfl, hl2, hv2⟩

theorem length_ne_nil {u : List Nat} (h : u.length = 8) : u ≠ [] := by
  intro hc; rw [hc] at h; simp at h

/-- Halving step shared by the two inner loops of `fieldInv`. -/
theorem halve_modEq {X X2 A U M : Nat} (hM : M % 2 = 1) (hU : U % 2 = 0)
    (h2 : 2 * X2 ≡ X [MOD M]) (hinv : X * A ≡ U [MOD M]) : X2 * A ≡ U / 2 [MOD M] := by
  have hc : Nat.gcd M 2 = 1 := (Nat.coprime_two_right).2 (Nat.odd_iff.2 hM)
  apply Nat.ModEq.cancel_left_of_coprime hc
  have e : 2 * (U / 2) = U := by omega
  rw [e, ← Nat.mul_assoc]
  exact (Nat.ModEq.mul_right A h2).trans hinv

/-- The inner loops of `fieldInv`: an operand `u > 0` is halved until odd, within `u` rounds,
and the invariant `x1 * A ≡ u (mod m)` is kept. -/
theorem fieldInvEven_spec (m r : List Nat) (A : Nat) (hm : Limbs m) (hlm : 8 ≤ m.length)
    (hM : value (m.take 8) % 2 = 1) :
    ∀ (n : Nat) (u x1 : List Nat), u.length = 8 → Limbs u → x1.length = 8 → Limbs x1 →
      0 < value u → value u ≤ n → value x1 < value (m.take 8) →
      value x1 * A ≡ value u [MOD value (m.take 8)] →
      ∃ u2 x2, fieldInvEven m r n u x1 = some (u2, x2) ∧ u2.length = 8 ∧ Limbs u2 ∧
        x2.length = 8 ∧ Limbs x2 ∧ value u2 % 2 = 1 ∧ value u2 ∣ value u ∧
        value x2 < value (m.take 8) ∧ value x2 * A ≡ value u2 [MOD value (m.take 8)]
  | 0, u, x1, _, _, _, _, hp, hn, _, _ => by omega
  | n + 1, u, x1, hlu, hu, hlx, hx, hp, hn, hxm, hinv => by
    rw [fieldInvEven, lowbit_spec (length_ne_nil hlu)]
    by_cases he : value u % 2 = 0
    · rw [if_pos he]
      obtain ⟨s1, s2, s3⟩ := rshift_spec hlu hu
      simp only [lowbit_spec (length_ne_nil hlx), arrayLength]
      have key : ∀ y : List Nat, y.length = 8 → Limbs y → value y < value (m.take 8) →
          2 * value y ≡ value x1 [MOD value (m.take 8)] →
          ∃ u2 x2, fieldInvEven m r n (rshift u) y = some (u2, x2) ∧ u2.length = 8 ∧ Limbs u2 ∧
            x2.length = 8 ∧ Limbs x2 ∧ value u2 % 2 = 1 ∧ value u2 ∣ value u ∧
            value x2 < value (m.take 8) ∧ value x2 * A ≡ value u2 [MOD value (m.take 8)] := by
        intro y hly hy hym h2
        have hi := halve_modEq hM he h2 hinv
        rw [← s1] at hi
        obtain ⟨u2, x2, e, a1, a2, a3, a4, a5, a6, a7, a8⟩ :=
          fieldInvEven_spec m r A hm hlm hM n (rshift u) y s2 s3 hly hy
            (by rw [s1]; omega) (by rw [s1]; omega) hym hi
        refine ⟨u2, x2, e, a1, a2, a3, a4, a5, ?_, a7, a8⟩
        rw [s1] at a6
        exact Dvd.dvd.trans a6 (Nat.div_dvd_of_dvd (Nat.dvd_of_mod_eq_zero he))
      by_cases hxe : value x1 % 2 = 0
      · rw [if_pos hxe]
        obtain ⟨t1, t2, t3⟩ := rshift_spec hlx hx
        apply key _ t2 t3 (by rw [t1]; omega)
        rw [t1]
        have : 2 * (value x1 / 2) = value x1 := by omega
        rw [this]
      · rw [if_neg hxe]
        obtain ⟨t1, t2, t3⟩ := fieldAddAndDivide_spec x1 m r hx hm hlx hlm hxm
        rw [copy_eq_src t1 (by omega)]
        apply key _ t1 t2 (by rw [t3]; omega)
        rw [t3]
        have : 2 * ((value x1 + value (m.take 8)) / 2) = value x1 + value (m.take 8) := by omega
        rw [this]
        exact Nat.add_mod_right _ _
    · rw [if_neg he]
      exact ⟨u, x1, rfl, hlu, hu, hlx, hx, by omega, dvd_refl _, hxm, hinv⟩

/-- Value of `fieldSub` on operands below the modulus. -/
theorem fieldSub_mod (x y m : List Nat) (hx : Limbs x) (hy : Limbs y) (hm : Limbs m)
    (hlx : x.length = 8) (hly : y.length = 8) (hlm : 8 ≤ m.length)
    (hxm : value x < value (m.take 8)) (hym : value y < value (m.take 8)) :
    (fieldSub x y m).length = 8 ∧ Limbs (fieldSub x y m) ∧
    value (fieldSub x y m) < value (m.take 8) ∧
    value (fieldSub x y m) + value y ≡ value x [MOD value (m.take 8)] := by
  obtain ⟨h1, h2, h3⟩ := fieldSub_spec x y m hx hy hm hlx hly hlm
  have hML := value_lt (limbs_take 8 hm)
  simp only [List.length_take, Nat.min_eq_left hlm, Nat.reduceMul] at hML
  have hv : value (fieldSub x y m) =
      (if value y ≤ value x then value x - value y
       else value x + value (m.take 8) - value y) := by
    rw [h3]; split <;> omega
  refine ⟨h1, h2, ?_, ?_⟩
  · rw [hv]; split <;> omega
  · rw [hv]
    by_cases hc : value y ≤ value x
    · rw [if_pos hc]
      have : value x - value y + value y = value x := by omega
      rw [this]
    · rw [if_neg hc]
      have : value x + value (m.take 8) - value y + value y = value x + value (m.take 8) := by
        omega
      rw [this]
      exact Nat.add_mod_right _ _

/-- Subtraction step of `fieldInv` on the invariant. -/
theorem sub_step_modEq {X1 X2 X3 A U V M : Nat} (hUV : V ≤ U)
    (h3 : X3 + X2 ≡ X1 [MOD M]) (h1 : X1 * A ≡ U [MOD M]) (h2 : X2 * A ≡ V [MOD M]) :
    X3 * A ≡ U - V [MOD M] := by
  apply Nat.ModEq.add_right_cancel h2
  have e : U - V + V = U := by omega
  rw [e, ← Nat.add_mul]
  exact (Nat.ModEq.mul_right A h3).trans h1

/-- The outer loop of `fieldInv` on the invariant `x1 * A ≡ u`, `x2 * A ≡ v (mod m)` with
`gcd(u, v) = 1`: it finishes within `u + v` rounds and returns an inverse of `A`. -/
theorem fieldInvLoop_spec (m r : List Nat) (A : Nat) (hm : Limbs m) (hlm : 8 ≤ m.length)
    (hM : value (m.take 8) % 2 = 1) (inner : Nat) :
    ∀ (n : Nat) (u v x1 x2 : List Nat), u.length = 8 → Limbs u → v.length = 8 → Limbs v →
      x1.length = 8 → Limbs x1 → x2.length = 8 → Limbs x2 →
      Nat.gcd (value u) (value v) = 1 → value u + value v ≤ n → value u + value v ≤ inner →
      value x1 < value (m.take 8) → value x2 < value (m.take 8) →
      value x1 * A ≡ value u [MOD value (m.take 8)] →
      value x2 * A ≡ value v [MOD value (m.take 8)] →
      ∃ B, fieldInvLoop m r inner n u v x1 x2 = some B ∧ B.length = 8 ∧ Limbs B ∧
        value B < value (m.take 8) ∧ value B * A ≡ 1 [MOD value (m.take 8)]
  | 0, u, v, x1, x2, _, _, _, _, _, _, _, _, hg, hn, _, _, _, _, _ => by
    have h0 : value u = 0 := by omega
    have h1 : value v = 0 := by omega
    rw [h0, h1] at hg
    simp at hg
  | n + 1, u, v, x1, x2, hlu, hu, hlv, hv, hlx1, hx1, hlx2, hx2, hg, hn, hin, hxm1, hxm2,
      hi1, hi2 => by
    rw [fieldInvLoop]
    by_cases hone : (isOne u || isOne v) = false
    · rw [if_pos hone]
      rw [Bool.or_eq_false_iff] at hone
      have hu1 : value u ≠ 1 := fun h => by
        have := (isOne_spec hlu).2 h
        rw [this] at hone; exact absurd hone.1 (by simp)
      have hv1 : value v ≠ 1 := fun h => by
        have := (isOne_spec hlv).2 h
        rw [this] at hone; exact absurd hone.2 (by simp)
      have hu0 : 0 < value u := by
        rcases Nat.eq_zero_or_pos (value u) with h | h
        · rw [h, Nat.gcd_zero_left] at hg; exact absurd hg hv1
        · exact h
      have hv0 : 0 < value v := by
        rcases Nat.eq_zero_or_pos (value v) with h | h
        · rw [h, Nat.gcd_zero_right] at hg; exact absurd hg hu1
        · exact h
      obtain ⟨u2, y1, e1, lu2, hu2, ly1, hy1, odd1, dv1, ym1, yi1⟩ :=
        fieldInvEven_spec m r A hm hlm hM inner u x1 hlu hu hlx1 hx1 hu0 (by omega) hxm1 hi1
      obtain ⟨v2, y2, e2, lv2, hv2, ly2, hy2, odd2, dv2, ym2, yi2⟩ :=
        fieldInvEven_spec m r A hm hlm hM inner v x2 hlv hv hlx2 hx2 hv0 (by omega) hxm2 hi2
      have le1 : value u2 ≤ value u := Nat.le_of_dvd hu0 dv1
      have le2 : value v2 ≤ value v := Nat.le_of_dvd hv0 dv2
      have hg2 : Nat.Coprime (value u2) (value v2) :=
        Nat.Coprime.coprime_dvd_left dv1 (Nat.Coprime.coprime_dvd_right dv2 hg)
      have pu2 : 0 < value u2 := by omega
      have pv2 : 0 < value v2 := by omega
      simp only [e1, e2, arrayLength]
      by_cases hc : value v2 ≤ value u2
      · obtain ⟨s1, s2, s3, s4⟩ := sub_spec u2 v2 8 hu2 hv2 (by omega) (by omega)
        have hb := (sub_borrow u2 v2 8 hu2 hv2 (by omega) (by omega)).2
          (by rw [take_eq_self lu2, take_eq_self lv2]; exact hc)
        rw [take_eq_self lu2, take_eq_self lv2, hb] at s1
        rw [hb, if_pos (by decide)]
        obtain ⟨f1, f2, f3, f4⟩ := fieldSub_mod y1 y2 m hy1 hy2 hm ly1 ly2 hlm ym1 ym2
        rw [copy_eq_src s3 (by omega), copy_eq_src f1 (by omega)]
        have hval : value (sub u2 v2 8).1 = value u2 - value v2 := by omega
        apply fieldInvLoop_spec m r A hm hlm hM inner n _ v2 _ y2 s3 s4 lv2 hv2 f1 f2 ly2 hy2
        · rw [hval]; exact (Nat.coprime_sub_self_left hc).2 hg2
        · rw [hval]; omega
        · rw [hval]; omega
        · exact f3
        · exact ym2
        · rw [hval]; exact sub_step_modEq hc f4 yi1 yi2
        · exact yi2
      · have hc2 : value u2 ≤ value v2 := by omega
        have hb1 : (sub u2 v2 8).2 = 1 := by
          have h0 := (sub_borrow u2 v2 8 hu2 hv2 (by omega) (by omega)).1
          rw [take_eq_self lu2, take_eq_self lv2] at h0
          have := (sub_spec u2 v2 8 hu2 hv2 (by omega) (by omega)).2.1
          have : (sub u2 v2 8).2 ≠ 0 := fun h => hc (h0 h)
          omega
        obtain ⟨s1, s2, s3, s4⟩ := sub_spec v2 u2 8 hv2 hu2 (by omega) (by omega)
        have hb := (sub_borrow v2 u2 8 hv2 hu2 (by omega) (by omega)).2
          (by rw [take_eq_self lu2, take_eq_self lv2]; exact hc2)
        rw [take_eq_self lu2, take_eq_self lv2, hb] at s1
        rw [hb1, if_neg (by decide)]
        obtain ⟨f1, f2, f3, f4⟩ := fieldSub_mod y2 y1 m hy2 hy1 hm ly2 ly1 hlm ym2 ym1
        rw [copy_eq_src s3 (by omega), copy_eq_src f1 (by omega)]
        have hval : value (sub v2 u2 8).1 = value v2 - value u2 := by omega
        apply fieldInvLoop_spec m r A hm hlm hM inner n u2 _ y1 _ lu2 hu2 s3 s4 ly1 hy1 f1 f2
        · rw [hval]; exact (Nat.coprime_sub_self_right hc2).2 hg2
        · rw [hval]; omega
        · rw [hval]; omega
        · exact ym1
        · exact f3
        · exact yi1
        · rw [hval]; exact sub_step_modEq hc2 f4 yi2 yi1
    · rw [if_neg hone]
      rw [Bool.not_eq_false, Bool.or_eq_true] at hone
      by_cases h1 : isOne u = true
      · rw [if_pos h1, copy_setZero hlx1]
        refine ⟨x1, rfl, hlx1, hx1, hxm1, ?_⟩
        rw [(isOne_spec hlu).1 h1] at hi1
        exact hi1
      · rw [if_neg h1, copy_setZero hlx2]
        have h2 : isOne v = true := by
          rcases hone with h | h
          · exact absurd h h1
          · exact h
        refine ⟨x2, rfl, hlx2, hx2, hxm2, ?_⟩
        rw [(isOne_spec hlv).1 h2] at hi2
        exact hi2

theorem copy_modulus (m : List Nat) : copy m (setZero 8) arrayLength = m.take 8 := by
  unfold copy arrayLength
  simp [setZero]

/-- `fieldInv` on any eight-word operand coprime to an odd modulus `m > 1`: with fuel at least
`A + m` it returns an eight-word `B < m` with `B * A ≡ 1 (mod m)`. -/
theorem fieldInv_spec (A m r : List Nat) (fuel : Nat) (hA : Limbs A) (hlA : A.length = 8)
    (hm : Limbs m) (hlm : 8 ≤ m.length) (hM : value (m.take 8) % 2 = 1)
    (h1 : 1 < value (m.take 8)) (hg : Nat.gcd (value A) (value (m.take 8)) = 1)
    (hf : value A + value (m.take 8) ≤ fuel) :
    ∃ B, fieldInv fuel A m r = some B ∧ B.length = 8 ∧ Limbs B ∧
      value B < value (m.take 8) ∧ value B * value A ≡ 1 [MOD value (m.take 8)] := by
  unfold fieldInv
  rw [copy_setZero hlA, copy_modulus m]
  have hx1 : (setZero 8).set 0 1 = [1, 0, 0, 0, 0, 0, 0, 0] := by decide
  rw [hx1]
  have t8 : (m.take 8).length = 8 := by simp [hlm]
  have tt : (m.take 8).take 8 = m.take 8 := by simp
  have hspec := fieldInvLoop_spec m r (value A) hm hlm hM fuel fuel A (m.take 8)
    [1, 0, 0, 0, 0, 0, 0, 0] (setZero 8) hlA hA t8 (limbs_take 8 hm) (by decide) (by decide)
    (by decide) (by decide) hg hf hf
    (by
      have : value [1, 0, 0, 0, 0, 0, 0, 0] = 1 := by decide
      rw [this]; exact h1)
    (by
      have : value (setZero 8) = 0 := by decide
      rw [this]; omega)
    (by
      have : value [1, 0, 0, 0, 0, 0, 0, 0] = 1 := by decide
      rw [this, Nat.one_mul])
    (by
      have : value (setZero 8) = 0 := by decide
      rw [this, Nat.zero_mul]
      exact (Nat.modEq_zero_iff_dvd.2 (dvd_refl _)).symm)
  exact hspec

/-- C7. Modular inversion is correct: for every odd modulus `m` with `1 < m < 2^256` (the
first eight words of `modulus`), every reducer and every eight-word `x` with `gcd(x, m) = 1`
(in particular every such `x` in `[1, m)`), `fieldInv` terminates (any fuel of at least
`x + m` rounds suffices) and returns an eight-word `B` in `[0, m)` with `x * B ≡ 1 (mod m)`. -/
theorem fieldInv_correct (x modulus reducer : List Nat) (fuel : Nat) (hx : Limbs x)
    (hlx : x.length = 8) (hm : Limbs modulus) (hlm : 8 ≤ modulus.length)
    (hodd : value (modulus.take 8) % 2 = 1) (h1 : 1 < value (modulus.take 8))
    (hg : Nat.gcd (value x) (value (modulus.take 8)) = 1)
    (hf : value x + value (modulus.take 8) ≤ fuel) :
    ∃ B, fieldInv fuel x modulus reducer = some B ∧ B.length = 8 ∧ Limbs B ∧
      value B < value (modulus.take 8) ∧
      (value x * value B) % value (modulus.take 8) = 1 := by
  obtain ⟨B, e, l, hB, hlt, hmod⟩ :=
    fieldInv_spec x modulus reducer fuel hx hlx hm hlm hodd h1 hg hf
  refine ⟨B, e, l, hB, hlt, ?_⟩
  rw [Nat.mul_comm]
  have := hmod
  unfold Nat.ModEq at this
  rw [this, Nat.mod_eq_of_lt h1]

/-- Witness for C7: the inverse of 2 modulo the P-256 prime, with `2^256` rounds of fuel. -/
theorem fieldInv_correct_witness :
    ∃ B, fieldInv (2 ^ 256) [2, 0, 0, 0, 0, 0, 0, 0] p256_p p256_pr = some B ∧ B.length = 8 ∧
      Limbs B ∧ value B < value (p256_p.take 8) ∧
      (value [2, 0, 0, 0, 0, 0, 0, 0] * value B) % value (p256_p.take 8) = 1 :=
  fieldInv_correct [2, 0, 0, 0, 0, 0, 0, 0] p256_p p256_pr (2 ^ 256) (by decide) (by decide)
    (by decide) (by decide) (by decide) (by decide) (by decide) (by decide)

/-- C18 (failing input). With `WEI25519` active, `twisted_edwards_to_short_weierstrass`
maps `(0, p - 1)` to `(A_3, 0)` with `A_3 = 162220`, for which `3 * A_3 = 486660` is not
congruent to `A = 486662`; the field element `A / 3` is the constant `delta` used by the
general map. -/
theorem twisted_edwards_special_point_not_delta (fuel : Nat) (stray : List Nat) :
    value Convert.minus_one = value wei25519_p - 1 ∧
    twisted_edwards_to_short_weierstrass wei25519 fuel stray (setZero 8) Convert.minus_one =
      some (Convert.A_3, setZero 8) ∧
    value Convert.A_3 = 162220 ∧ value Convert.A = 486662 ∧
    (3 * value Convert.A_3) % value wei25519_p ≠ value Convert.A % value wei25519_p ∧
    (3 * value Convert.delta) % value wei25519_p = value Convert.A % value wei25519_p ∧
    Convert.A_3 ≠ Convert.delta := by
  refine ⟨by decide, ?_, by decide, by decide, by decide, by decide, by decide⟩
  have h1 : Convert.ecc_isZero (setZero 8) = true := by decide
  have h2 : Convert.ecc_isZero Convert.minus_one = false := by decide
  have h3 : isSame Convert.minus_one Convert.minus_one 8 = true := by decide
  have h4 : copy Convert.A_3 (setZero 8) 8 = Convert.A_3 := by decide
  unfold twisted_edwards_to_short_weierstrass
  simp [h1, h2, h3, h4, arrayLength]

set_option maxRecDepth 100000 in
/-- C20 (failing input). With `WEI25519` active, `short_weierstrass_to_montgomery` applied to
the base point, whose translate `(x - A/3) mod p` is 9, returns another x-coordinate when the
eight words that follow the local `tmp` are `[1, 0, ..., 0]`: `ecc_fieldModP` reduces the
sixteen words starting at `tmp`. -/
theorem short_weierstrass_to_montgomery_reads_past_tmp :
    (value wei25519_gx + value wei25519_p - value Convert.delta) % value wei25519_p = 9 ∧
    short_weierstrass_to_montgomery wei25519 100 [1, 0, 0, 0, 0, 0, 0, 0]
        [1, 0, 0, 0, 0, 0, 0, 0] wei25519_gx wei25519_gy =
      some ([47, 0, 0, 0, 0, 0, 0, 0], wei25519_gy) ∧
    short_weierstrass_to_montgomery wei25519 100 [1, 0, 0, 0, 0, 0, 0, 0]
        [0, 0, 0, 0, 0, 0, 0, 0] wei25519_gx wei25519_gy =
      some ([9, 0, 0, 0, 0, 0, 0, 0], wei25519_gy) := by
  decide!

theorem toLimbs_length : ∀ (n v : Nat), (toLimbs n v).length = n
  | 0, _ => rfl
  | n + 1, v => by simp [toLimbs, toLimbs_length n]

theorem toLimbs_limbs : ∀ (n v : Nat), Limbs (toLimbs n v)
  | 0, _ => limbs_nil
  | n + 1, v => limbs_cons.2 ⟨Nat.mod_lt _ (by decide), toLimbs_limbs n _⟩

theorem toLimbs_value : ∀ (n v : Nat), value (toLimbs n v) = v % 2 ^ (32 * n)
  | 0, v => by simp [toLimbs, value, Nat.mod_one]
  | n + 1, v => by
    rw [toLimbs, value_cons, toLimbs_value n, Nat.mul_succ, Nat.pow_add, Nat.mul_comm (2 ^ (32 * n)),
      Nat.mod_mul, Nat.add_comm]

/-- A word sequence is determined by its length and value. -/
theorem eq_toLimbs : ∀ {xs : List Nat}, Limbs xs → xs = toLimbs xs.length (value xs)
  | [], _ => rfl
  | a :: as, h => by
    have ha := (limbs_cons.1 h).1
    have ih := eq_toLimbs (limbs_cons.1 h).2
    rw [List.length_cons, toLimbs, value_cons]
    have e1 : (a + 2 ^ 32 * value as) % 2 ^ 32 = a := by omega
    have e2 : (a + 2 ^ 32 * value as) / 2 ^ 32 = value as := by omega
    rw [e1, e2, ← ih]

/-- The sequence `xs` consists of `n` 32-bit words denoting `v`. -/
theorem eq_toLimbs_of {xs : List Nat} {n v : Nat} (hl : xs.length = n) (h : Limbs xs)
    (hv : value xs = v) : xs = toLimbs n v := by
  rw [← hl, ← hv]; exact eq_toLimbs h

theorem drop_set_set_replicate : ∀ (m i a b : Nat), i + 2 ≤ m →
    (((List.replicate m 0).set i a).set (i + 1) b).drop i = a :: b :: List.replicate (m - i - 2) 0
  | 0, _, _, _, h => by omega
  | 1, _, _, _, h => by omega
  | m + 2, 0, a, b, _ => by
    simp [List.replicate_succ]
  | m + 2, i + 1, a, b, h => by
    have ih := drop_set_set_replicate (m + 1) i a b (by omega)
    rw [List.replicate_succ, List.set_cons_succ, List.set_cons_succ, List.drop_succ_cons, ih]
    have : m + 1 - i - 2 = m + 2 - (i + 1) - 2 := by omega
    rw [this]

/-- One pass of the inner loop of `fieldMult` adds `x[n] * y[k] * 2^(32 (n + k))`. -/
theorem fieldMultInner_spec (x y : List Nat) (L k n : Nat) (result : List Nat)
    (hx : Limbs x) (hy : Limbs y) (hn : n < L) (hk : k < L)
    (hr : Limbs result) (hl : result.length = L * 2)
    (hb : value result + x.getD n 0 * y.getD k 0 * 2 ^ (32 * (n + k)) < 2 ^ (32 * (L * 2))) :
    (fieldMultInner x y L k result n).length = L * 2 ∧ Limbs (fieldMultInner x y L k result n) ∧
    value (fieldMultInner x y L k result n) =
      value result + x.getD n 0 * y.getD k 0 * 2 ^ (32 * (n + k)) := by
  have gx := getD_lt hx n
  have gy := getD_lt hy k
  unfold fieldMultInner
  simp only []
  generalize x.getD n 0 = a at *
  generalize y.getD k 0 = b at *
  have hab : a * b < 2 ^ 64 := by
    have : a * b < 2 ^ 32 * 2 ^ 32 := Nat.mul_lt_mul'' gx gy
    simpa using this
  simp only [Nat.mod_eq_of_lt hab, and_mask32, Nat.shiftRight_eq_div_pow, setZero]
  rw [drop_set_set_replicate (L * 2) (n + k) _ _ (by omega)]
  have hlen : (a * b % 2 ^ 32 :: a * b / 2 ^ 32 :: List.replicate (L * 2 - (n + k) - 2) 0).length =
      L * 2 - (n + k) := by
    simp; omega
  have hlim : Limbs (a * b % 2 ^ 32 :: a * b / 2 ^ 32 :: List.replicate (L * 2 - (n + k) - 2) 0) :=
    limbs_cons.2 ⟨Nat.mod_lt _ (by decide), limbs_cons.2 ⟨by omega, limbs_replicate_zero _⟩⟩
  have hval : value (a * b % 2 ^ 32 :: a * b / 2 ^ 32 :: List.replicate (L * 2 - (n + k) - 2) 0) =
      a * b := by
    rw [value_cons, value_cons, value_replicate_zero]
    omega
  have hdl : (result.drop (n + k)).length = L * 2 - (n + k) := by simp [hl]
  obtain ⟨s1, s2, s3, s4⟩ := add_spec _ _ (L * 2 - (n + k)) hlim (limbs_drop (n + k) hr)
    (le_of_eq hlen.symm) (le_of_eq hdl.symm)
  rw [List.take_of_length_le (le_of_eq hlen), List.take_of_length_le (le_of_eq hdl), hval] at s1
  have htl : (result.take (n + k)).length = n + k := by simp [hl]; omega
  have hsplit : value result = value (result.take (n + k)) +
      2 ^ (32 * (n + k)) * value (result.drop (n + k)) := by
    conv_lhs => rw [← List.take_append_drop (n + k) result]
    rw [value_append, htl]
  refine ⟨by rw [List.length_append, htl, s3]; omega,
    limbs_append.2 ⟨limbs_take _ hr, s4⟩, ?_⟩
  rw [value_append, htl]
  have hpow : 2 ^ (32 * (L * 2)) = 2 ^ (32 * (n + k)) * 2 ^ (32 * (L * 2 - (n + k))) := by
    rw [← Nat.pow_add]; congr 1; omega
  rw [hsplit] at hb ⊢
  have hc : a * b * 2 ^ (32 * (n + k)) = 2 ^ (32 * (n + k)) * (a * b) := Nat.mul_comm _ _
  rw [hc] at hb ⊢
  rw [hpow] at hb
  generalize 2 ^ (32 * (n + k)) = P at *
  generalize 2 ^ (32 * (L * 2 - (n + k))) = R at *
  generalize value (List.take (n + k) result) = vlo at *
  generalize value (List.drop (n + k) result) = H at *
  generalize (add (a * b % 2 ^ 32 :: a * b / 2 ^ 32 :: List.replicate (L * 2 - (n + k) - 2) 0)
    (List.drop (n + k) result) (L * 2 - (n + k))) = sres at *
  have hs : P * value sres.1 + P * R * sres.2 = P * (a * b) + P * H := by
    rw [Nat.mul_assoc, ← Nat.mul_add, ← Nat.mul_add, s1]
  rcases Nat.le_one_iff_eq_zero_or_eq_one.1 s2 with e | e
  · rw [e] at hs; omega
  · rw [e] at hs; omega

theorem value_take_le (x : List Nat) (i j : Nat) (h : i ≤ j) :
    value (x.take i) ≤ value (x.take j) := by
  have e : x.take i = (x.take j).take i := by
    rw [List.take_take, Nat.min_eq_left h]
  have hs : value (x.take j) = value ((x.take j).take i) +
      2 ^ (32 * ((x.take j).take i).length) * value ((x.take j).drop i) := by
    conv_lhs => rw [← List.take_append_drop i (x.take j)]
    rw [value_append]
  rw [e, hs]
  exact Nat.le_add_right _ _

/-- The inner loop of `fieldMult` for the word `y[k]`, after `j` passes. -/
theorem fieldMult_inner_loop (x y : List Nat) (L k : Nat) (hx : Limbs x) (hy : Limbs y)
    (hk : k < L) (hLx : L ≤ x.length) :
    ∀ (j : Nat) (res : List Nat), j ≤ L → Limbs res → res.length = L * 2 →
      value res + value (x.take j) * y.getD k 0 * 2 ^ (32 * k) < 2 ^ (32 * (L * 2)) →
      ((List.range j).foldl (fieldMultInner x y L k) res).length = L * 2 ∧
      Limbs ((List.range j).foldl (fieldMultInner x y L k) res) ∧
      value ((List.range j).foldl (fieldMultInner x y L k) res) =
        value res + value (x.take j) * y.getD k 0 * 2 ^ (32 * k)
  | 0, res, _, hr, hl, _ => by
    simp [hr, hl, value]
  | j + 1, res, hj, hr, hl, hb => by
    have hts := value_take_succ x j (by omega)
    have e : value (x.take (j + 1)) * y.getD k 0 * 2 ^ (32 * k) =
        value (x.take j) * y.getD k 0 * 2 ^ (32 * k) +
          x.getD j 0 * y.getD k 0 * 2 ^ (32 * (j + k)) := by
      rw [hts, Nat.mul_add 32 j k, Nat.pow_add]; ring
    rw [e] at hb ⊢
    obtain ⟨i1, i2, i3⟩ := fieldMult_inner_loop x y L k hx hy hk hLx j res (by omega) hr hl
      (by omega)
    rw [List.range_succ, List.foldl_append, List.foldl_cons, List.foldl_nil]
    obtain ⟨s1, s2, s3⟩ := fieldMultInner_spec x y L k j _ hx hy (by omega) hk i2 i1
      (by rw [i3]; omega)
    exact ⟨s1, s2, by rw [s3, i3]; omega⟩

/-- The product loop of `fieldMult`, after `j` passes of the outer loop. -/
theorem fieldMult_outer_loop (x y : List Nat) (L : Nat) (hx : Limbs x) (hy : Limbs y)
    (hLx : L ≤ x.length) (hLy : L ≤ y.length) :
    ∀ (j : Nat), j ≤ L →
      ((List.range j).foldl
        (fun result k => (List.range L).foldl (fieldMultInner x y L k) result)
        (setZero (L * 2))).length = L * 2 ∧
      Limbs ((List.range j).foldl
        (fun result k => (List.range L).foldl (fieldMultInner x y L k) result)
        (setZero (L * 2))) ∧
      value ((List.range j).foldl
        (fun result k => (List.range L).foldl (fieldMultInner x y L k) result)
        (setZero (L * 2))) = value (x.take L) * value (y.take j)
  | 0, _ => by
    simp [setZero, limbs_replicate_zero, value_replicate_zero, value]
  | j + 1, hj => by
    obtain ⟨i1, i2, i3⟩ := fieldMult_outer_loop x y L hx hy hLx hLy j (by omega)
    have hts := value_take_succ y j (by omega)
    have hX := value_lt (limbs_take L hx)
    have hY := value_lt (limbs_take (j + 1) hy)
    simp only [List.length_take, Nat.min_eq_left hLx] at hX
    simp only [List.length_take, Nat.min_eq_left (show j + 1 ≤ y.length by omega)] at hY
    have hYL : 2 ^ (32 * (j + 1)) ≤ 2 ^ (32 * L) :=
      Nat.pow_le_pow_right (by decide) (by omega)
    have hprod : value (x.take L) * value (y.take (j + 1)) < 2 ^ (32 * (L * 2)) := by
      have h1 : value (x.take L) * value (y.take (j + 1)) < 2 ^ (32 * L) * 2 ^ (32 * L) :=
        Nat.mul_lt_mul'' hX (lt_of_lt_of_le hY hYL)
      have h2 : 2 ^ (32 * L) * 2 ^ (32 * L) = 2 ^ (32 * (L * 2)) := by
        rw [← Nat.pow_add]; congr 1; omega
      rw [h2] at h1; exact h1
    have e : value (x.take L) * value (y.take (j + 1)) =
        value (x.take L) * value (y.take j) + value (x.take L) * y.getD j 0 * 2 ^ (32 * j) := by
      rw [hts]; ring
    rw [List.range_succ, List.foldl_append, List.foldl_cons, List.foldl_nil]
    obtain ⟨s1, s2, s3⟩ := fieldMult_inner_loop x y L j hx hy (by omega) hLx L _ (le_refl _)
      i2 i1 (by rw [i3, ← e]; exact hprod)
    exact ⟨s1, s2, by rw [s3, i3, e]⟩

/-- `fieldMult` writes the exact product of its operands: `2 * L` words whose value is the
product of the values of the first `L` words of `x` and of `y`. -/
theorem fieldMult_spec (x y : List Nat) (L : Nat) (hx : Limbs x) (hy : Limbs y)
    (hLx : L ≤ x.length) (hLy : L ≤ y.length) :
    (fieldMult x y L).length = L * 2 ∧ Limbs (fieldMult x y L) ∧
    value (fieldMult x y L) = value (x.take L) * value (y.take L) :=
  fieldMult_outer_loop x y L hx hy hLx hLy L (le_refl _)

theorem toLimbs_mod (n v : Nat) : toLimbs n (v % 2 ^ (32 * n)) = toLimbs n v := by
  have h := eq_toLimbs_of (toLimbs_length n v) (toLimbs_limbs n v) (toLimbs_value n v)
  exact h.symm

theorem toLimbs_inj {n a b : Nat} (h : toLimbs n a = toLimbs n b) :
    a % 2 ^ (32 * n) = b % 2 ^ (32 * n) := by
  rw [← toLimbs_value, ← toLimbs_value, h]

theorem toLimbs8_value (v : Nat) : value (toLimbs 8 v) = v % 2 ^ 256 := toLimbs_value 8 v

theorem toLimbs8_length (v : Nat) : (toLimbs 8 v).length = 8 := toLimbs_length 8 v

theorem value_take_mod {xs : List Nat} (h : Limbs xs) (n : Nat) (hn : n ≤ xs.length) :
    value (xs.take n) = value xs % 2 ^ (32 * n) := by
  have hs : value xs = value (xs.take n) + 2 ^ (32 * (xs.take n).length) * value (xs.drop n) := by
    conv_lhs => rw [← List.take_append_drop n xs]
    rw [value_append]
  have hl : (xs.take n).length = n := by simp [hn]
  have hlt := value_lt (limbs_take n h)
  rw [hl] at hs hlt
  rw [hs, Nat.add_mul_mod_self_left, Nat.mod_eq_of_lt hlt]

theorem fieldAdd_toLimbs (a b : Nat) (r : List Nat) (hr : Limbs r) (hlr : 8 ≤ r.length) :
    fieldAdd (toLimbs 8 a) (toLimbs 8 b) r = toLimbs 8 (fieldAddV a b (value (r.take 8))) := by
  obtain ⟨h1, h2, h3⟩ := fieldAdd_spec (toLimbs 8 a) (toLimbs 8 b) r (toLimbs_limbs _ _)
    (toLimbs_limbs _ _) hr (toLimbs_length _ _) (toLimbs_length _ _) hlr
  rw [toLimbs8_value, toLimbs8_value] at h3
  have hv : value (fieldAdd (toLimbs 8 a) (toLimbs 8 b) r) = fieldAddV a b (value (r.take 8)) := by
    rw [h3]; rfl
  exact eq_toLimbs_of h1 h2 hv

theorem fieldSub_toLimbs (a b : Nat) (m : List Nat) (hm : Limbs m) (hlm : 8 ≤ m.length) :
    fieldSub (toLimbs 8 a) (toLimbs 8 b) m = toLimbs 8 (fieldSubV a b (value (m.take 8))) := by
  obtain ⟨h1, h2, h3⟩ := fieldSub_spec (toLimbs 8 a) (toLimbs 8 b) m (toLimbs_limbs _ _)
    (toLimbs_limbs _ _) hm (toLimbs_length _ _) (toLimbs_length _ _) hlm
  rw [toLimbs8_value, toLimbs8_value] at h3
  have hv : value (fieldSub (toLimbs 8 a) (toLimbs 8 b) m) = fieldSubV a b (value (m.take 8)) := by
    rw [h3]; rfl
  exact eq_toLimbs_of h1 h2 hv

theorem fieldMult_toLimbs (a b : Nat) :
    fieldMult (toLimbs 8 a) (toLimbs 8 b) arrayLength =
      toLimbs 16 ((a % 2 ^ 256) * (b % 2 ^ 256)) := by
  obtain ⟨h1, h2, h3⟩ := fieldMult_spec (toLimbs 8 a) (toLimbs 8 b) 8 (toLimbs_limbs _ _)
    (toLimbs_limbs _ _) (by rw [toLimbs_length]) (by rw [toLimbs_length])
  rw [take_eq_self (toLimbs_length 8 a), take_eq_self (toLimbs_length 8 b), toLimbs8_value,
    toLimbs8_value] at h3
  exact eq_toLimbs_of h1 h2 h3

theorem bool_eq_decide {b : Bool} {p : Prop} [Decidable p] (h : b = true ↔ p) :
    b = decide p := by
  by_cases hp : p
  · rw [h.2 hp, decide_eq_true hp]
  · rw [decide_eq_false hp]
    cases hb : b with
    | false => rfl
    | true => exact absurd (h.1 hb) hp

theorem isZero_toLimbs (a : Nat) : isZero (toLimbs 8 a) = decide (a % 2 ^ 256 = 0) := by
  have h := isZero_spec (toLimbs_length 8 a)
  rw [toLimbs8_value] at h
  exact bool_eq_decide h

theorem isOne_toLimbs (a : Nat) : isOne (toLimbs 8 a) = decide (a % 2 ^ 256 = 1) := by
  have h := isOne_spec (toLimbs_length 8 a)
  rw [toLimbs8_value] at h
  exact bool_eq_decide h

theorem isSame_toLimbs (a b : Nat) :
    isSame (toLimbs 8 a) (toLimbs 8 b) arrayLength = decide (a % 2 ^ 256 = b % 2 ^ 256) := by
  unfold isSame arrayLength
  rw [take_eq_self (toLimbs_length 8 a), take_eq_self (toLimbs_length 8 b)]
  apply bool_eq_decide
  rw [decide_eq_true_iff]
  constructor
  · intro e; exact toLimbs_inj e
  · intro hc
    rw [← toLimbs_mod 8 a, ← toLimbs_mod 8 b]
    exact congrArg (toLimbs 8) hc

theorem fieldAddV_lt (x y r : Nat) : fieldAddV x y r < 2 ^ 256 := by
  unfold fieldAddV
  simp only
  split
  · assumption
  · exact Nat.mod_lt _ (by decide)

theorem fieldSubV_lt (x y m : Nat) : fieldSubV x y m < 2 ^ 256 := by
  unfold fieldSubV
  simp only
  have : x % 2 ^ 256 < 2 ^ 256 := Nat.mod_lt _ (by decide)
  split
  · omega
  · exact Nat.mod_lt _ (by decide)

theorem fieldAddAndDivideV_lt (x m r : Nat) : fieldAddAndDivideV x m r < 2 ^ 256 := by
  unfold fieldAddAndDivideV
  simp only
  have h1 : (x % 2 ^ 256 + m) % 2 ^ 256 < 2 ^ 256 := Nat.mod_lt _ (by decide)
  split
  · split
    · exact Nat.mod_lt _ (by decide)
    · omega
  · omega

theorem toLimbs8_value_of_lt {v : Nat} (h : v < 2 ^ 256) : value (toLimbs 8 v) = v := by
  rw [toLimbs8_value, Nat.mod_eq_of_lt h]

theorem rshift_toLimbs (u : Nat) : rshift (toLimbs 8 u) = toLimbs 8 ((u % 2 ^ 256) / 2) := by
  obtain ⟨h1, h2, h3⟩ := rshift_spec (toLimbs_length 8 u) (toLimbs_limbs 8 u)
  rw [toLimbs8_value] at h1
  exact eq_toLimbs_of h2 h3 h1

theorem lowbit_toLimbs (u : Nat) : (toLimbs 8 u).getD 0 0 &&& 1 = (u % 2 ^ 256) % 2 := by
  rw [lowbit_spec (length_ne_nil (toLimbs_length 8 u)), toLimbs8_value]

theorem fieldAddAndDivide_toLimbs (x : Nat) (m r : List Nat) (hm : Limbs m)
    (hlm : 8 ≤ m.length) (hr : Limbs r) (hlr : 8 ≤ r.length) :
    fieldAddAndDivide (toLimbs 8 x) m r =
      toLimbs 8 (fieldAddAndDivideV x (value (m.take 8)) (value (r.take 8))) := by
  obtain ⟨h1, h2, h3, h4⟩ := add_spec (toLimbs 8 x) m 8 (toLimbs_limbs 8 x) hm
    (by rw [toLimbs_length]) hlm
  rw [take_eq_self (toLimbs_length 8 x), toLimbs8_value] at h1
  obtain ⟨s1, s2, s3⟩ := rshift_spec h3 h4
  have hml := value_lt (limbs_take 8 hm)
  simp only [List.length_take, Nat.min_eq_left hlm, Nat.reduceMul] at hml
  have hal := value_lt h4
  rw [h3] at hal
  simp only [Nat.reduceMul] at h1 hal
  have hxl : x % 2 ^ 256 < 2 ^ 256 := Nat.mod_lt _ (by decide)
  unfold fieldAddAndDivide fieldAddAndDivideV arrayLength
  simp only
  by_cases hc : (add (toLimbs 8 x) m 8).2 = 0
  · rw [if_neg (by simpa using hc)]
    rw [hc] at h1
    have hn : ¬ 2 ^ 256 ≤ x % 2 ^ 256 + value (m.take 8) := by omega
    rw [if_neg hn]
    apply eq_toLimbs_of s2 s3
    rw [s1, Nat.mod_eq_of_lt (by omega)]
    omega
  · have hc1 : (add (toLimbs 8 x) m 8).2 = 1 := by omega
    rw [if_pos hc]
    rw [hc1] at h1
    have hn : 2 ^ 256 ≤ x % 2 ^ 256 + value (m.take 8) := by omega
    rw [if_pos hn]
    have hlo : (x % 2 ^ 256 + value (m.take 8)) % 2 ^ 256 = value (add (toLimbs 8 x) m 8).1 := by
      omega
    rw [hlo]
    obtain ⟨a0, a1, a2, a3, a4, a5, a6, a7, e⟩ := length_eight s2
    have hs3 := s3
    rw [e] at hs3
    have l7 : a7 < 2 ^ 31 := by
      have hv : value (rshift (add (toLimbs 8 x) m 8).1) < 2 ^ 255 := by rw [s1]; omega
      rw [e] at hv
      simp only [value] at hv
      omega
    have hor : a7 ||| 0x80000000 = a7 + 2 ^ 31 := by
      have := Nat.mul_add_lt_is_or l7 1
      rw [Nat.lor_comm]
      simpa [Nat.add_comm] using this.symm
    have hset : (rshift (add (toLimbs 8 x) m 8).1).set 7
        ((rshift (add (toLimbs 8 x) m 8).1).getD 7 0 ||| 0x80000000) =
        [a0, a1, a2, a3, a4, a5, a6, a7 + 2 ^ 31] := by
      rw [e]
      simp only [List.getD_cons_succ, List.getD_cons_zero, hor, List.set]
    rw [hset]
    have hv2 : value [a0, a1, a2, a3, a4, a5, a6, a7 + 2 ^ 31] =
        value (add (toLimbs 8 x) m 8).1 / 2 + 2 ^ 255 := by
      have hv : value (rshift (add (toLimbs 8 x) m 8).1) =
          value (add (toLimbs 8 x) m 8).1 / 2 := s1
      rw [e] at hv
      simp only [value] at hv ⊢
      omega
    have hl2 : Limbs [a0, a1, a2, a3, a4, a5, a6, a7 + 2 ^ 31] := by
      intro w hw
      simp only [List.mem_cons, List.mem_singleton, List.not_mem_nil, or_false] at hw
      have ha : ∀ w ∈ [a0, a1, a2, a3, a4, a5, a6, a7], w < 2 ^ 32 := hs3
      simp only [List.mem_cons, List.mem_singleton, List.not_mem_nil, or_false,
        forall_eq_or_imp, forall_eq] at ha
      rcases hw with h | h | h | h | h | h | h | h <;> rw [h] <;> omega
    have hl8 : [a0, a1, a2, a3, a4, a5, a6, a7 + 2 ^ 31].length = 8 := rfl
    rw [isGreater_spec _ _ hl2 hm 8 (by simp) hlm, take_eq_self hl8, hv2]
    by_cases hg : value (add (toLimbs 8 x) m 8).1 / 2 + 2 ^ 255 > value (m.take 8)
    · rw [if_pos hg, if_pos rfl, if_pos hg]
      obtain ⟨b1, b2, b3, b4⟩ := add_spec [a0, a1, a2, a3, a4, a5, a6, a7 + 2 ^ 31] r 8 hl2 hr
        (by simp) hlr
      rw [take_eq_self hl8, hv2] at b1
      have hbl := value_lt b4
      rw [b3] at hbl
      simp only [Nat.reduceMul] at b1 hbl
      rw [copy_eq_src b3 (by simp)]
      apply eq_toLimbs_of b3 b4
      rcases Nat.le_one_iff_eq_zero_or_eq_one.1 b2 with e2 | e2 <;> rw [e2] at b1 <;> omega
    · rw [if_neg hg, if_neg hg]
      have hne : (if value (add (toLimbs 8 x) m 8).1 / 2 + 2 ^ 255 < value (m.take 8) then
          (-1 : Int) else 0) ≠ 1 := by split <;> simp
      rw [if_neg hne]
      exact eq_toLimbs_of hl8 hl2 hv2

theorem sub_toLimbs (u v : Nat) (hu : u < 2 ^ 256) (hv : v < 2 ^ 256) :
    ((sub (toLimbs 8 u) (toLimbs 8 v) 8).2 = 0 ↔ v ≤ u) ∧
    (sub (toLimbs 8 u) (toLimbs 8 v) 8).2 ≤ 1 ∧
    (v ≤ u → (sub (toLimbs 8 u) (toLimbs 8 v) 8).1 = toLimbs 8 (u - v)) := by
  obtain ⟨s1, s2, s3, s4⟩ := sub_spec (toLimbs 8 u) (toLimbs 8 v) 8 (toLimbs_limbs _ _)
    (toLimbs_limbs _ _) (by rw [toLimbs_length]) (by rw [toLimbs_length])
  have hb := sub_borrow (toLimbs 8 u) (toLimbs 8 v) 8 (toLimbs_limbs _ _)
    (toLimbs_limbs _ _) (by rw [toLimbs_length]) (by rw [toLimbs_length])
  rw [take_eq_self (toLimbs_length 8 u), take_eq_self (toLimbs_length 8 v),
    toLimbs8_value_of_lt hu, toLimbs8_value_of_lt hv] at s1 hb
  refine ⟨hb, s2, fun hle => ?_⟩
  have h0 := hb.2 hle
  rw [h0] at s1
  exact eq_toLimbs_of s3 s4 (by omega)

theorem copy_toLimbs8 (a b : Nat) : copy (toLimbs 8 a) (toLimbs 8 b) 8 = toLimbs 8 a :=
  copy_eq_src (toLimbs_length 8 a) (by rw [toLimbs_length])

theorem copy_toLimbs8_al (a b : Nat) :
    copy (toLimbs 8 a) (toLimbs 8 b) arrayLength = toLimbs 8 a := copy_toLimbs8 a b

theorem fieldInvEven_toLimbs (m r : List Nat) (hm : Limbs m) (hlm : 8 ≤ m.length)
    (hr : Limbs r) (hlr : 8 ≤ r.length) :
    ∀ (fuel u x1 : Nat), u < 2 ^ 256 → x1 < 2 ^ 256 →
      fieldInvEven m r fuel (toLimbs 8 u) (toLimbs 8 x1) =
        (fieldInvEvenV (value (m.take 8)) (value (r.take 8)) fuel u x1).map
          (fun p => (toLimbs 8 p.1, toLimbs 8 p.2))
  | 0, _, _, _, _ => rfl
  | fuel + 1, u, x1, hu, hx => by
    rw [fieldInvEven, fieldInvEvenV, lowbit_toLimbs, Nat.mod_eq_of_lt hu]
    by_cases he : u % 2 = 0
    · rw [if_pos he, if_pos he]
      simp only [lowbit_toLimbs, Nat.mod_eq_of_lt hx, rshift_toLimbs, Nat.mod_eq_of_lt hu]
      by_cases hxe : x1 % 2 = 0
      · rw [if_pos hxe, if_pos hxe]
        exact fieldInvEven_toLimbs m r hm hlm hr hlr fuel _ _ (by omega) (by omega)
      · rw [if_neg hxe, if_neg hxe, fieldAddAndDivide_toLimbs x1 m r hm hlm hr hlr,
          copy_toLimbs8_al]
        exact fieldInvEven_toLimbs m r hm hlm hr hlr fuel _ _ (by omega)
          (fieldAddAndDivideV_lt _ _ _)
    · rw [if_neg he, if_neg he]
      rfl

theorem fieldInvEvenV_lt (m r : Nat) :
    ∀ (fuel u x1 : Nat) (p : Nat × Nat), u < 2 ^ 256 → x1 < 2 ^ 256 →
      fieldInvEvenV m r fuel u x1 = some p → p.1 < 2 ^ 256 ∧ p.2 < 2 ^ 256
  | 0, _, _, _, _, _, h => by cases h
  | fuel + 1, u, x1, p, hu, hx, h => by
    rw [fieldInvEvenV] at h
    split at h
    · refine fieldInvEvenV_lt m r fuel _ _ p (by omega) ?_ h
      split
      · omega
      · exact fieldAddAndDivideV_lt _ _ _
    · injection h with h
      rw [← h]; exact ⟨hu, hx⟩

theorem fieldInvLoop_toLimbs (m r : List Nat) (hm : Limbs m) (hlm : 8 ≤ m.length)
    (hr : Limbs r) (hlr : 8 ≤ r.length) (inner : Nat) :
    ∀ (fuel u v x1 x2 : Nat), u < 2 ^ 256 → v < 2 ^ 256 → x1 < 2 ^ 256 → x2 < 2 ^ 256 →
      fieldInvLoop m r inner fuel (toLimbs 8 u) (toLimbs 8 v) (toLimbs 8 x1) (toLimbs 8 x2) =
        (fieldInvLoopV (value (m.take 8)) (value (r.take 8)) inner fuel u v x1 x2).map
          (toLimbs 8)
  | 0, _, _, _, _, _, _, _, _ => rfl
  | fuel + 1, u, v, x1, x2, hu, hv, hx1, hx2 => by
    rw [fieldInvLoop, fieldInvLoopV, isOne_toLimbs, isOne_toLimbs, Nat.mod_eq_of_lt hu,
      Nat.mod_eq_of_lt hv]
    by_cases hone : u ≠ 1 ∧ v ≠ 1
    · have h1 : (decide (u = 1) || decide (v = 1)) = false := by
        simp [hone.1, hone.2]
      rw [if_pos h1, if_pos hone, fieldInvEven_toLimbs m r hm hlm hr hlr inner u x1 hu hx1]
      cases e1 : fieldInvEvenV (value (m.take 8)) (value (r.take 8)) inner u x1 with
      | none => rfl
      | some p =>
        obtain ⟨pu, px⟩ := fieldInvEvenV_lt _ _ _ _ _ _ hu hx1 e1
        simp only [Option.map_some']
        rw [fieldInvEven_toLimbs m r hm hlm hr hlr inner v x2 hv hx2]
        cases e2 : fieldInvEvenV (value (m.take 8)) (value (r.take 8)) inner v x2 with
        | none => rfl
        | some q =>
          obtain ⟨qv, qx⟩ := fieldInvEvenV_lt _ _ _ _ _ _ hv hx2 e2
          simp only [Option.map_some', arrayLength]
          obtain ⟨b1, b2, b3⟩ := sub_toLimbs p.1 q.1 pu qv
          by_cases hc : q.1 ≤ p.1
          · rw [b1.2 hc, if_pos (by decide), if_pos hc, b3 hc, copy_toLimbs8,
              fieldSub_toLimbs _ _ m hm hlm, copy_toLimbs8]
            exact fieldInvLoop_toLimbs m r hm hlm hr hlr inner fuel _ _ _ _ (by omega) qv
              (fieldSubV_lt _ _ _) qx
          · have hb1 : (sub (toLimbs 8 p.1) (toLimbs 8 q.1) 8).2 = 1 := by
              have : (sub (toLimbs 8 p.1) (toLimbs 8 q.1) 8).2 ≠ 0 := fun h => hc (b1.1 h)
              omega
            obtain ⟨c1, c2, c3⟩ := sub_toLimbs q.1 p.1 qv pu
            rw [hb1, if_neg (by decide), if_neg hc, c3 (by omega), copy_toLimbs8,
              fieldSub_toLimbs _ _ m hm hlm, copy_toLimbs8]
            exact fieldInvLoop_toLimbs m r hm hlm hr hlr inner fuel _ _ _ _ pu (by omega) px
              (fieldSubV_lt _ _ _)
    · have h1 : ¬ (decide (u = 1) || decide (v = 1)) = false := by
        intro h
        rw [Bool.or_eq_false_iff, decide_eq_false_iff_not, decide_eq_false_iff_not] at h
        exact hone h
      rw [if_neg h1, if_neg hone]
      simp only [Option.map_some']
      by_cases hu1 : u = 1
      · rw [if_pos (by simp [hu1]), if_pos hu1, copy_setZero (toLimbs_length 8 x1)]
      · rw [if_neg (by simp [hu1]), if_neg hu1, copy_setZero (toLimbs_length 8 x2)]

theorem setZero8_toLimbs : setZero 8 = toLimbs 8 0 := by decide

theorem one_toLimbs : (setZero 8).set 0 1 = toLimbs 8 1 := by decide

/-- `fieldInv` is the value-level loop on the values of its operands. -/
theorem fieldInv_toLimbs (fuel a : Nat) (m r : List Nat) (hm : Limbs m) (hlm : 8 ≤ m.length)
    (hr : Limbs r) (hlr : 8 ≤ r.length) :
    fieldInv fuel (toLimbs 8 a) m r =
      (fieldInvV fuel a (value (m.take 8)) (value (r.take 8))).map (toLimbs 8) := by
  have hml := value_lt (limbs_take 8 hm)
  simp only [List.length_take, Nat.min_eq_left hlm, Nat.reduceMul] at hml
  have hmt : m.take 8 = toLimbs 8 (value (m.take 8)) :=
    eq_toLimbs_of (by simp [hlm]) (limbs_take 8 hm) rfl
  unfold fieldInv fieldInvV
  rw [copy_setZero (toLimbs_length 8 a), copy_modulus, one_toLimbs, setZero8_toLimbs,
    ← toLimbs_mod 8 a, hmt]
  rw [toLimbs8_value_of_lt hml]
  exact fieldInvLoop_toLimbs m r hm hlm hr hlr fuel fuel _ _ _ _
    (Nat.mod_lt _ (by decide)) hml (by decide) (by decide)

theorem toLimbs_eq_map : ∀ (n v : Nat),
    toLimbs n v = (List.range n).map (fun i => v / 2 ^ (32 * i) % 2 ^ 32)
  | 0, _ => rfl
  | n + 1, v => by
    rw [toLimbs, toLimbs_eq_map n, List.range_succ_eq_map, List.map_cons, List.map_map]
    have h0 : v / 2 ^ (32 * 0) % 2 ^ 32 = v % 2 ^ 32 := by
      rw [Nat.mul_zero, Nat.pow_zero, Nat.div_one]
    rw [h0]
    congr 1
    apply List.map_congr_left
    intro i _
    show v / 2 ^ 32 / 2 ^ (32 * i) % 2 ^ 32 = v / 2 ^ (32 * (i + 1)) % 2 ^ 32
    rw [Nat.div_div_eq_div_mul, Nat.mul_succ, Nat.pow_add, Nat.mul_comm]

theorem word_of_value : ∀ (xs : List Nat) (j : Nat), Limbs xs →
    value xs / 2 ^ (32 * j) % 2 ^ 32 = xs.getD j 0
  | [], j, _ => by simp [value]
  | a :: as, 0, h => by
    have ha := (limbs_cons.1 h).1
    rw [value_cons, List.getD_cons_zero]
    simp only [Nat.mul_zero, Nat.pow_zero, Nat.div_one]
    omega
  | a :: as, j + 1, h => by
    have ha := (limbs_cons.1 h).1
    rw [value_cons, List.getD_cons_succ, ← word_of_value as j (limbs_cons.1 h).2, Nat.mul_succ,
      Nat.pow_add, Nat.mul_comm (2 ^ (32 * j)), ← Nat.div_div_eq_div_mul]
    have : (a + 2 ^ 32 * value as) / 2 ^ 32 = value as := by omega
    rw [this]

theorem getD_take (xs : List Nat) (n j : Nat) :
    (xs.take n).getD j 0 = if j < n then xs.getD j 0 else 0 := by
  simp only [List.getD_eq_getElem?_getD, List.getElem?_take]
  split <;> rfl

theorem rshiftby_toLimbs (inp : List Nat) (in_size out_size shift : Nat) (h : Limbs inp) :
    rshiftby inp in_size out_size shift =
      toLimbs out_size (value (inp.take in_size) / 2 ^ (32 * shift)) := by
  rw [toLimbs_eq_map]
  unfold rshiftby
  apply List.map_congr_left
  intro i _
  rw [Nat.div_div_eq_div_mul, ← Nat.pow_add, ← Nat.mul_add, Nat.add_comm shift i,
    word_of_value _ _ (limbs_take in_size h), getD_take]

theorem fieldModXLoop_toLimbs (modulus : List Nat) (rl : Nat) (hm : Limbs modulus)
    (hlm : rl ≤ modulus.length) :
    ∀ (fuel v : Nat), v < 2 ^ (32 * rl) →
      fieldModXLoop modulus rl fuel (toLimbs rl v) =
        (fieldModXLoopV (value modulus % 2 ^ (32 * rl)) fuel v).map (toLimbs rl)
  | 0, _, _ => rfl
  | fuel + 1, v, hv => by
    have hM := value_take_mod hm rl hlm
    have hvv : value (toLimbs rl v) = v := by rw [toLimbs_value, Nat.mod_eq_of_lt hv]
    rw [fieldModXLoop, fieldModXLoopV,
      isGreater_spec _ _ (toLimbs_limbs rl v) hm rl (by rw [toLimbs_length]) hlm,
      take_eq_self (toLimbs_length rl v), hvv, hM]
    by_cases hc : v > value modulus % 2 ^ (32 * rl)
    · rw [if_pos hc, if_pos rfl, if_pos hc]
      obtain ⟨s1, s2, s3, s4⟩ := sub_spec (toLimbs rl v) modulus rl (toLimbs_limbs rl v) hm
        (by rw [toLimbs_length]) hlm
      have hb := (sub_borrow (toLimbs rl v) modulus rl (toLimbs_limbs rl v) hm
        (by rw [toLimbs_length]) hlm).2
      rw [take_eq_self (toLimbs_length rl v), hvv, hM] at s1 hb
      rw [hb (by omega)] at s1
      have e : (sub (toLimbs rl v) modulus rl).1 =
          toLimbs rl (v - value modulus % 2 ^ (32 * rl)) :=
        eq_toLimbs_of s3 s4 (by omega)
      rw [e, copy_eq_src (toLimbs_length _ _) (by rw [toLimbs_length])]
      exact fieldModXLoop_toLimbs modulus rl hm hlm fuel _ (by omega)
    · rw [if_neg hc]
      have hne : (if v < value modulus % 2 ^ (32 * rl) then (-1 : Int) else 0) ≠ 1 := by
        split <;> simp
      rw [if_neg hne, if_neg hc]
      rfl

/-- The Barrett part of `fieldModX` is `barrettV` on the value of the input. -/
theorem barrett_toLimbs (fuel : Nat) (A result modulus mu : List Nat) (length k rl : Nat)
    (hA : Limbs A) (hm : Limbs modulus) (hmu : Limbs mu) (hl : length ≤ A.length)
    (hrl : rl ≤ A.length) (hlm : rl ≤ modulus.length) (h8m : 8 ≤ modulus.length)
    (hlmu : 9 ≤ mu.length) (hr16 : rl ≤ 16) (hres : result.length ≤ rl) :
    fieldModXLoop modulus rl fuel
        (copy (sub A
          (fieldMult
            (rshiftby (fieldMult mu (rshiftby A length 9 (((k + (2 ^ 32 - 1)) % 2 ^ 32) % 2 ^ 8)) 9)
              18 8 (((k + 1) % 2 ^ 32) % 2 ^ 8))
            modulus 8) rl).1 result rl) =
      (barrettV fuel (value A) length (value modulus) (value mu) k rl).map (toLimbs rl) := by
  unfold barrettV
  simp only
  rw [rshiftby_toLimbs A length 9 _ hA, value_take_mod hA length hl]
  generalize value A % 2 ^ (32 * length) /
    2 ^ (32 * (((k + (2 ^ 32 - 1)) % 2 ^ 32) % 2 ^ 8)) = Q1
  obtain ⟨m1, m2, m3⟩ := fieldMult_spec mu (toLimbs 9 Q1) 9 hmu (toLimbs_limbs _ _) hlmu
    (by rw [toLimbs_length])
  rw [value_take_mod hmu 9 hlmu, take_eq_self (toLimbs_length 9 _), toLimbs_value] at m3
  rw [rshiftby_toLimbs _ 18 8 _ m2, take_eq_self (show (fieldMult mu _ 9).length = 18 from m1), m3]
  generalize value mu % 2 ^ (32 * 9) * (Q1 % 2 ^ (32 * 9)) /
    2 ^ (32 * (((k + 1) % 2 ^ 32) % 2 ^ 8)) = Q3
  obtain ⟨n1, n2, n3⟩ := fieldMult_spec (toLimbs 8 Q3) modulus 8 (toLimbs_limbs _ _) hm
    (by rw [toLimbs_length]) h8m
  rw [take_eq_self (toLimbs_length 8 _), toLimbs_value, value_take_mod hm 8 h8m] at n3
  obtain ⟨s1, s2, s3, s4⟩ := sub_spec A (fieldMult (toLimbs 8 Q3) modulus 8) rl hA n2 hrl
    (by rw [n1]; omega)
  rw [value_take_mod hA rl hrl, value_take_mod n2 rl (by rw [n1]; omega), n3] at s1
  have hsl := value_lt s4
  rw [s3] at hsl
  have hal : value A % 2 ^ (32 * rl) < 2 ^ (32 * rl) := Nat.mod_lt _ (Nat.two_pow_pos _)
  have hY : Q3 % 2 ^ (32 * 8) * (value modulus % 2 ^ (32 * 8)) % 2 ^ (32 * rl) < 2 ^ (32 * rl) :=
    Nat.mod_lt _ (Nat.two_pow_pos _)
  generalize Q3 % 2 ^ (32 * 8) * (value modulus % 2 ^ (32 * 8)) % 2 ^ (32 * rl) = Y at *
  generalize value A % 2 ^ (32 * rl) = X at *
  have hR : (X + 2 ^ (32 * rl) - Y) % 2 ^ (32 * rl) < 2 ^ (32 * rl) :=
    Nat.mod_lt _ (Nat.two_pow_pos _)
  have e : (sub A (fieldMult (toLimbs 8 Q3) modulus 8) rl).1 =
      toLimbs rl ((X + 2 ^ (32 * rl) - Y) % 2 ^ (32 * rl)) := by
    apply eq_toLimbs_of s3 s4
    generalize 2 ^ (32 * rl) = P at *
    rcases Nat.le_one_iff_eq_zero_or_eq_one.1 s2 with e2 | e2
    · rw [e2] at s1
      have : X + P - Y = (X - Y) + P := by omega
      rw [this, Nat.add_mod_right, Nat.mod_eq_of_lt (by omega)]
      omega
    · rw [e2] at s1
      rw [Nat.mod_eq_of_lt (by omega)]
      omega
  rw [e, copy_eq_src (toLimbs_length _ _) hres]
  exact fieldModXLoop_toLimbs modulus rl hm hlm fuel _ hR

theorem limbs_map_range (f : Nat → Nat) (n : Nat) (h : ∀ i, f i < 2 ^ 32) :
    Limbs ((List.range n).map f) := by
  intro w hw
  rw [List.mem_map] at hw
  obtain ⟨i, _, rfl⟩ := hw
  exact h i

theorem formS1_rep (B : List Nat) (h : Limbs B) :
    formS1 B = toLimbs 8 (value (formS1 B)) := by
  apply eq_toLimbs_of (by simp [formS1]) _ rfl
  apply limbs_map_range
  intro i
  split
  · decide
  · exact getD_lt h _

theorem formS2_rep (B : List Nat) (h : Limbs B) :
    formS2 B = toLimbs 8 (value (formS2 B)) := by
  apply eq_toLimbs_of (by simp [formS2]) _ rfl
  apply limbs_map_range
  intro i
  repeat' split
  all_goals first | decide | exact getD_lt h _

theorem formS3_rep (B : List Nat) (h : Limbs B) :
    formS3 B = toLimbs 8 (value (formS3 B)) := by
  apply eq_toLimbs_of (by simp [formS3]) _ rfl
  apply limbs_map_range
  intro i
  repeat' split
  all_goals first | decide | exact getD_lt h _

theorem formS4_rep (B : List Nat) (h : Limbs B) :
    formS4 B = toLimbs 8 (value (formS4 B)) := by
  apply eq_toLimbs_of (by simp [formS4]) _ rfl
  apply limbs_map_range
  intro i
  repeat' split
  all_goals first | decide | exact getD_lt h _

theorem formD1_rep (B : List Nat) (h : Limbs B) :
    formD1 B = toLimbs 8 (value (formD1 B)) := by
  apply eq_toLimbs_of (by simp [formD1]) _ rfl
  apply limbs_map_range
  intro i
  repeat' split
  all_goals first | decide | exact getD_lt h _

theorem formD2_rep (B : List Nat) (h : Limbs B) :
    formD2 B = toLimbs 8 (value (formD2 B)) := by
  apply eq_toLimbs_of (by simp [formD2]) _ rfl
  apply limbs_map_range
  intro i
  repeat' split
  all_goals first | decide | exact getD_lt h _

theorem formD3_rep (B : List Nat) (h : Limbs B) :
    formD3 B = toLimbs 8 (value (formD3 B)) := by
  apply eq_toLimbs_of (by simp [formD3]) _ rfl
  apply limbs_map_range
  intro i
  repeat' split
  all_goals first | decide | exact getD_lt h _

theorem formD4_rep (B : List Nat) (h : Limbs B) :
    formD4 B = toLimbs 8 (value (formD4 B)) := by
  apply eq_toLimbs_of (by simp [formD4]) _ rfl
  apply limbs_map_range
  intro i
  repeat' split
  all_goals first | decide | exact getD_lt h _

theorem take_toLimbs : ∀ (n k v : Nat), k ≤ n → (toLimbs n v).take k = toLimbs k v
  | _, 0, _, _ => by simp [toLimbs]
  | 0, k + 1, _, h => by omega
  | n + 1, k + 1, v, h => by
    rw [toLimbs, toLimbs, List.take_succ_cons, take_toLimbs n k _ (by omega)]

theorem fieldSub_take (x y m : List Nat) : fieldSub x y m = fieldSub x (y.take 8) m := by
  unfold fieldSub sub arrayLength
  rw [List.take_take, Nat.min_self]

theorem fieldAdd_take (x y r : List Nat) : fieldAdd x y r = fieldAdd x (y.take 8) r := by
  unfold fieldAdd add arrayLength
  rw [List.take_take, Nat.min_self]

/-- `fieldSub` with a word sequence as second operand. -/
theorem fieldSub_toLimbs_list (a : Nat) (y m : List Nat) (hy : Limbs y) (hly : 8 ≤ y.length)
    (hm : Limbs m) (hlm : 8 ≤ m.length) :
    fieldSub (toLimbs 8 a) y m =
      toLimbs 8 (fieldSubV a (value (y.take 8)) (value (m.take 8))) := by
  have e : y.take 8 = toLimbs 8 (value (y.take 8)) :=
    eq_toLimbs_of (by simp [hly]) (limbs_take 8 hy) rfl
  rw [fieldSub_take]
  conv_lhs => rw [e]
  rw [fieldSub_toLimbs _ _ m hm hlm]

/-- `fieldAdd` with a word sequence as second operand. -/
theorem fieldAdd_toLimbs_list (a : Nat) (y r : List Nat) (hy : Limbs y) (hly : 8 ≤ y.length)
    (hr : Limbs r) (hlr : 8 ≤ r.length) :
    fieldAdd (toLimbs 8 a) y r =
      toLimbs 8 (fieldAddV a (value (y.take 8)) (value (r.take 8))) := by
  have e : y.take 8 = toLimbs 8 (value (y.take 8)) :=
    eq_toLimbs_of (by simp [hly]) (limbs_take 8 hy) rfl
  rw [fieldAdd_take]
  conv_lhs => rw [e]
  rw [fieldAdd_toLimbs _ _ r hr hlr]

theorem fieldModP256_final (m : List Nat) (A : Nat) (hA : A < 2 ^ 256) (hm : Limbs m)
    (hlm : 8 ≤ m.length) :
    (if isGreater (toLimbs 8 A) m arrayLength ≥ 0 then
        copy (fieldSub (toLimbs 8 A) m m) (toLimbs 8 A) arrayLength
      else toLimbs 8 A) =
      toLimbs 8 (if A ≥ value (m.take 8) then fieldSubV A (value (m.take 8)) (value (m.take 8))
        else A) := by
  unfold arrayLength
  rw [isGreater_spec _ _ (toLimbs_limbs 8 A) hm 8 (by rw [toLimbs_length]) hlm,
    take_eq_self (toLimbs_length 8 A), toLimbs8_value_of_lt hA,
    fieldSub_toLimbs_list A m m hm hlm hm hlm, copy_toLimbs8]
  have p1 : (1 : Int) ≥ 0 := by decide
  have p2 : ¬ ((-1 : Int) ≥ 0) := by decide
  have p3 : (0 : Int) ≥ 0 := by decide
  by_cases h1 : A > value (m.take 8)
  · have h3 : A ≥ value (m.take 8) := by omega
    rw [if_pos h1, if_pos p1, if_pos h3]
  · rw [if_neg h1]
    by_cases h2 : A < value (m.take 8)
    · have h3 : ¬ A ≥ value (m.take 8) := by omega
      rw [if_pos h2, if_neg p2, if_neg h3]
    · have h3 : A ≥ value (m.take 8) := by omega
      rw [if_neg h2, if_pos p3, if_pos h3]

/-- `fieldModP256` is `fieldModP256V` on the value of its sixteen input words. -/
theorem fieldModP256_toLimbs (m r : List Nat) (b : Nat) (hm : Limbs m) (hlm : 8 ≤ m.length)
    (hr : Limbs r) (hlr : 8 ≤ r.length) :
    fieldModP256 m r (toLimbs 16 b) =
      toLimbs 8 (fieldModP256V (value (m.take 8)) (value (r.take 8)) b) := by
  have hB := toLimbs_limbs 16 b
  have hc : copy (toLimbs 16 b) (setZero 8) arrayLength = toLimbs 8 b := by
    unfold copy arrayLength
    rw [take_toLimbs 16 8 b (by decide)]
    simp [setZero]
  unfold fieldModP256 fieldModP256V
  simp only [hc]
  conv_lhs =>
    rw [formS1_rep _ hB, formS2_rep _ hB, formS3_rep _ hB, formS4_rep _ hB, formD1_rep _ hB,
      formD2_rep _ hB, formD3_rep _ hB, formD4_rep _ hB]
    simp only [fieldAdd_toLimbs _ _ r hr hlr, fieldSub_toLimbs _ _ m hm hlm]
    rw [fieldModP256_final m _ (fieldSubV_lt _ _ _) hm hlm]

/-- `fieldModX` as called by `fieldModGeneric` is `fieldModGenericV` on the value of the
sixteen input words. -/
theorem fieldModGeneric_toLimbs (g : Params) (fuel : Nat) (stray : List Nat) (b : Nat)
    (hp : Limbs g.ecc_prime_p) (hlp : 8 ≤ g.ecc_prime_p.length)
    (hmu : Limbs g.ecc_prime_mu) (hlmu : 9 ≤ g.ecc_prime_mu.length) :
    fieldModGeneric g fuel stray (toLimbs 16 b) =
      (fieldModGenericV fuel (isZero stray) (value g.ecc_prime_p) (value g.ecc_prime_mu)
        g.ecc_order_k b).map (toLimbs 8) := by
  have hB := toLimbs_limbs 16 b
  have hlB := toLimbs_length 16 b
  have hv : value (toLimbs 16 b) = b % 2 ^ (32 * 16) := toLimbs_value 16 b
  unfold fieldModGeneric fieldModX fieldModGenericV
  have h1 : ¬ (2 * arrayLength = arrayLength ∧
      isGreater (toLimbs 16 b) g.ecc_prime_p arrayLength ≤ 0) := by
    intro h; have := h.1; simp [arrayLength] at this
  rw [if_neg h1]
  have hg : isGreater (toLimbs 16 b) g.ecc_prime_p 8 ≤ 0 ↔
      b % 2 ^ 256 ≤ value g.ecc_prime_p % 2 ^ 256 := by
    rw [isGreater_spec _ _ hB hp 8 (by rw [hlB]; decide) hlp, take_toLimbs 16 8 b (by decide),
      toLimbs8_value, value_take_mod hp 8 hlp]
    by_cases c1 : b % 2 ^ 256 > value g.ecc_prime_p % 2 ^ (32 * 8)
    · rw [if_pos c1]
      simp only [Nat.reduceMul] at c1 ⊢
      constructor
      · intro h; exact absurd h (by decide)
      · intro h; omega
    · rw [if_neg c1]
      simp only [Nat.reduceMul] at c1 ⊢
      constructor
      · intro _; omega
      · intro _; split <;> decide
  by_cases hs : isZero stray = true ∧ b % 2 ^ 256 ≤ value g.ecc_prime_p % 2 ^ 256
  · rw [if_pos ⟨rfl, hs.1, hg.2 hs.2⟩, if_pos hs]
    have : copy (toLimbs 16 b) (setZero 8) 8 = toLimbs 8 (b % 2 ^ 256) := by
      unfold copy
      rw [take_toLimbs 16 8 b (by decide), ← toLimbs_mod 8 b]
      simp [setZero]
    rw [this]
    rfl
  · have hn : ¬ (2 * arrayLength = 2 * arrayLength ∧ isZero stray = true ∧
        isGreater (toLimbs 16 b) g.ecc_prime_p 8 ≤ 0) := fun h => hs ⟨h.2.1, hg.1 h.2.2⟩
    rw [if_neg hn, if_neg hs]
    have hb := barrett_toLimbs fuel (toLimbs 16 b) (setZero 8) g.ecc_prime_p g.ecc_prime_mu
      (2 * arrayLength) g.ecc_order_k 8 hB hp hmu (by rw [hlB]; decide) (by rw [hlB]; decide)
      hlp hlp hlmu (by decide) (by decide)
    rw [hv] at hb
    exact hb

theorem fieldInvLoopV_lt (m r inner : Nat) :
    ∀ (fuel u v x1 x2 b : Nat), u < 2 ^ 256 → v < 2 ^ 256 → x1 < 2 ^ 256 → x2 < 2 ^ 256 →
      fieldInvLoopV m r inner fuel u v x1 x2 = some b → b < 2 ^ 256
  | 0, _, _, _, _, _, _, _, _, _, h => by cases h
  | fuel + 1, u, v, x1, x2, b, hu, hv, hx1, hx2, h => by
    rw [fieldInvLoopV] at h
    split at h
    · cases e1 : fieldInvEvenV m r inner u x1 with
      | none => rw [e1] at h; cases h
      | some p =>
        obtain ⟨pu, px⟩ := fieldInvEvenV_lt _ _ _ _ _ _ hu hx1 e1
        rw [e1] at h
        simp only at h
        cases e2 : fieldInvEvenV m r inner v x2 with
        | none => rw [e2] at h; cases h
        | some q =>
          obtain ⟨qv, qx⟩ := fieldInvEvenV_lt _ _ _ _ _ _ hv hx2 e2
          rw [e2] at h
          simp only at h
          split at h
          · exact fieldInvLoopV_lt m r inner fuel _ _ _ _ b (by omega) qv (fieldSubV_lt _ _ _) qx h
          · exact fieldInvLoopV_lt m r inner fuel _ _ _ _ b pu (by omega) px (fieldSubV_lt _ _ _) h
    · injection h with h
      rw [← h]
      split
      · exact hx1
      · exact hx2

/-- Where Euclid's algorithm yields a checked inverse, the loop of `fieldInv` returns it. -/
theorem fieldInvV_eq_fast (fuel a m r : Nat) : fieldInvV fuel a m r = fieldInvFastV fuel a m r := by
  unfold fieldInvFastV
  split
  · rename_i hc
    obtain ⟨hm, hr, hodd, h1, hf, hxl, hx⟩ := hc
    generalize xgcdAux m 600 m (a % 2 ^ 256 % m) 0 1 = x at hxl hx ⊢
    have hmv : value ((toLimbs 8 m).take 8) = m := by
      rw [take_eq_self (toLimbs_length 8 m), toLimbs8_value_of_lt hm]
    have hrv : value ((toLimbs 8 r).take 8) = r := by
      rw [take_eq_self (toLimbs_length 8 r), toLimbs8_value_of_lt hr]
    have hcop : Nat.gcd (value (toLimbs 8 a)) (value ((toLimbs 8 m).take 8)) = 1 := by
      rw [hmv, toLimbs8_value]
      have : (a % 2 ^ 256) * x ≡ 1 [MOD m] := by
        unfold Nat.ModEq
        rw [Nat.mul_comm, hx, Nat.mod_eq_of_lt h1]
      exact Nat.coprime_of_mul_modEq_one x this
    obtain ⟨B, e, lB, hB, hlt, hmod⟩ := fieldInv_spec (toLimbs 8 a) (toLimbs 8 m) (toLimbs 8 r)
      fuel (toLimbs_limbs _ _) (toLimbs_length _ _) (toLimbs_limbs _ _)
      (by rw [toLimbs_length]) (by rw [hmv]; exact hodd) (by rw [hmv]; exact h1) hcop
      (by rw [hmv, toLimbs8_value]; exact hf)
    rw [fieldInv_toLimbs fuel a (toLimbs 8 m) (toLimbs 8 r) (toLimbs_limbs _ _)
      (by rw [toLimbs_length]) (toLimbs_limbs _ _) (by rw [toLimbs_length]), hmv, hrv] at e
    rw [hmv, toLimbs8_value] at hmod
    rw [hmv] at hlt
    cases hv : fieldInvV fuel a m r with
    | none => rw [hv] at e; cases e
    | some v =>
      rw [hv] at e
      simp only [Option.map_some', Option.some.injEq] at e
      have hvl : v < 2 ^ 256 := by
        unfold fieldInvV at hv
        have p0 : (0 : Nat) < 2 ^ 256 := Nat.two_pow_pos 256
        have p1 : (1 : Nat) < 2 ^ 256 := Nat.one_lt_two_pow (by decide)
        exact fieldInvLoopV_lt m r fuel fuel (a % 2 ^ 256) m 1 0 v (Nat.mod_lt _ p0) hm p1 p0 hv
      have hvB : value B = v := by rw [← e, toLimbs8_value_of_lt hvl]
      rw [hvB] at hlt hmod
      apply congrArg some
      have h2 : x * (a % 2 ^ 256) ≡ 1 [MOD m] := by
        unfold Nat.ModEq
        rw [hx, Nat.mod_eq_of_lt h1]
      have h3 : v * (a % 2 ^ 256) ≡ x * (a % 2 ^ 256) [MOD m] := hmod.trans h2.symm
      have hc2 : Nat.gcd m (a % 2 ^ 256) = 1 := by
        rw [Nat.gcd_comm]
        rw [hmv, toLimbs8_value] at hcop
        exact hcop
      have h4 : v ≡ x [MOD m] := Nat.ModEq.cancel_right_of_coprime hc2 h3
      unfold Nat.ModEq at h4
      rw [Nat.mod_eq_of_lt hlt, Nat.mod_eq_of_lt hxl] at h4
      exact h4
  · rfl

theorem getD_toLimbs (n v i : Nat) (h : i < n) : (toLimbs n v).getD i 0 = wordAt v i := by
  rw [toLimbs_eq_map, List.getD_eq_getElem?_getD, List.getElem?_map, List.getElem?_range h]
  rfl

theorem forms_toLimbs (b : Nat) :
    formS1 (toLimbs 16 b) =
      [0, 0, 0, wordAt b 11, wordAt b 12, wordAt b 13, wordAt b 14, wordAt b 15] ∧
    formS2 (toLimbs 16 b) = [0, 0, 0, wordAt b 12, wordAt b 13, wordAt b 14, wordAt b 15, 0] ∧
    formS3 (toLimbs 16 b) =
      [wordAt b 8, wordAt b 9, wordAt b 10, 0, 0, 0, wordAt b 14, wordAt b 15] ∧
    formS4 (toLimbs 16 b) =
      [wordAt b 9, wordAt b 10, wordAt b 11, wordAt b 13, wordAt b 14, wordAt b 15, wordAt b 13,
        wordAt b 8] ∧
    formD1 (toLimbs 16 b) =
      [wordAt b 11, wordAt b 12, wordAt b 13, 0, 0, 0, wordAt b 8, wordAt b 10] ∧
    formD2 (toLimbs 16 b) =
      [wordAt b 12, wordAt b 13, wordAt b 14, wordAt b 15, 0, 0, wordAt b 9, wordAt b 11] ∧
    formD3 (toLimbs 16 b) =
      [wordAt b 13, wordAt b 14, wordAt b 15, wordAt b 8, wordAt b 9, wordAt b 10, 0,
        wordAt b 12] ∧
    formD4 (toLimbs 16 b) =
      [wordAt b 14, wordAt b 15, 0, wordAt b 9, wordAt b 10, wordAt b 11, 0, wordAt b 13] := by
  have g8 := getD_toLimbs 16 b 8 (by decide)
  have g9 := getD_toLimbs 16 b 9 (by decide)
  have g10 := getD_toLimbs 16 b 10 (by decide)
  have g11 := getD_toLimbs 16 b 11 (by decide)
  have g12 := getD_toLimbs 16 b 12 (by decide)
  have g13 := getD_toLimbs 16 b 13 (by decide)
  have g14 := getD_toLimbs 16 b 14 (by decide)
  have g15 := getD_toLimbs 16 b 15 (by decide)
  refine ⟨?_, ?_, ?_, ?_, ?_, ?_, ?_, ?_⟩
  · unfold formS1; rw [range_eight, ← g11, ← g12, ← g13, ← g14, ← g15]; rfl
  · unfold formS2; rw [range_eight, ← g12, ← g13, ← g14, ← g15]; rfl
  · unfold formS3; rw [range_eight, ← g8, ← g9, ← g10, ← g14, ← g15]; rfl
  · unfold formS4; rw [range_eight, ← g8, ← g9, ← g10, ← g11, ← g13, ← g14, ← g15]; rfl
  · unfold formD1; rw [range_eight, ← g8, ← g10, ← g11, ← g12, ← g13]; rfl
  · unfold formD2; rw [range_eight, ← g9, ← g11, ← g12, ← g13, ← g14, ← g15]; rfl
  · unfold formD3; rw [range_eight, ← g8, ← g9, ← g10, ← g12, ← g13, ← g14, ← g15]; rfl
  · unfold formD4; rw [range_eight, ← g9, ← g10, ← g11, ← g13, ← g14, ← g15]; rfl

theorem fieldModP256V_eq (m r b : Nat) : fieldModP256V m r b = fieldModP256W m r b := by
  obtain ⟨h1, h2, h3, h4, h5, h6, h7, h8⟩ := forms_toLimbs b
  unfold fieldModP256V fieldModP256W
  simp only [h1, h2, h3, h4, h5, h6, h7, h8]

theorem fieldModP_toLimbs (g : Params) (fuel : Nat) (stray : List Nat) (b : Nat)
    (hg : wellFormed g) :
    fieldModP g fuel stray (toLimbs 16 b) =
      (fieldModPV (curveV g) fuel (isZero stray) b).map (toLimbs 8) := by
  obtain ⟨_, _, h3, h4, h5, h6, h7, h8, h9, h10, _⟩ := hg
  unfold fieldModP fieldModPV
  cases hmf : g.fieldModP with
  | fieldModP256 =>
    have : (curveV g).modfun = ModFun.fieldModP256 := hmf
    simp only [this]
    rw [fieldModP256_toLimbs _ _ b h3 h4 h7 h8, fieldModP256V_eq]
    rfl
  | fieldModGeneric =>
    have : (curveV g).modfun = ModFun.fieldModGeneric := hmf
    simp only [this]
    rw [fieldModGeneric_toLimbs g fuel stray b h5 h6 h9 h10]
    rfl

theorem option_map_bind {α β γ : Type} (x : Option α) (f : α → Option β) (h : β → γ) :
    (x.bind f).map h = x.bind (fun a => (f a).map h) := by
  cases x <;> rfl

theorem ec_double_toLimbs (g : Params) (fuel : Nat) (stray : List Nat) (px py : Nat)
    (hg : wellFormed g) :
    ec_double g fuel stray (toLimbs 8 px) (toLimbs 8 py) =
      (ec_doubleV (curveV g) fuel (isZero stray) px py).map pointLimbs := by
  have hg2 := hg
  obtain ⟨h1, h2, h3, h4, h5, h6, h7, h8, h9, h10, _⟩ := hg2
  have three : (setZero 8).set 0 0x00000003 = toLimbs 8 3 := by decide
  unfold ec_double ec_doubleV
  simp only [isZero_toLimbs, three, fieldMult_toLimbs, fieldModP_toLimbs g fuel stray _ hg,
    copy_setZero (toLimbs_length 8 _), Option.bind_eq_bind, Option.bind_map, Function.comp_def,
    fieldSub_toLimbs_list _ _ _ h1 h2 h3 h4, fieldSub_toLimbs _ _ _ h3 h4,
    fieldAdd_toLimbs _ _ _ h7 h8, fieldInv_toLimbs _ _ _ _ h3 h4 h7 h8, fieldInvV_eq_fast]
  split
  · rfl
  · simp only [option_map_bind]
    rfl

theorem ec_add_toLimbs (g : Params) (fuel : Nat) (stray : List Nat) (px py qx qy : Nat)
    (hg : wellFormed g) :
    ec_add g fuel stray (toLimbs 8 px) (toLimbs 8 py) (toLimbs 8 qx) (toLimbs 8 qy) =
      (ec_addV (curveV g) fuel (isZero stray) px py qx qy).map pointLimbs := by
  have hg2 := hg
  obtain ⟨h1, h2, h3, h4, h5, h6, h7, h8, h9, h10, _⟩ := hg2
  unfold ec_add ec_addV
  simp only [isZero_toLimbs, isSame_toLimbs, fieldMult_toLimbs,
    fieldModP_toLimbs g fuel stray _ hg, ec_double_toLimbs g fuel stray _ _ hg,
    copy_setZero (toLimbs_length 8 _), Option.bind_eq_bind, Option.bind_map, Function.comp_def,
    fieldSub_toLimbs _ _ _ h3 h4, fieldInv_toLimbs _ _ _ _ h3 h4 h7 h8, fieldInvV_eq_fast]
  split
  · rfl
  · split
    · rfl
    · split
      · split
        · rfl
        · rfl
      · simp only [option_map_bind]
        rfl

theorem strictNat_eq {α : Type} (n : Nat) (f : Nat → α) : strictNat n f = f n := by
  cases n <;> rfl

theorem doubleAndAddFrom_toLimbs (g : Params) (fuel : Nat) (stray : List Nat) (px py : Nat)
    (secret : List Nat) (hg : wellFormed g) :
    ∀ (i : Nat) (Q : Nat × Nat),
      doubleAndAddFrom g fuel stray (toLimbs 8 px) (toLimbs 8 py) secret i (pointLimbs Q) =
        (doubleAndAddFromV (curveV g) fuel (isZero stray) px py secret i Q).map pointLimbs
  | 0, Q => rfl
  | i + 1, Q => by
    rw [doubleAndAddFrom, doubleAndAddFromV, doubleAndAddStep]
    simp only [strictNat_eq]
    show (match (match ec_double g fuel stray (toLimbs 8 Q.1) (toLimbs 8 Q.2) with
      | none => none
      | some D => if scalarBit secret i = 1 then
          ec_add g fuel stray D.1 D.2 (toLimbs 8 px) (toLimbs 8 py) else some D) with
      | none => none
      | some Q => doubleAndAddFrom g fuel stray (toLimbs 8 px) (toLimbs 8 py) secret i Q) = _
    rw [ec_double_toLimbs g fuel stray _ _ hg]
    cases hD : ec_doubleV (curveV g) fuel (isZero stray) Q.1 Q.2 with
    | none => rfl
    | some D =>
      simp only [Option.map_some']
      by_cases hb : scalarBit secret i = 1
      · simp only [if_pos hb]
        show (match ec_add g fuel stray (toLimbs 8 D.1) (toLimbs 8 D.2) (toLimbs 8 px)
            (toLimbs 8 py) with
          | none => none
          | some Q => doubleAndAddFrom g fuel stray (toLimbs 8 px) (toLimbs 8 py) secret i Q) = _
        rw [ec_add_toLimbs g fuel stray _ _ _ _ hg]
        cases hS : ec_addV (curveV g) fuel (isZero stray) D.1 D.2 px py with
        | none => rfl
        | some S =>
          simp only [Option.map_some']
          exact doubleAndAddFrom_toLimbs g fuel stray px py secret hg i S
      · simp only [if_neg hb]
        exact doubleAndAddFrom_toLimbs g fuel stray px py secret hg i D

theorem ecc_ec_mult_eq_from (g : Params) (fuel : Nat) (stray px py secret : List Nat) :
    ecc_ec_mult g fuel stray px py secret =
      doubleAndAddFrom g fuel stray px py secret 256 (setZero 8, setZero 8) := by
  have hl := ecc_ec_mult_loop_eq g fuel stray px py secret 256 (setZero 8, setZero 8) 0
    (by simp [setZero]) (by simp [setZero])
  unfold ecc_ec_mult
  rw [hl]
  cases hS : doubleAndAddFrom g fuel stray px py secret 256 (setZero 8, setZero 8) with
  | none => rfl
  | some R =>
    obtain ⟨r1, r2⟩ := doubleAndAddFrom_length_le 256 _ R (by simp [setZero]) (by simp [setZero]) hS
    have z8 : (setZero 8).length ≤ 8 := by simp [setZero]
    show some (copy R.1 (setZero 8) 8, copy R.2 (setZero 8) 8) = some R
    rw [copy_of_length_le r1 z8, copy_of_length_le r2 z8]

/-- `ecc_ec_mult` is `ecc_ec_multV` on the values of the coordinates. -/
theorem ecc_ec_mult_toLimbs (g : Params) (fuel : Nat) (stray : List Nat) (px py : Nat)
    (secret : List Nat) (hg : wellFormed g) :
    ecc_ec_mult g fuel stray (toLimbs 8 px) (toLimbs 8 py) secret =
      (ecc_ec_multV (curveV g) fuel (isZero stray) px py secret).map pointLimbs := by
  rw [ecc_ec_mult_eq_from]
  exact doubleAndAddFrom_toLimbs g fuel stray px py secret hg 256 (0, 0)

/-- `ecc_ec_mult` on word sequences, through the values they denote. -/
theorem ecc_ec_mult_eval (g : Params) (fuel : Nat) (stray px py secret : List Nat)
    (hg : wellFormed g) (hx : Limbs px) (hlx : px.length = 8) (hy : Limbs py)
    (hly : py.length = 8) :
    ecc_ec_mult g fuel stray px py secret =
      (ecc_ec_multV (curveV g) fuel (isZero stray) (value px) (value py) secret).map
        pointLimbs := by
  have ex : px = toLimbs 8 (value px) := eq_toLimbs_of hlx hx rfl
  have ey : py = toLimbs 8 (value py) := eq_toLimbs_of hly hy rfl
  conv_lhs => rw [ex, ey]
  exact ecc_ec_mult_toLimbs g fuel stray _ _ secret hg

theorem form_limbs {B : List Nat} (hB : Limbs B) :
    (Limbs (formS1 B) ∧ (formS1 B).length = 8) ∧ (Limbs (formS2 B) ∧ (formS2 B).length = 8) ∧
    (Limbs (formS3 B) ∧ (formS3 B).length = 8) ∧ (Limbs (formS4 B) ∧ (formS4 B).length = 8) ∧
    (Limbs (formD1 B) ∧ (formD1 B).length = 8) ∧ (Limbs (formD2 B) ∧ (formD2 B).length = 8) ∧
    (Limbs (formD3 B) ∧ (formD3 B).length = 8) ∧ (Limbs (formD4 B) ∧ (formD4 B).length = 8) := by
  have g := fun i => getD_lt hB i
  have z : (0 : Nat) < 2 ^ 32 := by decide
  refine ⟨⟨?_, by simp [formS1]⟩, ⟨?_, by simp [formS2]⟩, ⟨?_, by simp [formS3]⟩,
    ⟨?_, by simp [formS4]⟩, ⟨?_, by simp [formD1]⟩, ⟨?_, by simp [formD2]⟩,
    ⟨?_, by simp [formD3]⟩, ⟨?_, by simp [formD4]⟩⟩ <;>
  · apply limbs_map_range
    intro n
    repeat' split
    all_goals first | exact z | exact g _

/-- C25. With SECP256R1 active, for every 16-word input `B` the eight words written by
`fieldModP256` denote a number strictly below the prime `p`: whatever the chain of
`fieldAdd`/`fieldSub` leaves, it is below `2^256`, and the one conditional subtraction of `p`
at the end brings it below `p`, because `2^256 - p < p`. -/
theorem fieldModP256_lt_prime (B : List Nat) (hB : Limbs B) (hl : B.length = 16) :
    (fieldModP256 secp256r1.ecc_prime_m secp256r1.ecc_prime_r B).length = 8 ∧
    value (fieldModP256 secp256r1.ecc_prime_m secp256r1.ecc_prime_r B) <
      value secp256r1.ecc_prime_m := by
  have hm : secp256r1.ecc_prime_m = p256_p := rfl
  have hr : secp256r1.ecc_prime_r = p256_pr := rfl
  rw [hm, hr]
  obtain ⟨⟨s1, l1⟩, ⟨s2, l2⟩, ⟨s3, l3⟩, ⟨s4, l4⟩, ⟨d1, k1⟩, ⟨d2, k2⟩, ⟨d3, k3⟩, ⟨d4, k4⟩⟩ :=
    form_limbs hB
  have lp : Limbs p256_p := by decide
  have lr : Limbs p256_pr := by decide
  have lp8 : 8 ≤ p256_p.length := by decide
  have lr8 : 8 ≤ p256_pr.length := by decide
  have hA0 : copy B (setZero 8) arrayLength = B.take 8 := by
    simp [copy, setZero, arrayLength]
  have lA0 : Limbs (B.take 8) := limbs_take 8 hB
  have nA0 : (B.take 8).length = 8 := by rw [List.length_take, hl]; rfl
  unfold fieldModP256
  simp only [hA0]
  obtain ⟨n1, a1, -⟩ := fieldAdd_spec _ _ p256_pr lA0 s1 lr nA0 l1 lr8
  obtain ⟨n2, a2, -⟩ := fieldAdd_spec _ _ p256_pr a1 s1 lr n1 l1 lr8
  obtain ⟨n3, a3, -⟩ := fieldAdd_spec _ _ p256_pr a2 s2 lr n2 l2 lr8
  obtain ⟨n4, a4, -⟩ := fieldAdd_spec _ _ p256_pr a3 s2 lr n3 l2 lr8
  obtain ⟨n5, a5, -⟩ := fieldAdd_spec _ _ p256_pr a4 s3 lr n4 l3 lr8
  obtain ⟨n6, a6, -⟩ := fieldAdd_spec _ _ p256_pr a5 s4 lr n5 l4 lr8
  obtain ⟨n7, a7, -⟩ := fieldSub_spec _ _ p256_p a6 d1 lp n6 k1 lp8
  obtain ⟨n8, a8, -⟩ := fieldSub_spec _ _ p256_p a7 d2 lp n7 k2 lp8
  obtain ⟨n9, a9, -⟩ := fieldSub_spec _ _ p256_p a8 d3 lp n8 k3 lp8
  obtain ⟨n10, a10, -⟩ := fieldSub_spec _ _ p256_p a9 d4 lp n9 k4 lp8
  generalize fieldSub (fieldSub (fieldSub (fieldSub (fieldAdd (fieldAdd (fieldAdd (fieldAdd
    (fieldAdd (fieldAdd (B.take 8) (formS1 B) p256_pr) (formS1 B) p256_pr) (formS2 B) p256_pr)
    (formS2 B) p256_pr) (formS3 B) p256_pr) (formS4 B) p256_pr) (formD1 B) p256_p) (formD2 B)
    p256_p) (formD3 B) p256_p) (formD4 B) p256_p = A at n10 a10
  have hg := isGreater_spec A p256_p a10 lp 8 (by omega) lp8
  rw [take_eq_self n10] at hg
  have hP : value (p256_p.take 8) =
      115792089210356248762697446949407573530086143415290314195533631308867097853951 := by
    decide
  have hP9 : value p256_p =
      115792089210356248762697446949407573530086143415290314195533631308867097853951 := by
    decide
  have hAl := value_lt a10
  rw [n10] at hAl
  simp only [Nat.reduceMul] at hAl
  simp only [arrayLength]
  rw [hg, hP, hP9]
  by_cases c1 : value A > 115792089210356248762697446949407573530086143415290314195533631308867097853951
  · rw [if_pos c1, if_pos (by decide)]
    obtain ⟨m1, m2, m3⟩ := fieldSub_spec A (p256_p.take 8) p256_p a10 (limbs_take 8 lp) lp n10
      (by decide) lp8
    rw [← fieldSub_take] at m1 m2 m3
    rw [copy_eq_src m1 (by omega)]
    refine ⟨m1, ?_⟩
    rw [m3, hP, if_pos (by omega)]
    omega
  · rw [if_neg c1]
    by_cases c2 : value A < 115792089210356248762697446949407573530086143415290314195533631308867097853951
    · rw [if_pos c2, if_neg (by decide)]
      exact ⟨n10, c2⟩
    · rw [if_neg c2, if_pos (by decide)]
      obtain ⟨m1, m2, m3⟩ := fieldSub_spec A (p256_p.take 8) p256_p a10 (limbs_take 8 lp) lp n10
        (by decide) lp8
      rw [← fieldSub_take] at m1 m2 m3
      rw [copy_eq_src m1 (by omega)]
      refine ⟨m1, ?_⟩
      rw [m3, hP, if_pos (by omega)]
      omega

theorem fieldModP256_lt_prime_witness :
    (fieldModP256 secp256r1.ecc_prime_m secp256r1.ecc_prime_r
        (List.replicate 16 0xFFFFFFFF)).length = 8 ∧
    value (fieldModP256 secp256r1.ecc_prime_m secp256r1.ecc_prime_r
        (List.replicate 16 0xFFFFFFFF)) < value secp256r1.ecc_prime_m :=
  fieldModP256_lt_prime (List.replicate 16 0xFFFFFFFF) (by decide) (by decide)

set_option maxRecDepth 100000 in
/-- C29. The registered constants are consistent: for SECP256R1 and for the 25519 curves the
stored reducers are `2^256 - p` and `2^256 - n`, and the stored nine-word Barrett multipliers
are `⌊2^512 / p⌋` and `⌊2^512 / n⌋`, for the stored prime `p` and order `n`. -/
theorem registered_constants_consistent :
    (value secp256r1.ecc_prime_r = 2 ^ 256 - value secp256r1.ecc_prime_m ∧
     value secp256r1.ecc_order_r = 2 ^ 256 - value secp256r1.ecc_order_m ∧
     secp256r1.ecc_prime_mu.length = 9 ∧ secp256r1.ecc_order_mu.length = 9 ∧
     value secp256r1.ecc_prime_mu = 2 ^ (32 * 16) / value secp256r1.ecc_prime_m ∧
     value secp256r1.ecc_order_mu = 2 ^ (32 * 16) / value secp256r1.ecc_order_m) ∧
    (value wei25519.ecc_prime_r = 2 ^ 256 - value wei25519.ecc_prime_m ∧
     value wei25519.ecc_order_r = 2 ^ 256 - value wei25519.ecc_order_m ∧
     wei25519.ecc_prime_mu.length = 9 ∧ wei25519.ecc_order_mu.length = 9 ∧
     value wei25519.ecc_prime_mu = 2 ^ (32 * 16) / value wei25519.ecc_prime_m ∧
     value wei25519.ecc_order_mu = 2 ^ (32 * 16) / value wei25519.ecc_order_m) ∧
    (value wei25519_2.ecc_prime_r = 2 ^ 256 - value wei25519_2.ecc_prime_m ∧
     value wei25519_2.ecc_order_r = 2 ^ 256 - value wei25519_2.ecc_order_m ∧
     wei25519_2.ecc_prime_mu.length = 9 ∧ wei25519_2.ecc_order_mu.length = 9 ∧
     value wei25519_2.ecc_prime_mu = 2 ^ (32 * 16) / value wei25519_2.ecc_prime_m ∧
     value wei25519_2.ecc_order_mu = 2 ^ (32 * 16) / value wei25519_2.ecc_order_m) := by
  decide!

set_option maxRecDepth 100000 in
/-- C24. With SECP256R1 active the fast reduction is not exact on every product of reduced
elements: for `x = 2^224` and `y = 2^65 + (2^32 - 1) * 2^128`, both below `p`, `fieldModP256`
applied to the 16-word product `fieldMult(x, y)` returns a number different from
`(x * y) mod p` (it is off by `2^256 mod p`: the `fieldSub` that subtracts `D2` borrows, and
adding `p` once does not bring the difference back above zero). -/
theorem fieldModP256_product_inexact :
    value [0, 0, 0, 0, 0, 0, 0, 1] < value secp256r1.ecc_prime_m ∧
    value [0, 0, 2, 0, 0xFFFFFFFF, 0, 0, 0] < value secp256r1.ecc_prime_m ∧
    fieldModP256 secp256r1.ecc_prime_m secp256r1.ecc_prime_r
        (fieldMult [0, 0, 0, 0, 0, 0, 0, 1] [0, 0, 2, 0, 0xFFFFFFFF, 0, 0, 0] arrayLength) =
      [0x3, 0x1, 0xffffffff, 0xfffffffc, 0xffffffff, 0x0, 0xfffffffd, 0x0] ∧
    value [0x3, 0x1, 0xffffffff, 0xfffffffc, 0xffffffff, 0x0, 0xfffffffd, 0x0] ≠
      (value [0, 0, 0, 0, 0, 0, 0, 1] * value [0, 0, 2, 0, 0xFFFFFFFF, 0, 0, 0]) %
        value secp256r1.ecc_prime_m := by
  decide!

set_option maxRecDepth 100000 in
/-- C26. With WEI25519 active and the eight words that the second shortcut of `fieldModX`
inspects (`A[32..39]`, outside the 16-word product) all zero, the reduction of the product of
`a = b = 2^128`, both below `p`, returns `0`, whereas `(a * b) mod p = 38`: the shortcut
copies the low eight words of the product although its high words are not zero. -/
theorem fieldModGeneric_product_inexact (fuel : Nat) :
    value [0, 0, 0, 0, 1, 0, 0, 0] < value wei25519.ecc_prime_p ∧
    fieldModGeneric wei25519 fuel (setZero 8)
        (fieldMult [0, 0, 0, 0, 1, 0, 0, 0] [0, 0, 0, 0, 1, 0, 0, 0] arrayLength) =
      some (setZero 8) ∧
    (value [0, 0, 0, 0, 1, 0, 0, 0] * value [0, 0, 0, 0, 1, 0, 0, 0]) %
      value wei25519.ecc_prime_p = 38 := by
  refine ⟨by decide!, ?_, by decide!⟩
  have h : fieldMult [0, 0, 0, 0, 1, 0, 0, 0] [0, 0, 0, 0, 1, 0, 0, 0] arrayLength =
      [0, 0, 0, 0, 0, 0, 0, 0, 1, 0, 0, 0, 0, 0, 0, 0] := by decide!
  rw [h]
  unfold fieldModGeneric fieldModX
  rw [if_neg (by decide), if_pos (by decide)]
  decide

/-- C27. For each registered curve `fieldModO` applied to the eight words of the order `n`
itself (length 8) copies them through: the first shortcut of `fieldModX` tests
`isGreater(A, modulus) <= 0`, which also holds when `A` equals the modulus.  The result is `n`,
not `n mod n = 0`, and is not below `n`. -/
theorem fieldModO_order_copied (fuel : Nat) (stray result : List Nat) :
    ((fieldModO secp256r1 fuel stray (secp256r1.ecc_order_m.take 8) result 8).map
        (fun out => value (out.take 8)) = some (value secp256r1.ecc_order_m) ∧
      value (secp256r1.ecc_order_m.take 8) % value secp256r1.ecc_order_m = 0 ∧
      0 < value secp256r1.ecc_order_m) ∧
    ((fieldModO wei25519 fuel stray (wei25519.ecc_order_m.take 8) result 8).map
        (fun out => value (out.take 8)) = some (value wei25519.ecc_order_m) ∧
      value (wei25519.ecc_order_m.take 8) % value wei25519.ecc_order_m = 0 ∧
      0 < value wei25519.ecc_order_m) ∧
    ((fieldModO wei25519_2 fuel stray (wei25519_2.ecc_order_m.take 8) result 8).map
        (fun out => value (out.take 8)) = some (value wei25519_2.ecc_order_m) ∧
      value (wei25519_2.ecc_order_m.take 8) % value wei25519_2.ecc_order_m = 0 ∧
      0 < value wei25519_2.ecc_order_m) := by
  have key : ∀ n : List Nat, n.length = 9 → isGreater (n.take 8) n arrayLength ≤ 0 →
      ∀ mu k, (fieldModX fuel (n.take 8) stray result 8 n mu k 9).map
        (fun out => value (out.take 8)) = some (value (n.take 8)) := by
    intro n hn hg mu k
    unfold fieldModX
    rw [if_pos ⟨rfl, hg⟩]
    simp only [Option.map_some', copy, arrayLength, List.take_take, Nat.min_self]
    rw [List.take_append_of_le_length (by simp [hn]), List.take_take, Nat.min_self]
  refine ⟨⟨?_, by decide, by decide⟩, ⟨?_, by decide, by decide⟩, ⟨?_, by decide, by decide⟩⟩
  · exact key p256_n (by decide) (by decide) _ _
  · exact key wei25519_n (by decide) (by decide) _ _
  · exact key wei25519_n (by decide) (by decide) _ _

set_option maxRecDepth 100000 in
/-- C28. For the 16-word input `x = 2^512 - 1` and the order `n` of SECP256R1 with its stored
multiplier, `fieldModX` as called by `fieldModO` takes neither shortcut (whatever the words
`A[32..39]`), and the residue it hands to the final loop is not congruent to `x` modulo `n`
and is not below `3 n` (three rounds of the loop do not finish): the quotient estimate `q3`
needs nine words here and only eight are kept. -/
theorem fieldModX_residue_not_bounded (fuel : Nat) (stray : List Nat) :
    fieldModO secp256r1 fuel stray (List.replicate 16 0xFFFFFFFF) (setZero 9) 16 =
      fieldModXLoop secp256r1.ecc_order_m 9 fuel
        (fieldModXResidue (List.replicate 16 0xFFFFFFFF) (setZero 9) 16 secp256r1.ecc_order_m
          secp256r1.ecc_order_mu secp256r1.ecc_order_k 9) ∧
    value (fieldModXResidue (List.replicate 16 0xFFFFFFFF) (setZero 9) 16 secp256r1.ecc_order_m
        secp256r1.ecc_order_mu secp256r1.ecc_order_k 9) % value secp256r1.ecc_order_m ≠
      value (List.replicate 16 0xFFFFFFFF) % value secp256r1.ecc_order_m ∧
    ¬ value (fieldModXResidue (List.replicate 16 0xFFFFFFFF) (setZero 9) 16
        secp256r1.ecc_order_m secp256r1.ecc_order_mu secp256r1.ecc_order_k 9) <
      3 * value secp256r1.ecc_order_m ∧
    fieldModXLoop secp256r1.ecc_order_m 9 3
        (fieldModXResidue (List.replicate 16 0xFFFFFFFF) (setZero 9) 16 secp256r1.ecc_order_m
          secp256r1.ecc_order_mu secp256r1.ecc_order_k 9) = none := by
  have hr : fieldModXResidue (List.replicate 16 0xFFFFFFFF) (setZero 9) 16 secp256r1.ecc_order_m
      secp256r1.ecc_order_mu secp256r1.ecc_order_k 9 =
      [0xbadd13f2, 0x76de1758, 0xf0d50e2b, 0x3807449, 0x2b6bec59, 0x2845b239, 0xf3d95621,
        0x66e12d93, 0xfc632552] := by decide!
  refine ⟨?_, ?_, ?_, ?_⟩
  · unfold fieldModO fieldModX fieldModXResidue
    have h1 : ¬ (16 = arrayLength ∧
        isGreater (List.replicate 16 0xFFFFFFFF) secp256r1.ecc_order_m arrayLength ≤ 0) := by
      decide
    have h2 : ¬ (16 = 2 * arrayLength ∧ isZero stray = true ∧
        isGreater (List.replicate 16 0xFFFFFFFF) secp256r1.ecc_order_m 9 ≤ 0) := by
      intro h
      exact absurd h.2.2 (by decide)
    rw [if_neg h1, if_neg h2]
  · rw [hr]; decide!
  · rw [hr]; decide!
  · rw [hr]; decide!

/-- `fieldModX` hands `fieldModXResidue` to its final loop when neither shortcut is taken. -/
theorem fieldModX_eq_residue (fuel : Nat) (A stray result : List Nat) (length : Nat)
    (modulus mu : List Nat) (k rl : Nat) :
    fieldModX fuel A stray result length modulus mu k rl =
      if length = arrayLength ∧ isGreater A modulus arrayLength ≤ 0 then
        some (copy A result arrayLength)
      else if length = 2 * arrayLength ∧ isZero stray = true ∧ isGreater A modulus rl ≤ 0 then
        some (copy A result rl)
      else fieldModXLoop modulus rl fuel (fieldModXResidue A result length modulus mu k rl) :=
  rfl

theorem getD_setZero (n i : Nat) : (setZero n).getD i 0 = 0 := by
  unfold setZero
  rw [List.getD_eq_getElem?_getD, List.getElem?_replicate]
  split <;> rfl

theorem ec_double_zero (g : Params) (fuel : Nat) (stray : List Nat) :
    ec_double g fuel stray (setZero 8) (setZero 8) = some (setZero 8, setZero 8) := by
  unfold ec_double
  rw [isZero_setZero]
  rfl

/-- With a scalar whose words are all zero the loop of `ecc_ec_mult` keeps `(0, 0)`. -/
theorem ecc_ec_mult_loop_zero (g : Params) (fuel : Nat) (stray px py : List Nat) (n : Nat) :
    ∀ (i count : Nat), ecc_ec_mult_loop g fuel stray px py (setZero n) i
      (setZero 8, setZero 8) count = some ((setZero 8, setZero 8), count + i)
  | 0, count => rfl
  | i + 1, count => by
    have hb : ecc_ec_mult_body g fuel stray px py (setZero n) i (setZero 8, setZero 8) =
        some (setZero 8, setZero 8) := by
      unfold ecc_ec_mult_body
      simp only [ec_double_zero, getD_setZero, Nat.zero_and, ne_eq, not_true_eq_false,
        if_false, Option.bind_eq_bind, Option.some_bind]
      rfl
    rw [ecc_ec_mult_loop, hb]
    simp only
    rw [ecc_ec_mult_loop_zero g fuel stray px py n i (count + 1)]
    congr 2
    omega

theorem ecc_ec_mult_zero (g : Params) (fuel : Nat) (stray px py : List Nat) (n : Nat) :
    ecc_ec_mult g fuel stray px py (setZero n) = some (setZero 8, setZero 8) := by
  unfold ecc_ec_mult
  rw [ecc_ec_mult_loop_zero]
  rfl

theorem fieldMult_zero_left (w : List Nat) (hw : Limbs w) (hl : 8 ≤ w.length) :
    fieldMult (setZero 8) w arrayLength = setZero 16 := by
  obtain ⟨h1, h2, h3⟩ := fieldMult_spec (setZero 8) w 8 (by decide) hw (by decide) hl
  have hz : value ((setZero 8).take 8) = 0 := by decide
  rw [hz, Nat.zero_mul] at h3
  exact eq_toLimbs_of h1 h2 h3

set_option maxRecDepth 100000 in
/-- On each registered curve `fieldModO` maps sixteen zero words to nine zero words, and nine
zero words (length 9) to zero words. -/
theorem fieldModO_zero (g : Params) (hg : g = secp256r1 ∨ g = wei25519 ∨ g = wei25519_2)
    (fuel : Nat) (stray : List Nat) :
    fieldModO g (fuel + 1) stray (setZero 16) (setZero 9) 16 = some (setZero 9) ∧
    fieldModO g (fuel + 1) stray (setZero 9) (setZero 8) 9 = some (setZero 9) := by
  have key : ∀ n mu k, isGreater (setZero 16) n 9 ≤ 0 →
      fieldModXResidue (setZero 16) (setZero 9) 16 n mu k 9 = setZero 9 →
      fieldModXResidue (setZero 9) (setZero 8) 9 n mu k 9 = setZero 9 →
      isGreater (setZero 9) n 9 ≠ 1 →
      fieldModX (fuel + 1) (setZero 16) stray (setZero 9) 16 n mu k 9 = some (setZero 9) ∧
      fieldModX (fuel + 1) (setZero 9) stray (setZero 8) 9 n mu k 9 = some (setZero 9) := by
    intro n mu k h1 h2 h3 h4
    constructor
    · rw [fieldModX_eq_residue, if_neg (by intro h; exact absurd h.1 (by decide))]
      by_cases hs : isZero stray = true
      · rw [if_pos ⟨by decide, hs, h1⟩]
        rfl
      · rw [if_neg (fun h => hs h.2.1), h2, fieldModXLoop, if_neg h4]
    · rw [fieldModX_eq_residue, if_neg (by intro h; exact absurd h.1 (by decide)),
        if_neg (by intro h; exact absurd h.1 (by decide)), h3, fieldModXLoop, if_neg h4]
  unfold fieldModO
  rcases hg with rfl | rfl | rfl
  · exact key _ _ _ (by decide) (by decide!) (by decide!) (by decide)
  · exact key _ _ _ (by decide) (by decide!) (by decide!) (by decide)
  · exact key _ _ _ (by decide) (by decide!) (by decide!) (by decide)

set_option maxRecDepth 100000 in
theorem curve_order_facts (g : Params) (hg : g = secp256r1 ∨ g = wei25519 ∨ g = wei25519_2) :
    Limbs g.ecc_order_m ∧ 8 ≤ g.ecc_order_m.length ∧
      value (g.ecc_order_m.take 8) % 2 = 1 ∧ 1 < value (g.ecc_order_m.take 8) ∧
      shiftDigest g (copy (setZero 8) (setZero 8) 8) = setZero 8 := by
  rcases hg with rfl | rfl | rfl <;> decide!

/-- C21. A signature with `r = 0` is accepted for the digest `e = 0`: on every registered
curve, for every public key `(x, y)`, every content of the words `A[32..39]`, and every
eight-word `s` prime to the order `n` (so that the inversion returns, given the fuel),
`ecc_ecdsa_validate(x, y, 0, 0, s)` returns 0.  Both `u1` and `u2` are zero, both scalar
multiplications return `(0, 0)`, and the zero first coordinate is compared with `r = 0`. -/
theorem ecc_ecdsa_validate_accepts_zero_r (g : Params)
    (hg : g = secp256r1 ∨ g = wei25519 ∨ g = wei25519_2) (fuel : Nat) (stray x y s : List Nat)
    (hs : Limbs s) (hsl : s.length = 8)
    (hgcd : Nat.gcd (value s) (value (g.ecc_order_m.take 8)) = 1)
    (hf : value s + value (g.ecc_order_m.take 8) ≤ fuel) :
    ecc_ecdsa_validate g fuel stray x y (setZero 8) (setZero 8) s = some 0 := by
  obtain ⟨n1, n2, n3, n4, n5⟩ := curve_order_facts g hg
  obtain ⟨w, hw, wl, wL, -, -⟩ := fieldInv_spec s g.ecc_order_m g.ecc_order_r fuel hs hsl n1 n2 n3
    n4 hgcd hf
  obtain ⟨f, rfl⟩ : ∃ f, fuel = f + 1 := ⟨fuel - 1, by omega⟩
  obtain ⟨z1, z2⟩ := fieldModO_zero g hg f stray
  have hc : copy (setZero 8) (setZero 9) arrayLength = setZero 9 := by decide
  have ha : ec_add g (f + 1) stray (setZero 8) (setZero 8) (setZero 8) (setZero 8) =
      some (setZero 8, setZero 8) := by
    unfold ec_add
    rw [isZero_setZero]
    rfl
  have hi : isSame (setZero 9) (setZero 8) arrayLength = true := by decide
  unfold ecc_ecdsa_validate
  rw [hw]
  simp only [Option.bind_eq_bind, Option.some_bind]
  rw [n5, fieldMult_zero_left w wL (by omega), z1]
  rw [Option.some_bind, Option.some_bind, ecc_ec_mult_zero, ecc_ec_mult_zero, Option.some_bind,
    Option.some_bind]
  show (ec_add g (f + 1) stray (setZero 8) (setZero 8) (setZero 8) (setZero 8)).bind _ = _
  rw [ha, Option.some_bind]
  show (fieldModO g (f + 1) stray (copy (setZero 8) (setZero 9) arrayLength) (setZero 8) 9).bind
    _ = _
  rw [hc, z2, Option.some_bind, hi]
  rfl

set_option maxRecDepth 100000 in
theorem ecc_ecdsa_validate_accepts_zero_r_witness :
    ecc_ecdsa_validate secp256r1 (2 ^ 256) (setZero 8) p256_gx p256_gy (setZero 8) (setZero 8)
      [1, 0, 0, 0, 0, 0, 0, 0] = some 0 :=
  ecc_ecdsa_validate_accepts_zero_r secp256r1 (Or.inl rfl) (2 ^ 256) (setZero 8) p256_gx p256_gy
    [1, 0, 0, 0, 0, 0, 0, 0] (by decide) (by decide) (by decide!) (by decide!)

/-- The slope determined by `l * d ≡ t (mod p)` is unique modulo `p` when `d` is prime to `p`;
so is its square. -/
theorem slope_sq_unique {p d t l l0 : Nat} (hc : Nat.gcd p d = 1) (h0 : l0 * d ≡ t [MOD p])
    (h : l * d ≡ t [MOD p]) : l ^ 2 ≡ l0 ^ 2 [MOD p] :=
  (Nat.ModEq.cancel_right_of_coprime hc (h.trans h0.symm)).pow 2

set_option maxRecDepth 100000 in
/-- C22. With WEI25519_2 active, `ec_double` applied to the registered base point `(x, y)`
(with `x` in `[0, p)` and `y` in `[1, p)`) returns, whatever the words `A[32..39]` are, a
point `(X, Y)` whose first coordinate is not
`λ² - 2x` for the slope `λ` of the documented curve (`a = 2`): no `λ` with
`λ·(2y) ≡ 3x² + 2 (mod p)` satisfies `X + 2x ≡ λ² (mod p)`.  (The code subtracts the stored
parameter: it computes `λ·(2y) ≡ 3x² - 2`.) -/
theorem ec_double_wei25519_2_not_formula (stray : List Nat) :
    value wei25519_2_gx < value wei25519_2.ecc_prime_m ∧ 0 < value wei25519_2_gy ∧
    value wei25519_2_gy < value wei25519_2.ecc_prime_m ∧
    ∃ X Y, ec_double wei25519_2 (2 * 2 ^ 256) stray wei25519_2_gx wei25519_2_gy = some (X, Y) ∧
      ∀ l : Nat,
        ¬ (l * (2 * value wei25519_2_gy) ≡ 3 * value wei25519_2_gx ^ 2 + value wei25519_2_a
            [MOD value wei25519_2.ecc_prime_m] ∧
          value X + 2 * value wei25519_2_gx ≡ l ^ 2 [MOD value wei25519_2.ecc_prime_m]) := by
  have ex : wei25519_2_gx = toLimbs 8
      10770553138368400518417020196796161136792368198326337823149502681097436401658 := by
    decide!
  have ey : wei25519_2_gy = toLimbs 8
      5443057586150840565309866898445752861680710333250257752116143977388639873869 := by
    decide!
  have vx : value wei25519_2_gx =
      10770553138368400518417020196796161136792368198326337823149502681097436401658 := by
    decide!
  have vy : value wei25519_2_gy =
      5443057586150840565309866898445752861680710333250257752116143977388639873869 := by
    decide!
  have va : value wei25519_2_a = 2 := by decide!
  have vp : value wei25519_2.ecc_prime_m =
      57896044618658097711785492504343953926634992332820282019728792003956564819949 := by
    decide!
  have hc : Nat.gcd
      57896044618658097711785492504343953926634992332820282019728792003956564819949
      (2 * 5443057586150840565309866898445752861680710333250257752116143977388639873869) = 1 := by
    decide!
  have h0 : 4950422112309427672213015777330647612420781275587930197580845783861079803319 *
      (2 * 5443057586150840565309866898445752861680710333250257752116143977388639873869) ≡
      3 * 10770553138368400518417020196796161136792368198326337823149502681097436401658 ^ 2 + 2
      [MOD 57896044618658097711785492504343953926634992332820282019728792003956564819949] := by
    decide!
  have hev := ec_double_toLimbs wei25519_2 (2 * 2 ^ 256) stray
    10770553138368400518417020196796161136792368198326337823149502681097436401658
    5443057586150840565309866898445752861680710333250257752116143977388639873869 (by decide)
  rw [← ex, ← ey] at hev
  rw [hev, vx, vy, va, vp]
  refine ⟨by decide, by decide, by decide, ?_⟩
  cases isZero stray
  · have e1 : ec_doubleV (curveV wei25519_2) (2 * 2 ^ 256) false
        10770553138368400518417020196796161136792368198326337823149502681097436401658
        5443057586150840565309866898445752861680710333250257752116143977388639873869 =
        some (31390650342416057670221141105186897779577205697390859118105690859740087845736,
          51511284550904372093039456642994871221718297487868042009864808419404800854951) := by
      decide!
    refine ⟨_, _, by rw [e1]; rfl, ?_⟩
    intro l ⟨hl, hx⟩
    have h2 := hx.trans (slope_sq_unique hc h0 hl)
    have hv : value (toLimbs 8
        31390650342416057670221141105186897779577205697390859118105690859740087845736) =
        31390650342416057670221141105186897779577205697390859118105690859740087845736 := by
      decide!
    rw [hv] at h2
    exact absurd h2 (by decide!)
  · have e1 : ec_doubleV (curveV wei25519_2) (2 * 2 ^ 256) true
        10770553138368400518417020196796161136792368198326337823149502681097436401658
        5443057586150840565309866898445752861680710333250257752116143977388639873869 =
        some (10496555494250126044802547402816002943239060022327508750425676806334536076792,
          36869297917904522370876190097366937983246959067891555632968705330577837839684) := by
      decide!
    refine ⟨_, _, by rw [e1]; rfl, ?_⟩
    intro l ⟨hl, hx⟩
    have h2 := hx.trans (slope_sq_unique hc h0 hl)
    have hv : value (toLimbs 8
        10496555494250126044802547402816002943239060022327508750425676806334536076792) =
        10496555494250126044802547402816002943239060022327508750425676806334536076792 := by
      decide!
    rw [hv] at h2
    exact absurd h2 (by decide!)

set_option maxRecDepth 100000 in
/-- C23. With SECP256R1 active, `ec_add` applied to `P = (x1, y1)` and `Q = (1, 1)` with
`y1 = 1 + 2^224` and `x1 = 1 + (2^65 + (2^32 - 1) * 2^128)^-1 mod p` (coordinates below `p`,
`x1 ≠ 1`, neither point `(0, 0)`) returns, whatever the words `A[32..39]` are, a point
`(X, Y)` whose first coordinate is not `λ² - x1 - x2`: no `λ` with
`λ·(x1 - x2) ≡ y1 - y2 (mod p)` satisfies `X + x1 + x2 ≡ λ² (mod p)`.  The product
`(y1 - y2)·(x1 - x2)^-1` is one that `fieldModP256` reduces wrongly. -/
theorem ec_add_secp256r1_not_chord (stray : List Nat) :
    value chordP_x < value secp256r1.ecc_prime_m ∧
    value chordP_y < value secp256r1.ecc_prime_m ∧
    value oneWords < value secp256r1.ecc_prime_m ∧
    value chordP_x ≠ value oneWords ∧
    ∃ X Y, ec_add secp256r1 (2 * 2 ^ 256) stray chordP_x chordP_y oneWords oneWords =
        some (X, Y) ∧
      ∀ l : Nat,
        ¬ (l * (value chordP_x + value secp256r1.ecc_prime_m - value oneWords) ≡
            value chordP_y + value secp256r1.ecc_prime_m - value oneWords
            [MOD value secp256r1.ecc_prime_m] ∧
          value X + value chordP_x + value oneWords ≡ l ^ 2
            [MOD value secp256r1.ecc_prime_m]) := by
  have ex : chordP_x = toLimbs 8
      83849443906299361753461204612908889605996835105350632246802938075589412253273 := by
    decide!
  have ey : chordP_y = toLimbs 8
      26959946667150639794667015087019630673637144422540572481103610249217 := by
    decide!
  have e1 : oneWords = toLimbs 8 1 := by decide!
  have vx : value chordP_x =
      83849443906299361753461204612908889605996835105350632246802938075589412253273 := by
    decide!
  have vy : value chordP_y =
      26959946667150639794667015087019630673637144422540572481103610249217 := by
    decide!
  have v1 : value oneWords = 1 := by decide!
  have vp : value secp256r1.ecc_prime_m =
      115792089210356248762697446949407573530086143415290314195533631308867097853951 := by
    decide!
  have hc : Nat.gcd
      115792089210356248762697446949407573530086143415290314195533631308867097853951
      (83849443906299361753461204612908889605996835105350632246802938075589412253273 +
        115792089210356248762697446949407573530086143415290314195533631308867097853951 - 1) = 1 := by
    decide!
  have h0 : 115792089210356248750143243480095713639745467486920209870998228020338458886145 *
      (83849443906299361753461204612908889605996835105350632246802938075589412253273 +
        115792089210356248762697446949407573530086143415290314195533631308867097853951 - 1) ≡
      26959946667150639794667015087019630673637144422540572481103610249217 +
        115792089210356248762697446949407573530086143415290314195533631308867097853951 - 1
      [MOD 115792089210356248762697446949407573530086143415290314195533631308867097853951] := by
    decide!
  have hev := ec_add_toLimbs secp256r1 (2 * 2 ^ 256) stray
    83849443906299361753461204612908889605996835105350632246802938075589412253273
    26959946667150639794667015087019630673637144422540572481103610249217 1 1 (by decide)
  rw [← ex, ← ey, ← e1] at hev
  rw [hev, vx, vy, v1, vp]
  refine ⟨by decide, by decide, by decide, by decide, ?_⟩
  have hv : value (toLimbs 8
      31942645465816566836381232532673234342405314601297341815415080230330607997376) =
      31942645465816566836381232532673234342405314601297341815415080230330607997376 := by
    decide!
  have e2 : ∀ b : Bool, ec_addV (curveV secp256r1) (2 * 2 ^ 256) b
      83849443906299361753461204612908889605996835105350632246802938075589412253273
      26959946667150639794667015087019630673637144422540572481103610249217 1 1 =
      some (31942645465816566836381232532673234342405314601297341815415080230330607997376,
        67878120863351692965536840606258139694759349384300978660660985370435871761545) := by
    decide!
  refine ⟨_, _, by rw [e2]; rfl, ?_⟩
  intro l ⟨hl, hx⟩
  have h2 := hx.trans (slope_sq_unique hc h0 hl)
  rw [hv] at h2
  exact absurd h2 (by decide!)

theorem copy_toLimbs_zero16 (v : Nat) :
    copy (toLimbs 8 v) (setZero 16) arrayLength = toLimbs 16 (v % 2 ^ 256) := by
  have hl : (copy (toLimbs 8 v) (setZero 16) arrayLength).length = 16 := by
    simp [copy, arrayLength, setZero, toLimbs_length]
  have hL : Limbs (copy (toLimbs 8 v) (setZero 16) arrayLength) := by
    unfold copy
    exact limbs_append.2 ⟨limbs_take _ (toLimbs_limbs _ _), limbs_drop _ (by decide)⟩
  have hv : value (copy (toLimbs 8 v) (setZero 16) arrayLength) = v % 2 ^ 256 := by
    unfold copy arrayLength
    rw [value_append, take_eq_self (toLimbs_length 8 v), toLimbs8_value]
    have : value ((setZero 16).drop 8) = 0 := by decide
    rw [this, Nat.mul_zero, Nat.add_zero]
  exact eq_toLimbs_of hl hL hv

/-- `twisted_edwards_to_short_weierstrass` is its value-level restatement on the values of the
coordinates. -/
theorem twisted_edwards_to_short_weierstrass_toLimbs (g : Params) (fuel : Nat)
    (stray : List Nat) (px py : Nat) (hg : wellFormed g) :
    twisted_edwards_to_short_weierstrass g fuel stray (toLimbs 8 px) (toLimbs 8 py) =
      (twisted_edwards_to_short_weierstrassV (curveV g) fuel (isZero stray) px py).map
        pointLimbs := by
  have hg2 := hg
  obtain ⟨h1, h2, h3, h4, h5, h6, h7, h8, h9, h10, _⟩ := hg2
  have one : (setZero arrayLength).set 0 0x00000001 = toLimbs 8 1 := by decide
  have hz : ∀ A, Convert.ecc_isZero A = isZero A := fun _ => rfl
  have hm1 : Convert.minus_one = toLimbs 8 (value Convert.minus_one) := by decide!
  have hc : Convert.c = toLimbs 8 (value Convert.c) := by decide!
  have hA3 : copy Convert.A_3 (setZero 8) arrayLength = toLimbs 8 (value Convert.A_3) := by
    decide!
  have hd : Limbs Convert.delta := by decide
  have hdl : 8 ≤ Convert.delta.length := by decide
  unfold twisted_edwards_to_short_weierstrass twisted_edwards_to_short_weierstrassV
  rw [hm1, hc]
  simp only [hz, isZero_toLimbs, isSame_toLimbs, one, fieldMult_toLimbs,
    fieldModP_toLimbs g fuel stray _ hg, copy_toLimbs_zero16, hA3,
    Option.bind_eq_bind, Option.bind_map, Function.comp_def,
    fieldSub_toLimbs _ _ _ h3 h4, fieldAdd_toLimbs_list _ _ _ hd hdl h7 h8,
    fieldAdd_toLimbs _ _ _ h7 h8, fieldInv_toLimbs _ _ _ _ h3 h4 h7 h8, fieldInvV_eq_fast]
  rw [← hm1, ← hc]
  split
  · rfl
  · split
    · rfl
    · simp only [option_map_bind]
      rfl

theorem inverse_unique {p d i i0 : Nat} (hc : Nat.gcd p d = 1) (h0 : i0 * d ≡ 1 [MOD p])
    (h : i * d ≡ 1 [MOD p]) : i ≡ i0 [MOD p] :=
  Nat.ModEq.cancel_right_of_coprime hc (h.trans h0.symm)

set_option maxRecDepth 100000 in
/-- C30. With WEI25519 active, `twisted_edwards_to_short_weierstrass` applied to `x = 1` and
the `y` below `p` for which `(1+y)·(1-y)^-1 + delta ≡ 0 (mod p)` returns, whatever the words
`A[32..39]` are, a first coordinate `X` that is not the reduced value of the formula: for no
inverse `i` of `1 - y` modulo `p` is `X` both below `p` and congruent to `(1+y)·i + delta`.
(When `A[32..39]` is not all zero `X` is `p` itself: the final loop of `fieldModX` stops at
`r = m`.) -/
theorem twisted_edwards_to_short_weierstrass_not_reduced (stray : List Nat) :
    0 < value oneWords ∧ value oneWords < value wei25519.ecc_prime_m ∧
    value edwardsT_y < value wei25519.ecc_prime_m ∧ value edwardsT_y ≠ 1 ∧
    ∃ X Y, twisted_edwards_to_short_weierstrass wei25519 (2 * 2 ^ 256) stray oneWords
        edwardsT_y = some (X, Y) ∧
      ∀ i : Nat,
        ¬ (i * (1 + value wei25519.ecc_prime_m - value edwardsT_y) ≡ 1
            [MOD value wei25519.ecc_prime_m] ∧
          value X < value wei25519.ecc_prime_m ∧
          value X ≡ (1 + value edwardsT_y) * i + value Convert.delta
            [MOD value wei25519.ecc_prime_m]) := by
  have ey : edwardsT_y = toLimbs 8
      5786642199766465904871703062932760439949641662972864650035503652176269768786 := by
    decide!
  have e1 : oneWords = toLimbs 8 1 := by decide!
  have vy : value edwardsT_y =
      5786642199766465904871703062932760439949641662972864650035503652176269768786 := by
    decide!
  have v1 : value oneWords = 1 := by decide!
  have vd : value Convert.delta =
      19298681539552699237261830834781317975544997444273427339909597334652188435537 := by
    decide!
  have vp : value wei25519.ecc_prime_m =
      57896044618658097711785492504343953926634992332820282019728792003956564819949 := by
    decide!
  have hc : Nat.gcd 57896044618658097711785492504343953926634992332820282019728792003956564819949
      (1 + 57896044618658097711785492504343953926634992332820282019728792003956564819949 -
        5786642199766465904871703062932760439949641662972864650035503652176269768786) = 1 := by
    decide!
  have h0 : 48246703848881748093154577086953294938862493610683568349773993336630470602181 *
      (1 + 57896044618658097711785492504343953926634992332820282019728792003956564819949 -
        5786642199766465904871703062932760439949641662972864650035503652176269768786) ≡ 1
      [MOD 57896044618658097711785492504343953926634992332820282019728792003956564819949] := by
    decide!
  have hev := twisted_edwards_to_short_weierstrass_toLimbs wei25519 (2 * 2 ^ 256) stray 1
    5786642199766465904871703062932760439949641662972864650035503652176269768786 (by decide)
  rw [← ey, ← e1] at hev
  rw [hev, vy, v1, vd, vp]
  refine ⟨by decide, by decide, by decide, by decide, ?_⟩
  cases isZero stray
  · have e2 : twisted_edwards_to_short_weierstrassV (curveV wei25519) (2 * 2 ^ 256) false 1
        5786642199766465904871703062932760439949641662972864650035503652176269768786 =
        some (57896044618658097711785492504343953926634992332820282019728792003956564819949,
          36171641361759843915433872612083302765860830622036628250085999128039838716387) := by
      decide!
    refine ⟨_, _, by rw [e2]; rfl, ?_⟩
    intro i ⟨hi, hx⟩
    have hv : value (toLimbs 8
        57896044618658097711785492504343953926634992332820282019728792003956564819949) =
        57896044618658097711785492504343953926634992332820282019728792003956564819949 := by
      decide!
    rw [hv] at hx
    exact absurd hx.1 (by decide)
  · have e2 : twisted_edwards_to_short_weierstrassV (curveV wei25519) (2 * 2 ^ 256) true 1
        5786642199766465904871703062932760439949641662972864650035503652176269768786 =
        some (24170254407680485263102353178919200887400658335236873747228776181788858454832,
          39055150081586995528875708434147305680503092890949585382721870903109230329504) := by
      decide!
    refine ⟨_, _, by rw [e2]; rfl, ?_⟩
    intro i ⟨hi, hx⟩
    have hv : value (toLimbs 8
        24170254407680485263102353178919200887400658335236873747228776181788858454832) =
        24170254407680485263102353178919200887400658335236873747228776181788858454832 := by
      decide!
    rw [hv] at hx
    have h2 := hx.2.trans (((inverse_unique hc h0 hi).mul_left _).add_right _)
    exact absurd h2 (by decide!)

set_option maxRecDepth 100000 in
/-- C12. With WEI25519 active and the words `A[32..39]` that the shortcut of `fieldModX`
inspects all zero, `ec_add` is not commutative on the base point `G` and its double `2G`,
both on the curve and with coordinates below `p`: `ec_add(G, 2G)` and `ec_add(2G, G)` return
different coordinates. -/
theorem ec_add_not_commutative :
    onCurve (value wei25519.ecc_prime_m - value wei25519.ecc_param_a) wei25519_b
      (value wei25519.ecc_prime_m) (value wei25519_gx) (value wei25519_gy) ∧
    onCurve (value wei25519.ecc_prime_m - value wei25519.ecc_param_a) wei25519_b
      (value wei25519.ecc_prime_m) (value wei25519_dbl_x) (value wei25519_dbl_y) ∧
    value wei25519_gx < value wei25519.ecc_prime_m ∧
    value wei25519_gy < value wei25519.ecc_prime_m ∧
    value wei25519_dbl_x < value wei25519.ecc_prime_m ∧
    value wei25519_dbl_y < value wei25519.ecc_prime_m ∧
    ec_add wei25519 (2 * 2 ^ 256) (setZero 8) wei25519_gx wei25519_gy wei25519_dbl_x wei25519_dbl_y =
      some ([0x08d9090b, 0x42124d57, 0x830347cb, 0xc39ab707, 0xca418b9f, 0xc8ecced8, 0x7b5eef1b, 0x20aab62f],
        [0xfc6801de, 0x01bea4dd, 0xb80ed108, 0xec44394b, 0x05b8f9f3, 0x34e30a98, 0x31565027, 0x0bf77eda]) ∧
    ec_add wei25519 (2 * 2 ^ 256) (setZero 8) wei25519_dbl_x wei25519_dbl_y wei25519_gx wei25519_gy =
      some ([0x6653638b, 0x13f86e82, 0xb0fdabc5, 0xa0443d26, 0xc3efb9b7, 0xded1cd6a, 0x6347b89a, 0x44aa1659],
        [0xef9cccac, 0x73b2563e, 0xfdcf4a2d, 0x8612c443, 0xa230d1a7, 0x334c7fa3, 0xbac9a58e, 0x6f26d122]) ∧
    [0x08d9090b, 0x42124d57, 0x830347cb, 0xc39ab707, 0xca418b9f, 0xc8ecced8, 0x7b5eef1b, 0x20aab62f] ≠
      [0x6653638b, 0x13f86e82, 0xb0fdabc5, 0xa0443d26, 0xc3efb9b7, 0xded1cd6a, 0x6347b89a, 0x44aa1659] := by
  have eg : wei25519_gx = toLimbs 8 19298681539552699237261830834781317975544997444273427339909597334652188435546 ∧
      wei25519_gy = toLimbs 8 14781619447589544791020593568409986887264606134616475288964881837755586237401 ∧
      wei25519_dbl_x = toLimbs 8 34145958685188182721225203372338409610255982577099208428796738225249784787788 ∧
      wei25519_dbl_y = toLimbs 8 8914613091229147831277935472048643066880067899251840418855181793938505594211 := by
    decide!
  obtain ⟨e1, e2, e3, e4⟩ := eg
  have h1 := ec_add_toLimbs wei25519 (2 * 2 ^ 256) (setZero 8)
    19298681539552699237261830834781317975544997444273427339909597334652188435546
    14781619447589544791020593568409986887264606134616475288964881837755586237401
    34145958685188182721225203372338409610255982577099208428796738225249784787788
    8914613091229147831277935472048643066880067899251840418855181793938505594211 (by decide)
  have h2 := ec_add_toLimbs wei25519 (2 * 2 ^ 256) (setZero 8)
    34145958685188182721225203372338409610255982577099208428796738225249784787788
    8914613091229147831277935472048643066880067899251840418855181793938505594211
    19298681539552699237261830834781317975544997444273427339909597334652188435546
    14781619447589544791020593568409986887264606134616475288964881837755586237401 (by decide)
  rw [← e1, ← e2, ← e3, ← e4] at h1 h2
  rw [h1, h2]
  decide!

set_option maxRecDepth 100000 in
/-- C2. With WEI25519 active and the words `A[32..39]` that the shortcut of `fieldModX`
inspects all zero, the two parties of an ECDH exchange with `dA = 2` and `dB = 3` (both
below `n`) do not agree: `ecc_ec_mult(ecc_ec_mult(G, dB), dA)` and
`ecc_ec_mult(ecc_ec_mult(G, dA), dB)` differ. -/
theorem ecdh_disagreement :
    value twoWords < value wei25519.ecc_order_m ∧ value threeWords < value wei25519.ecc_order_m ∧
    ecc_ec_mult wei25519 (2 * 2 ^ 256) (setZero 8) wei25519_gx wei25519_gy threeWords =
      some ([0x23955544, 0x5dd61aaa, 0x04a2011b, 0xa16145d4, 0x93e432bc, 0xfedf0847, 0x67f4949a, 0x7cf44892],
        [0xc9ce7812, 0x05b6a141, 0x70343360, 0xc39f6e6c, 0xc7e51ad0, 0x8264a11f, 0x76974e43, 0x2959703e]) ∧
    ecc_ec_mult wei25519 (2 * 2 ^ 256) (setZero 8)
        [0x23955544, 0x5dd61aaa, 0x04a2011b, 0xa16145d4, 0x93e432bc, 0xfedf0847, 0x67f4949a, 0x7cf44892]
        [0xc9ce7812, 0x05b6a141, 0x70343360, 0xc39f6e6c, 0xc7e51ad0, 0x8264a11f, 0x76974e43, 0x2959703e] twoWords =
      some ([0xcdae17f7, 0x160c0059, 0x22461982, 0x3fba13e6, 0x35d56312, 0xf26107f5, 0xe154dec7, 0x088a04dd],
        [0xd7aa03b7, 0xebb90f37, 0x3397fa87, 0xb0089e55, 0x9bf29883, 0xe45a17ae, 0xa582c0ec, 0x70e59b14]) ∧
    ecc_ec_mult wei25519 (2 * 2 ^ 256) (setZero 8) wei25519_gx wei25519_gy twoWords =
      some ([0x52034bd8, 0x20de9cd0, 0x22282f4f, 0x6e616023, 0xc0335e1e, 0x0d20b4b7, 0xb2eae882, 0x38c59b4a],
        [0x4c02b10e, 0xc362f44f, 0x4f5c2fd5, 0x01a9ad60, 0x9072f1b7, 0x94c774e4, 0x9ab5b265, 0x70f04f44]) ∧
    ecc_ec_mult wei25519 (2 * 2 ^ 256) (setZero 8)
        [0x52034bd8, 0x20de9cd0, 0x22282f4f, 0x6e616023, 0xc0335e1e, 0x0d20b4b7, 0xb2eae882, 0x38c59b4a]
        [0x4c02b10e, 0xc362f44f, 0x4f5c2fd5, 0x01a9ad60, 0x9072f1b7, 0x94c774e4, 0x9ab5b265, 0x70f04f44] threeWords =
      some ([0x84261a61, 0x003cc8e1, 0xded5d0fb, 0xfb66cede, 0xf35bd841, 0xc0975797, 0xa9f48604, 0x0ec83566],
        [0x4bf38397, 0x45496efd, 0x518a7b61, 0xfc486a53, 0x05e88ca8, 0x798e6a42, 0x6c9570a7, 0x4a72df22]) ∧
    [0xcdae17f7, 0x160c0059, 0x22461982, 0x3fba13e6, 0x35d56312, 0xf26107f5, 0xe154dec7, 0x088a04dd] ≠
      [0x84261a61, 0x003cc8e1, 0xded5d0fb, 0xfb66cede, 0xf35bd841, 0xc0975797, 0xa9f48604, 0x0ec83566] := by
  have h1 := ecc_ec_mult_eval wei25519 (2 * 2 ^ 256) (setZero 8) wei25519_gx wei25519_gy threeWords
    (by decide) (by decide) (by decide) (by decide) (by decide)
  have h2 := ecc_ec_mult_eval wei25519 (2 * 2 ^ 256) (setZero 8) [0x23955544, 0x5dd61aaa, 0x04a2011b, 0xa16145d4, 0x93e432bc, 0xfedf0847, 0x67f4949a, 0x7cf44892] [0xc9ce7812, 0x05b6a141, 0x70343360, 0xc39f6e6c, 0xc7e51ad0, 0x8264a11f, 0x76974e43, 0x2959703e] twoWords
    (by decide) (by decide) (by decide) (by decide) (by decide)
  have h3 := ecc_ec_mult_eval wei25519 (2 * 2 ^ 256) (setZero 8) wei25519_gx wei25519_gy twoWords
    (by decide) (by decide) (by decide) (by decide) (by decide)
  have h4 := ecc_ec_mult_eval wei25519 (2 * 2 ^ 256) (setZero 8) [0x52034bd8, 0x20de9cd0, 0x22282f4f, 0x6e616023, 0xc0335e1e, 0x0d20b4b7, 0xb2eae882, 0x38c59b4a] [0x4c02b10e, 0xc362f44f, 0x4f5c2fd5, 0x01a9ad60, 0x9072f1b7, 0x94c774e4, 0x9ab5b265, 0x70f04f44] threeWords
    (by decide) (by decide) (by decide) (by decide) (by decide)
  rw [h1, h2, h3, h4]
  decide!

/-- `short_weierstrass_to_twisted_edwards` is its value-level restatement on the values of the
coordinates. -/
theorem short_weierstrass_to_twisted_edwards_toLimbs (g : Params) (fuel : Nat)
    (stray : List Nat) (px py : Nat) (hg : wellFormed g) :
    short_weierstrass_to_twisted_edwards g fuel stray (toLimbs 8 px) (toLimbs 8 py) =
      (short_weierstrass_to_twisted_edwardsV (curveV g) fuel (isZero stray) px py).map
        pointLimbs := by
  have hg2 := hg
  obtain ⟨h1, h2, h3, h4, h5, h6, h7, h8, h9, h10, _⟩ := hg2
  have hz : ∀ A, Convert.ecc_isZero A = isZero A := fun _ => rfl
  have hm1 : copy Convert.minus_one (setZero 8) arrayLength =
      toLimbs 8 (value Convert.minus_one) := by decide!
  have hc : Convert.c = toLimbs 8 (value Convert.c) := by decide!
  have hA3 : Convert.A_3 = toLimbs 8 (value Convert.A_3) := by decide!
  have hA : Convert.A = toLimbs 8 (value Convert.A) := by decide!
  have h3' : Convert.three = toLimbs 8 (value Convert.three) := by decide!
  have hs : setZero arrayLength = toLimbs 8 0 := by decide
  unfold short_weierstrass_to_twisted_edwards short_weierstrass_to_twisted_edwardsV
  rw [hm1, hc, hA3, hA, h3']
  simp only [hz, isZero_toLimbs, isSame_toLimbs, fieldMult_toLimbs,
    fieldModP_toLimbs g fuel stray _ hg,
    Option.bind_eq_bind, Option.bind_map, Function.comp_def,
    fieldSub_toLimbs _ _ _ h3 h4,
    fieldAdd_toLimbs _ _ _ h7 h8, fieldInv_toLimbs _ _ _ _ h3 h4 h7 h8, fieldInvV_eq_fast]
  rw [← hc, ← hA3, ← hA, ← h3', hs]
  by_cases c1 : decide (py % 2 ^ 256 = 0) = true ∧ decide (px % 2 ^ 256 = 0) = true
  · rw [if_pos c1, if_pos c1]
    rfl
  · rw [if_neg c1, if_neg c1]
    by_cases c2 : decide (py % 2 ^ 256 = 0) = true ∧
        decide (px % 2 ^ 256 = value Convert.A_3 % 2 ^ 256) = true
    · rw [if_pos c2, if_pos c2]
      rfl
    · rw [if_neg c2, if_neg c2]
      simp only [option_map_bind]
      rfl

set_option maxRecDepth 100000 in
/-- C19. With WEI25519 active and the words `A[32..39]` that the shortcut of `fieldModX`
inspects all zero, the round trip through `twisted_edwards_to_short_weierstrass` and
`short_weierstrass_to_twisted_edwards` does not return the Ed25519 base point `(x, y)` it
started from (`x, y` below `p`, `x ≠ 0`, `y ≠ 1`, `y ≠ p - 1`). -/
theorem edwards_round_trip_fails :
    value ed25519_Gx < value wei25519.ecc_prime_m ∧
    value ed25519_Gy < value wei25519.ecc_prime_m ∧
    value ed25519_Gx ≠ 0 ∧ value ed25519_Gy ≠ 1 ∧
    value ed25519_Gy ≠ value wei25519.ecc_prime_m - 1 ∧
    twisted_edwards_to_short_weierstrass wei25519 (2 * 2 ^ 256) (setZero 8) ed25519_Gx ed25519_Gy =
      some ([0xaaad245a, 0xaaaaaaaa, 0xaaaaaaaa, 0xaaaaaaaa, 0xaaaaaaaa, 0xaaaaaaaa, 0xaaaaaaaa, 0x2aaaaaaa],
        [0xce0c3c90, 0x65676d4e, 0xfa5f3c12, 0xc2d3355f, 0xc92ed80b, 0xfc315828, 0x81eb803b, 0x3c5d2375]) ∧
    short_weierstrass_to_twisted_edwards wei25519 (2 * 2 ^ 256) (setZero 8)
        [0xaaad245a, 0xaaaaaaaa, 0xaaaaaaaa, 0xaaaaaaaa, 0xaaaaaaaa, 0xaaaaaaaa, 0xaaaaaaaa, 0x2aaaaaaa]
        [0xce0c3c90, 0x65676d4e, 0xfa5f3c12, 0xc2d3355f, 0xc92ed80b, 0xfc315828, 0x81eb803b, 0x3c5d2375] =
      some ([0x809b53ba, 0xb000ca33, 0x6424581f, 0xed964230, 0xbaad100c, 0xf639e8c7, 0xe225bbc4, 0x73c369e8],
        [0x666665c0, 0x66666666, 0x66666666, 0x66666666, 0x66666666, 0x66666666, 0x66666666, 0x66666666]) ∧
    [0x809b53ba, 0xb000ca33, 0x6424581f, 0xed964230, 0xbaad100c, 0xf639e8c7, 0xe225bbc4, 0x73c369e8] ≠
      ed25519_Gx := by
  have eg : ed25519_Gx = toLimbs 8 15112221349535400772501151409588531511454012693041857206046113283949847762202 ∧
      ed25519_Gy = toLimbs 8 46316835694926478169428394003475163141307993866256225615783033603165251855960 ∧
      [0xaaad245a, 0xaaaaaaaa, 0xaaaaaaaa, 0xaaaaaaaa, 0xaaaaaaaa, 0xaaaaaaaa, 0xaaaaaaaa, 0x2aaaaaaa] =
        toLimbs 8 19298681539552699237261830834781317975544997444273427339909597334652188435546 ∧
      [0xce0c3c90, 0x65676d4e, 0xfa5f3c12, 0xc2d3355f, 0xc92ed80b, 0xfc315828, 0x81eb803b, 0x3c5d2375] =
        toLimbs 8 27303332421138435853997026221736397895215053021919773458522840459635749305488 := by
    decide!
  obtain ⟨e1, e2, e3, e4⟩ := eg
  have h1 := twisted_edwards_to_short_weierstrass_toLimbs wei25519 (2 * 2 ^ 256) (setZero 8)
    15112221349535400772501151409588531511454012693041857206046113283949847762202
    46316835694926478169428394003475163141307993866256225615783033603165251855960 (by decide)
  have h2 := short_weierstrass_to_twisted_edwards_toLimbs wei25519 (2 * 2 ^ 256) (setZero 8)
    19298681539552699237261830834781317975544997444273427339909597334652188435546
    27303332421138435853997026221736397895215053021919773458522840459635749305488 (by decide)
  rw [← e1, ← e2] at h1
  rw [← e3, ← e4] at h2
  rw [h1, h2]
  decide!

theorem take_eq_toLimbs {A : List Nat} (hA : Limbs A) (n : Nat) (hn : n ≤ A.length) :
    A.take n = toLimbs n (value A) := by
  have h := eq_toLimbs_of (show (A.take n).length = n by simp [hn]) (limbs_take n hA) rfl
  rw [h, value_take_mod hA n hn, toLimbs_mod]

/-- `fieldModX` is `fieldModXV` on the value of its input. -/
theorem fieldModX_eval (fuel : Nat) (A stray result modulus mu : List Nat) (length k rl : Nat)
    (hA : Limbs A) (h8 : 8 ≤ A.length) (hl : length ≤ A.length) (hrl : rl ≤ A.length)
    (hm : Limbs modulus) (hlm : rl ≤ modulus.length) (h8m : 8 ≤ modulus.length)
    (hmu : Limbs mu) (hlmu : 9 ≤ mu.length) (hr16 : rl ≤ 16) (hres : result.length ≤ rl) :
    fieldModX fuel A stray result length modulus mu k rl =
      fieldModXV fuel (value A) (isZero stray) result length (value modulus) (value mu) k rl := by
  unfold fieldModX fieldModXV
  have hg8 : isGreater A modulus arrayLength ≤ 0 ↔
      value A % 2 ^ 256 ≤ value modulus % 2 ^ 256 := by
    unfold arrayLength
    rw [isGreater_spec _ _ hA hm 8 h8 h8m, value_take_mod hA 8 h8, value_take_mod hm 8 h8m]
    simp only [Nat.reduceMul]
    by_cases c1 : value A % 2 ^ 256 > value modulus % 2 ^ 256
    · rw [if_pos c1]
      constructor
      · intro h; exact absurd h (by decide)
      · intro h; omega
    · rw [if_neg c1]
      constructor
      · intro _; omega
      · intro _; split <;> decide
  have hgr : isGreater A modulus rl ≤ 0 ↔
      value A % 2 ^ (32 * rl) ≤ value modulus % 2 ^ (32 * rl) := by
    rw [isGreater_spec _ _ hA hm rl hrl hlm, value_take_mod hA rl hrl, value_take_mod hm rl hlm]
    by_cases c1 : value A % 2 ^ (32 * rl) > value modulus % 2 ^ (32 * rl)
    · rw [if_pos c1]
      constructor
      · intro h; exact absurd h (by decide)
      · intro h; omega
    · rw [if_neg c1]
      constructor
      · intro _; omega
      · intro _; split <;> decide
  by_cases c1 : length = arrayLength ∧ value A % 2 ^ 256 ≤ value modulus % 2 ^ 256
  · rw [if_pos ⟨c1.1, hg8.2 c1.2⟩, if_pos c1]
    have : copy A result arrayLength = copy (toLimbs 8 (value A)) result arrayLength := by
      unfold copy arrayLength
      rw [take_eq_toLimbs hA 8 h8, take_eq_self (toLimbs_length 8 _)]
    rw [this]
  · have n1 : ¬ (length = arrayLength ∧ isGreater A modulus arrayLength ≤ 0) :=
      fun h => c1 ⟨h.1, hg8.1 h.2⟩
    rw [if_neg n1, if_neg c1]
    by_cases c2 : length = 2 * arrayLength ∧ isZero stray = true ∧
        value A % 2 ^ (32 * rl) ≤ value modulus % 2 ^ (32 * rl)
    · rw [if_pos ⟨c2.1, c2.2.1, hgr.2 c2.2.2⟩, if_pos c2]
      have : copy A result rl = toLimbs rl (value A) := by
        unfold copy
        rw [take_eq_toLimbs hA rl hrl, List.drop_of_length_le hres, List.append_nil]
      rw [this]
    · have n2 : ¬ (length = 2 * arrayLength ∧ isZero stray = true ∧
          isGreater A modulus rl ≤ 0) := fun h => c2 ⟨h.1, h.2.1, hgr.1 h.2.2⟩
      rw [if_neg n2, if_neg c2]
      exact barrett_toLimbs fuel A result modulus mu length k rl hA hm hmu hl hrl hlm h8m hlmu
        hr16 hres

theorem copy_limbs {src dst : List Nat} (n : Nat) (hs : Limbs src) (hd : Limbs dst) :
    Limbs (copy src dst n) :=
  limbs_append.2 ⟨limbs_take n hs, limbs_drop n hd⟩

/-- The words left by `fieldModX` are 32-bit words, at least `min 8 rl` of them. -/
theorem fieldModXV_limbs {fuel a : Nat} {sz : Bool} {result : List Nat} {length m mu k rl : Nat}
    {out : List Nat} (hres : Limbs result) (hrl : 8 ≤ rl)
    (h : fieldModXV fuel a sz result length m mu k rl = some out) :
    Limbs out ∧ 8 ≤ out.length := by
  unfold fieldModXV at h
  split at h
  · injection h with h
    rw [← h]
    refine ⟨copy_limbs _ (toLimbs_limbs _ _) hres, ?_⟩
    unfold copy arrayLength
    rw [List.length_append, take_eq_self (toLimbs_length 8 a), toLimbs_length]
    omega
  · split at h
    · injection h with h
      rw [← h]
      exact ⟨toLimbs_limbs _ _, by rw [toLimbs_length]; exact hrl⟩
    · cases hb : barrettV fuel a length m mu k rl with
      | none => rw [hb] at h; cases h
      | some v =>
        rw [hb] at h
        simp only [Option.map_some', Option.some.injEq] at h
        rw [← h]
        exact ⟨toLimbs_limbs _ _, by rw [toLimbs_length]; exact hrl⟩

theorem value_toLimbs_of_lt {n v : Nat} (h : v < 2 ^ (32 * n)) : value (toLimbs n v) = v := by
  rw [toLimbs_value, Nat.mod_eq_of_lt h]

theorem copy_set_eight (X : List Nat) (c : Nat) (h : X.length = 8) :
    (copy X (setZero 9) arrayLength).set 8 c = X ++ [c] := by
  obtain ⟨a0, a1, a2, a3, a4, a5, a6, a7, rfl⟩ := length_eight h
  rfl

theorem value_append_one (X : List Nat) (c : Nat) (h : X.length = 8) :
    value (X ++ [c]) = value X + 2 ^ 256 * c := by
  rw [value_append, h]
  simp [value]

/-- The nine-word buffer holding the x-coordinate in `ecc_ecdsa_sign`. -/
theorem sign_tmp2 (x : Nat) :
    (copy (toLimbs 8 x) (setZero 9) arrayLength).set 8 0x00000000 = toLimbs 9 (x % 2 ^ 256) := by
  rw [copy_set_eight _ _ (toLimbs_length 8 x)]
  apply eq_toLimbs_of
  · simp [toLimbs_length]
  · exact limbs_append.2 ⟨toLimbs_limbs _ _, by intro w hw; simp at hw; rw [hw]; decide⟩
  · rw [value_append_one _ _ (toLimbs_length 8 x), toLimbs8_value, Nat.mul_zero, Nat.add_zero]

theorem rshift_iterate_toLimbs : ∀ (n v : Nat), v < 2 ^ 256 →
    Nat.iterate rshift n (toLimbs 8 v) = toLimbs 8 (v / 2 ^ n)
  | 0, v, _ => by simp
  | n + 1, v, h => by
    rw [Function.iterate_succ_apply, rshift_toLimbs, Nat.mod_eq_of_lt h,
      rshift_iterate_toLimbs n (v / 2) (by omega), Nat.div_div_eq_div_mul, Nat.pow_succ,
      Nat.mul_comm]

/-- The digest shifted by `ecc_prime_shift` bits. -/
theorem shiftDigest_toLimbs (g : Params) (e : Nat) :
    shiftDigest g (copy (toLimbs 8 e) (setZero 8) 8) =
      toLimbs 8 ((e % 2 ^ 256) / 2 ^ g.ecc_prime_shift) := by
  have hc : copy (toLimbs 8 e) (setZero 8) 8 = toLimbs 8 (e % 2 ^ 256) := by
    have := copy_setZero (toLimbs_length 8 e)
    unfold arrayLength at this
    rw [this, ← toLimbs_mod 8 e]
  unfold shiftDigest
  rw [hc, rshift_iterate_toLimbs _ _ (Nat.mod_lt _ (Nat.two_pow_pos _))]

/-- The sixteen-word buffer holding `z + r d` with its carry in `ecc_ecdsa_sign`. -/
theorem sign_sum (z : Nat) (y : List Nat) (hy : Limbs y) (hly : 8 ≤ y.length) :
    (copy (add (toLimbs 8 z) y 8).1 (setZero 16) 8).set 8 (add (toLimbs 8 z) y 8).2 =
      toLimbs 16 (z % 2 ^ 256 + value (y.take 8)) := by
  obtain ⟨h1, h2, h3, h4⟩ := add_spec (toLimbs 8 z) y 8 (toLimbs_limbs _ _) hy
    (by rw [toLimbs_length]) hly
  rw [take_eq_self (toLimbs_length 8 z), toLimbs8_value] at h1
  obtain ⟨a0, a1, a2, a3, a4, a5, a6, a7, e⟩ := length_eight h3
  have hl := h4
  rw [e] at hl
  have hyl := value_lt (limbs_take 8 hy)
  simp only [List.length_take, Nat.min_eq_left hly, Nat.reduceMul] at hyl
  rw [e] at h1 ⊢
  have hs : (copy [a0, a1, a2, a3, a4, a5, a6, a7] (setZero 16) 8).set 8 (add (toLimbs 8 z) y 8).2 =
      [a0, a1, a2, a3, a4, a5, a6, a7, (add (toLimbs 8 z) y 8).2, 0, 0, 0, 0, 0, 0, 0] := rfl
  rw [hs]
  apply eq_toLimbs_of rfl
  · intro w hw
    have ha : ∀ w ∈ [a0, a1, a2, a3, a4, a5, a6, a7], w < 2 ^ 32 := hl
    simp only [List.mem_cons, List.mem_singleton, List.not_mem_nil, or_false,
      forall_eq_or_imp, forall_eq] at ha hw
    rcases hw with h | h | h | h | h | h | h | h | h | h | h | h | h | h | h | h <;>
      rw [h] <;> omega
  · simp only [value] at h1 ⊢
    simp only [Nat.reduceMul] at h1
    omega

theorem isZero_take (A : List Nat) : isZero (A.take 8) = isZero A := by
  unfold isZero
  congr 2
  apply List.filter_congr
  intro n hn
  rw [List.mem_range] at hn
  rw [getD_take, if_pos hn]

theorem fieldInv_take (fuel : Nat) (A m r : List Nat) :
    fieldInv fuel A m r = fieldInv fuel (A.take 8) m r := by
  unfold fieldInv copy arrayLength
  rw [List.take_take, Nat.min_self]

/-- `fieldInv` on a word sequence of at least eight words. -/
theorem fieldInv_eval (fuel : Nat) (A m r : List Nat) (hA : Limbs A) (hlA : 8 ≤ A.length)
    (hm : Limbs m) (hlm : 8 ≤ m.length) (hr : Limbs r) (hlr : 8 ≤ r.length) :
    fieldInv fuel A m r =
      (fieldInvFastV fuel (value (A.take 8)) (value (m.take 8)) (value (r.take 8))).map
        (toLimbs 8) := by
  rw [fieldInv_take]
  have e : A.take 8 = toLimbs 8 (value (A.take 8)) :=
    eq_toLimbs_of (by simp [hlA]) (limbs_take 8 hA) rfl
  conv_lhs => rw [e]
  rw [fieldInv_toLimbs _ _ m r hm hlm hr hlr, fieldInvV_eq_fast]

theorem fieldMult_take (x y : List Nat) (L : Nat) :
    fieldMult x y L = fieldMult (x.take L) (y.take L) L := by
  unfold fieldMult
  apply List.foldl_ext
  intro res k hk
  apply List.foldl_ext
  intro res2 n hn
  rw [List.mem_range] at hk hn
  unfold fieldMultInner
  simp only [getD_take, if_pos hk, if_pos hn]

/-- `fieldMult` of eight words by the values of the operands. -/
theorem fieldMult_eval (x y : List Nat) (hx : Limbs x) (hlx : 8 ≤ x.length) (hy : Limbs y)
    (hly : 8 ≤ y.length) :
    fieldMult x y arrayLength = toLimbs 16 (value (x.take 8) * value (y.take 8)) := by
  obtain ⟨h1, h2, h3⟩ := fieldMult_spec x y 8 hx hy hlx hly
  exact eq_toLimbs_of h1 h2 h3

theorem mul_lt_two_pow_512 {a b : Nat} (ha : a < 2 ^ 256) (hb : b < 2 ^ 256) :
    a * b < 2 ^ (32 * 16) := by
  have h : a * b < 2 ^ 256 * 2 ^ 256 := Nat.mul_lt_mul'' ha hb
  have e : (2 : Nat) ^ (32 * 16) = 2 ^ 256 * 2 ^ 256 := by rw [← Nat.pow_add]
  rw [e]
  exact h

theorem mod_lt_two_pow_288 (a : Nat) : a % 2 ^ 256 < 2 ^ (32 * 9) := by
  have e : (2 : Nat) ^ (32 * 9) = 2 ^ 256 * 2 ^ 32 := by rw [← Nat.pow_add]
  rw [e]
  exact lt_of_lt_of_le (Nat.mod_lt a (Nat.two_pow_pos 256))
    (Nat.le_mul_of_pos_right _ (Nat.two_pow_pos _))


theorem fieldModXV_result (fuel a : Nat) (sz : Bool) (result : List Nat) (m mu k rl : Nat) :
    fieldModXV fuel a sz result (2 * arrayLength) m mu k rl =
      fieldModXV fuel a sz [] (2 * arrayLength) m mu k rl := by
  unfold fieldModXV
  have h : ¬ (2 * arrayLength = arrayLength ∧ a % 2 ^ 256 ≤ m % 2 ^ 256) := by
    intro h; have := h.1; simp [arrayLength] at this
  rw [if_neg h, if_neg h]

/-- `fieldModO` on a sixteen-word product or sum of value `a`. -/
theorem fieldModO_sixteen (g : Params) (fuel : Nat) (stray result : List Nat) (a : Nat)
    (hg : wellFormed g) (ha : a < 2 ^ (32 * 16)) (hres : result.length ≤ 9) :
    fieldModO g fuel stray (toLimbs 16 a) result 16 =
      fieldModXV fuel a (isZero stray) [] 16 (curveV g).nfull (curveV g).nmu (curveV g).k 9 := by
  obtain ⟨_, _, _, _, _, _, _, _, _, _, h11, h12, _, _, h15, h16⟩ := hg
  unfold fieldModO
  rw [fieldModX_eval fuel (toLimbs 16 a) stray result g.ecc_order_m g.ecc_order_mu 16
    g.ecc_order_k 9 (toLimbs_limbs _ _) (by rw [toLimbs_length]; decide)
    (by rw [toLimbs_length]) (by rw [toLimbs_length]; decide) h11 h12 (by omega) h15 h16
    (by decide) hres, value_toLimbs_of_lt ha]
  exact fieldModXV_result fuel a (isZero stray) result _ _ _ 9

/-- `ecc_ecdsa_sign` is `ecc_ecdsa_signV` on the values of the key and the digest. -/
theorem ecc_ecdsa_sign_eval (g : Params) (fuel : Nat) (stray d e k r s : List Nat)
    (hg : wellFormed g) (hgx : Limbs g.ecc_g_point_x) (hlgx : g.ecc_g_point_x.length = 8)
    (hgy : Limbs g.ecc_g_point_y) (hlgy : g.ecc_g_point_y.length = 8)
    (hd : Limbs d) (hld : d.length = 8) (he : Limbs e) (hle : e.length = 8)
    (hk : Limbs k) (hlk : k.length = 8) (hr : Limbs r) (hlr : r.length ≤ 9)
    (hls : s.length ≤ 9) :
    ecc_ecdsa_sign g fuel stray d e k r s =
      ecc_ecdsa_signV (curveV g) fuel (isZero stray) (value g.ecc_g_point_x)
        (value g.ecc_g_point_y) (value d) (value e) k r s := by
  have hg2 := hg
  obtain ⟨_, _, _, _, _, _, _, _, _, _, h11, h12, h13, h14, h15, h16⟩ := hg2
  have hdl := value_lt hd
  have hel := value_lt he
  rw [hld] at hdl
  rw [hle] at hel
  simp only [Nat.reduceMul] at hdl hel
  unfold ecc_ecdsa_sign ecc_ecdsa_signV
  by_cases hz : isZero k = true
  · rw [if_pos hz, if_pos hz]
  · rw [if_neg hz, if_neg hz, ecc_ec_mult_eval g fuel stray _ _ k hg hgx hlgx hgy hlgy]
    cases hkG : ecc_ec_multV (curveV g) fuel (isZero stray) (value g.ecc_g_point_x)
        (value g.ecc_g_point_y) k with
    | none => rfl
    | some kG =>
      simp only [Option.map_some', Option.bind_eq_bind, Option.some_bind, pointLimbs]
      rw [sign_tmp2]
      have hkl : kG.1 % 2 ^ 256 < 2 ^ (32 * 9) := mod_lt_two_pow_288 _
      have e1 : fieldModO g fuel stray (toLimbs 9 (kG.1 % 2 ^ 256)) r 8 =
          fieldModXV fuel (kG.1 % 2 ^ 256) (isZero stray) r 8 (curveV g).nfull (curveV g).nmu
            (curveV g).k 9 := by
        unfold fieldModO
        rw [fieldModX_eval fuel _ stray r g.ecc_order_m g.ecc_order_mu 8 g.ecc_order_k 9
          (toLimbs_limbs _ _) (by rw [toLimbs_length]; decide) (by rw [toLimbs_length]; decide)
          (by rw [toLimbs_length]) h11 h12 (by omega) h15 h16 (by decide) hlr,
          value_toLimbs_of_lt hkl]
        rfl
      rw [e1]
      cases hr1 : fieldModXV fuel (kG.1 % 2 ^ 256) (isZero stray) r 8 (curveV g).nfull
          (curveV g).nmu (curveV g).k 9 with
      | none => rfl
      | some r1 =>
        obtain ⟨lr1, llr1⟩ := fieldModXV_limbs hr (by decide) hr1
        simp only [Option.some_bind]
        by_cases hz1 : isZero r1 = true
        · rw [if_pos hz1, if_pos hz1]
        · rw [if_neg hz1, if_neg hz1, fieldMult_eval r1 d lr1 llr1 hd (by omega),
            take_eq_self hld]
          have hrl := value_lt (limbs_take 8 lr1)
          simp only [List.length_take, Nat.min_eq_left llr1, Nat.reduceMul] at hrl
          have hp1 : value (r1.take 8) * value d < 2 ^ (32 * 16) := mul_lt_two_pow_512 hrl hdl
          rw [fieldModO_sixteen g fuel stray _ _ hg hp1 (by rw [toLimbs_length]),
            Nat.mod_eq_of_lt hdl]
          cases ht2 : fieldModXV fuel (value (r1.take 8) * value d) (isZero stray) [] 16
              (curveV g).nfull (curveV g).nmu (curveV g).k 9 with
          | none => rfl
          | some tmp2 =>
            obtain ⟨lt2, llt2⟩ := fieldModXV_limbs limbs_nil (by decide) ht2
            simp only [Option.some_bind]
            have ee : e = toLimbs 8 (value e) := eq_toLimbs_of hle he rfl
            have hcz : copy e (setZero 8) 8 = copy (toLimbs 8 (value e)) (setZero 8) 8 := by
              rw [← ee]
            rw [hcz, shiftDigest_toLimbs, Nat.mod_eq_of_lt hel, sign_sum _ tmp2 lt2 llt2]
            have ht2l := value_lt (limbs_take 8 lt2)
            simp only [List.length_take, Nat.min_eq_left llt2, Nat.reduceMul] at ht2l
            have hzl : value e / 2 ^ g.ecc_prime_shift < 2 ^ 256 :=
              lt_of_le_of_lt (Nat.div_le_self _ _) hel
            rw [Nat.mod_eq_of_lt hzl]
            have hp2 : value e / 2 ^ g.ecc_prime_shift + value (tmp2.take 8) < 2 ^ (32 * 16) := by
              have : (2 : Nat) ^ 256 + 2 ^ 256 ≤ 2 ^ (32 * 16) := by
                have e : (2 : Nat) ^ (32 * 16) = 2 ^ 256 * 2 ^ 256 := by rw [← Nat.pow_add]
                have h2 : (2 : Nat) ^ 256 * 2 ≤ 2 ^ 256 * 2 ^ 256 :=
                  Nat.mul_le_mul_left _ (by
                    have := Nat.one_lt_two_pow (show 256 ≠ 0 by decide)
                    omega)
                omega
              omega
            rw [fieldModO_sixteen g fuel stray _ _ hg hp2 (by simp [setZero])]
            have hsh : (curveV g).shift = g.ecc_prime_shift := rfl
            rw [hsh]
            cases ht3 : fieldModXV fuel (value e / 2 ^ g.ecc_prime_shift + value (tmp2.take 8))
                (isZero stray) [] 16 (curveV g).nfull (curveV g).nmu (curveV g).k 9 with
            | none => rfl
            | some tmp3 =>
              obtain ⟨lt3, llt3⟩ := fieldModXV_limbs limbs_nil (by decide) ht3
              simp only [Option.some_bind]
              rw [fieldInv_eval fuel k _ _ hk (by omega) h11 (by omega) h13 h14,
                take_eq_self hlk]
              have hn : (curveV g).n = value (g.ecc_order_m.take 8) := rfl
              have hnr : (curveV g).nr = value (g.ecc_order_r.take 8) := rfl
              rw [hn, hnr]
              cases hki : fieldInvFastV fuel (value k) (value (g.ecc_order_m.take 8))
                  (value (g.ecc_order_r.take 8)) with
              | none => rfl
              | some kinv =>
                simp only [Option.map_some', Option.some_bind]
                have hcl : Limbs (copy (toLimbs 8 kinv) tmp2 arrayLength) :=
                  copy_limbs _ (toLimbs_limbs _ _) lt2
                have hcl8 : 8 ≤ (copy (toLimbs 8 kinv) tmp2 arrayLength).length := by
                  unfold copy arrayLength
                  rw [List.length_append, take_eq_self (toLimbs_length 8 kinv), toLimbs_length]
                  omega
                have hct : (copy (toLimbs 8 kinv) tmp2 arrayLength).take 8 = toLimbs 8 kinv := by
                  unfold copy arrayLength
                  rw [take_eq_self (toLimbs_length 8 kinv),
                    List.take_append_of_le_length (by rw [toLimbs_length]),
                    take_eq_self (toLimbs_length 8 kinv)]
                rw [fieldMult_eval _ tmp3 hcl hcl8 lt3 llt3, hct, toLimbs8_value]
                have ht3l := value_lt (limbs_take 8 lt3)
                simp only [List.length_take, Nat.min_eq_left llt3, Nat.reduceMul] at ht3l
                have hp3 : kinv % 2 ^ 256 * value (tmp3.take 8) < 2 ^ (32 * 16) :=
                  mul_lt_two_pow_512 (Nat.mod_lt _ (Nat.two_pow_pos _)) ht3l
                rw [fieldModO_sixteen g fuel stray s _ hg hp3 hls]
                have hres := fieldModXV_result fuel (kinv % 2 ^ 256 * value (tmp3.take 8))
                  (isZero stray) s (curveV g).nfull (curveV g).nmu (curveV g).k 9
                unfold arrayLength at hres
                simp only [Nat.reduceMul] at hres
                rw [hres]
                generalize fieldModXV fuel (kinv % 2 ^ 256 * value (tmp3.take 8)) (isZero stray) []
                  16 (curveV g).nfull (curveV g).nmu (curveV g).k 9 = o
                cases o <;> rfl

/-- With an input of nine words `fieldModX` takes the Barrett path, whatever `result` holds. -/
theorem fieldModXV_nine (fuel a : Nat) (sz : Bool) (result : List Nat) (m mu k rl : Nat) :
    fieldModXV fuel a sz result 9 m mu k rl = fieldModXV fuel a sz [] 9 m mu k rl := by
  unfold fieldModXV
  have h1 : ¬ (9 = arrayLength ∧ a % 2 ^ 256 ≤ m % 2 ^ 256) := by
    intro h; exact absurd h.1 (by decide)
  have h2 : ¬ (9 = 2 * arrayLength ∧ sz = true ∧ a % 2 ^ (32 * rl) ≤ m % 2 ^ (32 * rl)) := by
    intro h; exact absurd h.1 (by decide)
  rw [if_neg h1, if_neg h1, if_neg h2]

/-- A sixteen-word input reduced into nine words leaves nine words. -/
theorem fieldModXV_length {fuel a : Nat} {sz : Bool} {m mu k : Nat} {out : List Nat}
    (h : fieldModXV fuel a sz [] 16 m mu k 9 = some out) : out.length = 9 := by
  unfold fieldModXV at h
  rw [if_neg (by intro h; exact absurd h.1 (by decide))] at h
  split at h
  · injection h with h
    rw [← h, toLimbs_length]
  · cases hb : barrettV fuel a 16 m mu k 9 with
    | none => rw [hb] at h; cases h
    | some v =>
      rw [hb] at h
      simp only [Option.map_some', Option.some.injEq] at h
      rw [← h, toLimbs_length]

/-- The nine words of `u1` after the first coordinate of the sum has been written into it. -/
theorem validate_u1 (x : Nat) (u1 : List Nat) (hu : Limbs u1) (hl : u1.length = 9) :
    copy (toLimbs 8 x) u1 arrayLength = toLimbs 9 (x % 2 ^ 256 + 2 ^ 256 * u1.getD 8 0) := by
  obtain ⟨a0, a1, a2, a3, a4, a5, a6, a7, a8, rfl⟩ : ∃ a0 a1 a2 a3 a4 a5 a6 a7 a8,
      u1 = [a0, a1, a2, a3, a4, a5, a6, a7, a8] := by
    match u1, hl with
    | [a0, a1, a2, a3, a4, a5, a6, a7, a8], _ => exact ⟨a0, a1, a2, a3, a4, a5, a6, a7, a8, rfl⟩
  have h8 : a8 < 2 ^ 32 := hu a8 (by simp)
  have hc : copy (toLimbs 8 x) [a0, a1, a2, a3, a4, a5, a6, a7, a8] arrayLength =
      toLimbs 8 x ++ [a8] := by
    unfold copy arrayLength
    rw [take_eq_self (toLimbs_length 8 x)]
    rfl
  rw [hc]
  apply eq_toLimbs_of
  · simp [toLimbs_length]
  · exact limbs_append.2 ⟨toLimbs_limbs _ _, by intro w hw; simp at hw; rw [hw]; exact h8⟩
  · rw [value_append_one _ _ (toLimbs_length 8 x), toLimbs8_value]
    rfl

/-- `ecc_ecdsa_validate` is `ecc_ecdsa_validateV` on the values of the key and the digest. -/
theorem ecc_ecdsa_validate_eval (g : Params) (fuel : Nat) (stray x y e r s : List Nat)
    (hg : wellFormed g) (hgx : Limbs g.ecc_g_point_x) (hlgx : g.ecc_g_point_x.length = 8)
    (hgy : Limbs g.ecc_g_point_y) (hlgy : g.ecc_g_point_y.length = 8)
    (hx : Limbs x) (hlx : x.length = 8) (hy : Limbs y) (hly : y.length = 8)
    (he : Limbs e) (hle : e.length = 8) (hr : Limbs r) (hlr : 8 ≤ r.length)
    (hs : Limbs s) (hls : 8 ≤ s.length) :
    ecc_ecdsa_validate g fuel stray x y e r s =
      ecc_ecdsa_validateV (curveV g) fuel (isZero stray) (value g.ecc_g_point_x)
        (value g.ecc_g_point_y) (value x) (value y) (value e) r s := by
  have hg2 := hg
  obtain ⟨_, _, _, _, _, _, _, _, _, _, h11, h12, h13, h14, h15, h16⟩ := hg2
  have hel := value_lt he
  rw [hle] at hel
  simp only [Nat.reduceMul] at hel
  have hn : (curveV g).n = value (g.ecc_order_m.take 8) := rfl
  have hnr : (curveV g).nr = value (g.ecc_order_r.take 8) := rfl
  have hsh : (curveV g).shift = g.ecc_prime_shift := rfl
  unfold ecc_ecdsa_validate ecc_ecdsa_validateV
  rw [fieldInv_eval fuel s _ _ hs hls h11 (by omega) h13 h14, hn, hnr, hsh]
  cases hw : fieldInvFastV fuel (value (s.take 8)) (value (g.ecc_order_m.take 8))
      (value (g.ecc_order_r.take 8)) with
  | none => rfl
  | some w =>
    simp only [Option.map_some', Option.bind_eq_bind, Option.some_bind]
    have ee : e = toLimbs 8 (value e) := eq_toLimbs_of hle he rfl
    have hcz : copy e (setZero 8) 8 = copy (toLimbs 8 (value e)) (setZero 8) 8 := by
      rw [← ee]
    have hzl : value e % 2 ^ 256 / 2 ^ g.ecc_prime_shift < 2 ^ 256 :=
      lt_of_le_of_lt (Nat.div_le_self _ _) (Nat.mod_lt _ (Nat.two_pow_pos _))
    have hwl : w % 2 ^ 256 < 2 ^ 256 := Nat.mod_lt _ (Nat.two_pow_pos _)
    have hp1 : value e % 2 ^ 256 / 2 ^ g.ecc_prime_shift * (w % 2 ^ 256) < 2 ^ (32 * 16) :=
      mul_lt_two_pow_512 hzl hwl
    rw [hcz, shiftDigest_toLimbs, fieldMult_toLimbs, Nat.mod_eq_of_lt hzl,
      fieldModO_sixteen g fuel stray _ _ hg hp1 (by simp [setZero])]
    cases hu1 : fieldModXV fuel (value e % 2 ^ 256 / 2 ^ g.ecc_prime_shift * (w % 2 ^ 256))
        (isZero stray) [] 16 (curveV g).nfull (curveV g).nmu (curveV g).k 9 with
    | none => rfl
    | some u1 =>
      obtain ⟨lu1, -⟩ := fieldModXV_limbs limbs_nil (by decide) hu1
      have nu1 := fieldModXV_length hu1
      simp only [Option.some_bind]
      have hrl := value_lt (limbs_take 8 hr)
      simp only [List.length_take, Nat.min_eq_left hlr, Nat.reduceMul] at hrl
      have hp2 : value (r.take 8) * (w % 2 ^ 256) < 2 ^ (32 * 16) :=
        mul_lt_two_pow_512 hrl hwl
      rw [fieldMult_eval r (toLimbs 8 w) hr hlr (toLimbs_limbs _ _) (by rw [toLimbs_length]),
        take_eq_self (toLimbs_length 8 w), toLimbs8_value,
        fieldModO_sixteen g fuel stray _ _ hg hp2 (by simp [setZero])]
      cases hu2 : fieldModXV fuel (value (r.take 8) * (w % 2 ^ 256)) (isZero stray) [] 16
          (curveV g).nfull (curveV g).nmu (curveV g).k 9 with
      | none => rfl
      | some u2 =>
        simp only [Option.some_bind]
        rw [ecc_ec_mult_eval g fuel stray _ _ u1 hg hgx hlgx hgy hlgy,
          ecc_ec_mult_eval g fuel stray x y u2 hg hx hlx hy hly]
        cases ht1 : ecc_ec_multV (curveV g) fuel (isZero stray) (value g.ecc_g_point_x)
            (value g.ecc_g_point_y) u1 with
        | none => rfl
        | some tmp1 =>
          simp only [Option.map_some', Option.some_bind]
          cases ht2 : ecc_ec_multV (curveV g) fuel (isZero stray) (value x) (value y) u2 with
          | none => rfl
          | some tmp2 =>
            simp only [Option.map_some', Option.some_bind, pointLimbs]
            rw [ec_add_toLimbs g fuel stray _ _ _ _ hg]
            cases ht3 : ec_addV (curveV g) fuel (isZero stray) tmp1.1 tmp1.2 tmp2.1 tmp2.2 with
            | none => rfl
            | some tmp3 =>
              simp only [Option.map_some', Option.some_bind, pointLimbs]
              rw [validate_u1 _ u1 lu1 nu1]
              have hv : tmp3.1 % 2 ^ 256 + 2 ^ 256 * u1.getD 8 0 < 2 ^ (32 * 9) := by
                have h8 := getD_lt lu1 8
                have h1 : tmp3.1 % 2 ^ 256 < 2 ^ 256 := Nat.mod_lt _ (Nat.two_pow_pos _)
                have e9 : (2 : Nat) ^ (32 * 9) = 2 ^ 256 * 2 ^ 32 := by
                  rw [← Nat.pow_add]
                rw [e9]
                have : 2 ^ 256 * u1.getD 8 0 ≤ 2 ^ 256 * (2 ^ 32 - 1) :=
                  Nat.mul_le_mul_left _ (by omega)
                have e2 : 2 ^ 256 * (2 ^ 32 - 1) + 2 ^ 256 = 2 ^ 256 * 2 ^ 32 := by
                  rw [Nat.mul_sub, Nat.mul_one]
                  have : (2 : Nat) ^ 256 ≤ 2 ^ 256 * 2 ^ 32 :=
                    Nat.le_mul_of_pos_right _ (Nat.two_pow_pos _)
                  omega
                omega
              unfold fieldModO
              rw [fieldModX_eval fuel _ stray (setZero 8) g.ecc_order_m g.ecc_order_mu 9
                g.ecc_order_k 9 (toLimbs_limbs _ _) (by rw [toLimbs_length]; decide)
                (by rw [toLimbs_length]) (by rw [toLimbs_length]) h11 h12 (by omega) h15 h16
                (by decide) (by simp [setZero]), value_toLimbs_of_lt hv, fieldModXV_nine]
              cases ht4 : fieldModXV fuel (tmp3.1 % 2 ^ 256 + 2 ^ 256 * u1.getD 8 0) (isZero stray)
                  [] 9 (value g.ecc_order_m) (value g.ecc_order_mu) g.ecc_order_k 9 with
              | none =>
                have : fieldModXV fuel (tmp3.1 % 2 ^ 256 + 2 ^ 256 * u1.getD 8 0) (isZero stray)
                    [] 9 (curveV g).nfull (curveV g).nmu (curveV g).k 9 = none := ht4
                rw [this]
                rfl
              | some t =>
                have : fieldModXV fuel (tmp3.1 % 2 ^ 256 + 2 ^ 256 * u1.getD 8 0) (isZero stray)
                    [] 9 (curveV g).nfull (curveV g).nmu (curveV g).k 9 = some t := ht4
                rw [this]
                rfl

set_option maxRecDepth 1000000 in
/-- The numbers denoted by the parameters of WEI25519_2. -/
theorem curveV_wei25519_2 : curveV wei25519_2 =
    { a := 2, p := 57896044618658097711785492504343953926634992332820282019728792003956564819949,
      pfull := 57896044618658097711785492504343953926634992332820282019728792003956564819949,
      r := 57896044618658097711785492504343953926634992332820282019728792003956564819987,
      pmu := 231584178474632390847141970017375815706539969331281128078915168015826259279948,
      n := 7237005577332262213973186563042994240857116359379907606001950938285454250989,
      nfull := 7237005577332262213973186563042994240857116359379907606001950938285454250989,
      nr := 108555083659983933209597798445644913612412868306260656433455633069627675388947,
      nmu := 1852673427797059126777135760139006525645217721299241702126143248052143860224795,
      k := 8, shift := 3, modfun := ModFun.fieldModGeneric } := by
  decide!

set_option maxRecDepth 1000000 in
/-- C1. With WEI25519_2 active and every reduction taking the Barrett path (the words
`A[32..39]` not all zero), the sign-then-verify round trip fails for the private key `d = 1`,
the nonce `k = 2` (both in `[1, n-1]`) and the digest `roundTrip_e`: the public key is
`ecc_ec_mult(G, d) = G`, `ecc_ecdsa_sign` returns 0 with `r`, `s` in `[1, n-1]`, and
`ecc_ecdsa_validate` on that key, digest and signature returns -1. -/
theorem sign_verify_round_trip_fails (stray : List Nat) (hstray : isZero stray = false) :
    0 < value oneWords ∧ value oneWords < value wei25519_2.ecc_order_m ∧
    0 < value twoWords ∧ value twoWords < value wei25519_2.ecc_order_m ∧
    ecc_ec_mult wei25519_2 (2 * 2 ^ 256) stray wei25519_2.ecc_g_point_x wei25519_2.ecc_g_point_y
      oneWords = some (wei25519_2_gx, wei25519_2_gy) ∧
    ecc_ecdsa_sign wei25519_2 (2 * 2 ^ 256) stray oneWords roundTrip_e twoWords (setZero 9)
        (setZero 9) =
      some (0, [0xb27ab3b4, 0x8f4d703f, 0xd451fc55, 0x93b086b0, 0x8c2bc3ed, 0x9ef4b894, 0x3ddea49e, 0x05667a7d, 0x00000000],
        [0xaa7b2039, 0xc8c4f2da, 0xcea5a080, 0x812e732d, 0x73d43c12, 0x610b476b, 0xc2215b61, 0x0a998582, 0x00000000]) ∧
    0 < value [0xb27ab3b4, 0x8f4d703f, 0xd451fc55, 0x93b086b0, 0x8c2bc3ed, 0x9ef4b894, 0x3ddea49e, 0x05667a7d, 0x00000000] ∧
    value [0xb27ab3b4, 0x8f4d703f, 0xd451fc55, 0x93b086b0, 0x8c2bc3ed, 0x9ef4b894, 0x3ddea49e, 0x05667a7d, 0x00000000] <
      value wei25519_2.ecc_order_m ∧
    0 < value [0xaa7b2039, 0xc8c4f2da, 0xcea5a080, 0x812e732d, 0x73d43c12, 0x610b476b, 0xc2215b61, 0x0a998582, 0x00000000] ∧
    value [0xaa7b2039, 0xc8c4f2da, 0xcea5a080, 0x812e732d, 0x73d43c12, 0x610b476b, 0xc2215b61, 0x0a998582, 0x00000000] <
      value wei25519_2.ecc_order_m ∧
    ecc_ecdsa_validate wei25519_2 (2 * 2 ^ 256) stray wei25519_2_gx wei25519_2_gy roundTrip_e
        [0xb27ab3b4, 0x8f4d703f, 0xd451fc55, 0x93b086b0, 0x8c2bc3ed, 0x9ef4b894, 0x3ddea49e, 0x05667a7d, 0x00000000]
        [0xaa7b2039, 0xc8c4f2da, 0xcea5a080, 0x812e732d, 0x73d43c12, 0x610b476b, 0xc2215b61, 0x0a998582, 0x00000000] =
      some (-1) := by
  have hm := ecc_ec_mult_eval wei25519_2 (2 * 2 ^ 256) stray wei25519_2.ecc_g_point_x
    wei25519_2.ecc_g_point_y oneWords (by decide) (by decide) (by decide) (by decide) (by decide)
  have hs := ecc_ecdsa_sign_eval wei25519_2 (2 * 2 ^ 256) stray oneWords roundTrip_e twoWords
    (setZero 9) (setZero 9) (by decide) (by decide) (by decide) (by decide) (by decide)
    (by decide) (by decide) (by decide) (by decide) (by decide) (by decide) (by decide)
    (by decide) (by decide)
  have hv := ecc_ecdsa_validate_eval wei25519_2 (2 * 2 ^ 256) stray wei25519_2_gx wei25519_2_gy
    roundTrip_e
    [0xb27ab3b4, 0x8f4d703f, 0xd451fc55, 0x93b086b0, 0x8c2bc3ed, 0x9ef4b894, 0x3ddea49e, 0x05667a7d, 0x00000000]
    [0xaa7b2039, 0xc8c4f2da, 0xcea5a080, 0x812e732d, 0x73d43c12, 0x610b476b, 0xc2215b61, 0x0a998582, 0x00000000]
    (by decide) (by decide) (by decide) (by decide) (by decide) (by decide) (by decide)
    (by decide) (by decide) (by decide) (by decide) (by decide) (by decide) (by decide)
    (by decide)
  have vgx : value wei25519_2.ecc_g_point_x = 10770553138368400518417020196796161136792368198326337823149502681097436401658 := by
    decide!
  have vgy : value wei25519_2.ecc_g_point_y = 5443057586150840565309866898445752861680710333250257752116143977388639873869 := by
    decide!
  have vgx2 : value wei25519_2_gx = 10770553138368400518417020196796161136792368198326337823149502681097436401658 := by
    decide!
  have vgy2 : value wei25519_2_gy = 5443057586150840565309866898445752861680710333250257752116143977388639873869 := by
    decide!
  have ve : value roundTrip_e = 57169016443227983879689508536329808266144095513169033037681924454208767813104 := by
    decide!
  have v1 : value oneWords = 1 := by decide!
  rw [hm, hs, hv, hstray, curveV_wei25519_2, vgx, vgy, vgx2, vgy2, ve, v1]
  decide!

set_option maxRecDepth 1000000 in
theorem sign_verify_round_trip_fails_witness :
    isZero oneWords = false ∧
    ecc_ecdsa_validate wei25519_2 (2 * 2 ^ 256) oneWords wei25519_2_gx wei25519_2_gy roundTrip_e
        [0xb27ab3b4, 0x8f4d703f, 0xd451fc55, 0x93b086b0, 0x8c2bc3ed, 0x9ef4b894, 0x3ddea49e, 0x05667a7d, 0x00000000]
        [0xaa7b2039, 0xc8c4f2da, 0xcea5a080, 0x812e732d, 0x73d43c12, 0x610b476b, 0xc2215b61, 0x0a998582, 0x00000000] =
      some (-1) :=
  ⟨by decide, (sign_verify_round_trip_fails oneWords (by decide)).2.2.2.2.2.2.2.2.2.2⟩

set_option maxRecDepth 1000000 in
/-- C3. With SECP256R1 active and the words `A[32..39]` that the shortcut of `fieldModX`
inspects all zero, `ecc_ecdsa_sign` with the key `d = signTest_d` (below `n`), the digest
`e = 1` and the nonce `k = 1` returns 0 with `r` equal to the first coordinate of
`ecc_ec_mult(G, k)`, but with an `s` that does not satisfy `s·k ≡ z + r·d (mod n)`
(`z = e`, the shift being 0 on this curve). -/
theorem ecc_ecdsa_sign_not_standard :
    value signTest_d < value secp256r1.ecc_order_m ∧
    0 < value oneWords ∧ value oneWords < value secp256r1.ecc_order_m ∧
    secp256r1.ecc_prime_shift = 0 ∧
    ecc_ec_mult secp256r1 (2 * 2 ^ 256) (setZero 8) secp256r1.ecc_g_point_x
      secp256r1.ecc_g_point_y oneWords = some (p256_gx, p256_gy) ∧
    ecc_ecdsa_sign secp256r1 (2 * 2 ^ 256) (setZero 8) signTest_d oneWords oneWords (setZero 9)
        (setZero 9) =
      some (0, p256_gx ++ [0],
        [0x2766fdb3, 0x3197e436, 0xdc41a51d, 0xccfc0b0d, 0xf059015d, 0x197246a6, 0x6e8b6dec, 0x49b0abea, 0x00000000]) ∧
    ¬ value [0x2766fdb3, 0x3197e436, 0xdc41a51d, 0xccfc0b0d, 0xf059015d, 0x197246a6, 0x6e8b6dec, 0x49b0abea, 0x00000000] *
        value oneWords ≡ value oneWords + value p256_gx * value signTest_d
        [MOD value secp256r1.ecc_order_m] := by
  have hm := ecc_ec_mult_eval secp256r1 (2 * 2 ^ 256) (setZero 8) secp256r1.ecc_g_point_x
    secp256r1.ecc_g_point_y oneWords (by decide) (by decide) (by decide) (by decide) (by decide)
  have hs := ecc_ecdsa_sign_eval secp256r1 (2 * 2 ^ 256) (setZero 8) signTest_d oneWords oneWords
    (setZero 9) (setZero 9) (by decide) (by decide) (by decide) (by decide) (by decide)
    (by decide) (by decide) (by decide) (by decide) (by decide) (by decide) (by decide)
    (by decide) (by decide)
  rw [hm, hs]
  decide!

set_option maxRecDepth 1000000 in
/-- The numbers denoted by the parameters of SECP256R1. -/
theorem curveV_secp256r1 : curveV secp256r1 =
    { a := 3, p := 115792089210356248762697446949407573530086143415290314195533631308867097853951,
      pfull := 115792089210356248762697446949407573530086143415290314195533631308867097853951,
      r := 26959946660873538059280334323183841250350249843923952699046031785985,
      pmu := 115792089264276142090721624801893421302618430054073857003285787780261785632771,
      n := 115792089210356248762697446949407573529996955224135760342422259061068512044369,
      nfull := 115792089210356248762697446949407573529996955224135760342422259061068512044369,
      nr := 26959946660873538059280334323273029441504803697035324946844617595567,
      nmu := 115792089264276142090721624801893421302707618245269942344307673200490803338238,
      k := 8, shift := 0, modfun := ModFun.fieldModP256 } := by
  decide!

set_option maxRecDepth 1000000 in
/-- C4. With SECP256R1 active and the words `A[32..39]` that the shortcut of `fieldModX`
inspects all zero, `ecc_ecdsa_validate` accepts, for the public key
`Q = (verifyTest_x, verifyTest_y)` (a point of the curve) and the digest `e = 0`, the pair
`r = verifyTest_x`, `s = verifyTest_s` (in `[1, n)`, with `w = s^-1 = 2^96 + 1`), although
`r` is not congruent modulo `n` to the first coordinate `x1` of
`ec_add(ecc_ec_mult(G, u1), ecc_ec_mult(Q, u2))` for `u1 = z·w mod n = 0` and
`u2 = r·w mod n`. -/
theorem ecc_ecdsa_validate_accepts_wrong_r :
    onCurve (value secp256r1.ecc_prime_m - value secp256r1.ecc_param_a) p256_b
      (value secp256r1.ecc_prime_m) (value verifyTest_x) (value verifyTest_y) ∧
    0 < value verifyTest_s ∧ value verifyTest_s < value secp256r1.ecc_order_m ∧
    (2 ^ 96 + 1) * value verifyTest_s % value secp256r1.ecc_order_m = 1 ∧
    value verifyTest_u2 = value verifyTest_x * (2 ^ 96 + 1) % value secp256r1.ecc_order_m ∧
    ecc_ecdsa_validate secp256r1 (2 * 2 ^ 256) (setZero 8) verifyTest_x verifyTest_y (setZero 8)
      verifyTest_x verifyTest_s = some 0 ∧
    ecc_ec_mult secp256r1 (2 * 2 ^ 256) (setZero 8) secp256r1.ecc_g_point_x
      secp256r1.ecc_g_point_y (setZero 9) = some (setZero 8, setZero 8) ∧
    ecc_ec_mult secp256r1 (2 * 2 ^ 256) (setZero 8) verifyTest_x verifyTest_y verifyTest_u2 =
      some ([0x2bace142, 0x7aabab4f, 0x65d98a72, 0xf8036043, 0xf329d730, 0xca8371a8, 0xe817ba26, 0xf03ee60f],
        [0x86364842, 0xea387178, 0xce89e944, 0xf510d2a7, 0xf86baeeb, 0x4567f0ce, 0xcdd5e87d, 0xce967bc2]) ∧
    ec_add secp256r1 (2 * 2 ^ 256) (setZero 8) (setZero 8) (setZero 8)
        [0x2bace142, 0x7aabab4f, 0x65d98a72, 0xf8036043, 0xf329d730, 0xca8371a8, 0xe817ba26, 0xf03ee60f]
        [0x86364842, 0xea387178, 0xce89e944, 0xf510d2a7, 0xf86baeeb, 0x4567f0ce, 0xcdd5e87d, 0xce967bc2] =
      some ([0x2bace142, 0x7aabab4f, 0x65d98a72, 0xf8036043, 0xf329d730, 0xca8371a8, 0xe817ba26, 0xf03ee60f],
        [0x86364842, 0xea387178, 0xce89e944, 0xf510d2a7, 0xf86baeeb, 0x4567f0ce, 0xcdd5e87d, 0xce967bc2]) ∧
    ¬ value verifyTest_x ≡
        value [0x2bace142, 0x7aabab4f, 0x65d98a72, 0xf8036043, 0xf329d730, 0xca8371a8, 0xe817ba26, 0xf03ee60f]
        [MOD value secp256r1.ecc_order_m] := by
  have hv := ecc_ecdsa_validate_eval secp256r1 (2 * 2 ^ 256) (setZero 8) verifyTest_x verifyTest_y
    (setZero 8) verifyTest_x verifyTest_s
    (by decide) (by decide) (by decide) (by decide) (by decide) (by decide) (by decide)
    (by decide) (by decide) (by decide) (by decide) (by decide) (by decide) (by decide)
    (by decide)
  have hm := ecc_ec_mult_eval secp256r1 (2 * 2 ^ 256) (setZero 8) verifyTest_x verifyTest_y
    verifyTest_u2 (by decide) (by decide) (by decide) (by decide) (by decide)
  have vx : value verifyTest_x = 6277101735386680763835789423128438253588091106870490562561 := by
    decide!
  have vy : value verifyTest_y = 104908483173364707343343197209955036405028668973803972485633784768834659294144 := by
    decide!
  have ha : ec_add secp256r1 (2 * 2 ^ 256) (setZero 8) (setZero 8) (setZero 8)
      [0x2bace142, 0x7aabab4f, 0x65d98a72, 0xf8036043, 0xf329d730, 0xca8371a8, 0xe817ba26, 0xf03ee60f]
      [0x86364842, 0xea387178, 0xce89e944, 0xf510d2a7, 0xf86baeeb, 0x4567f0ce, 0xcdd5e87d, 0xce967bc2] =
      some ([0x2bace142, 0x7aabab4f, 0x65d98a72, 0xf8036043, 0xf329d730, 0xca8371a8, 0xe817ba26, 0xf03ee60f],
        [0x86364842, 0xea387178, 0xce89e944, 0xf510d2a7, 0xf86baeeb, 0x4567f0ce, 0xcdd5e87d, 0xce967bc2]) := by
    unfold ec_add
    rw [isZero_setZero]
    rfl
  refine ⟨by decide!, by decide!, by decide!, by decide!, by decide!, ?_, ecc_ec_mult_zero _ _ _ _ _ 9,
    ?_, ha, by decide!⟩
  · rw [hv, curveV_secp256r1, vx, vy]
    decide!
  · rw [hm, curveV_secp256r1, vx, vy]
    decide!

set_option maxRecDepth 100000 in
/-- C11 (failing input). On `WEI25519_2` the base point satisfies the documented equation
`y² = x³ + 2x + b`, yet `ecc_ec_mult(G, 2)` returns a point that is neither `(0,0)` nor on
that curve (the words past the product buffer are non-zero here, so every reduction is the
full Barrett reduction). -/
theorem ecc_ec_mult_leaves_wei25519_2 :
    onCurve 2 wei25519_2_b (value wei25519_p) (value wei25519_2_gx) (value wei25519_2_gy) ∧
    ecc_ec_mult wei25519_2 600 [1, 0, 0, 0, 0, 0, 0, 0] wei25519_2_gx wei25519_2_gy
        [2, 0, 0, 0, 0, 0, 0, 0] =
      some ([0x26520368, 0xef96fca9, 0x60306fae, 0xe72c6e2b, 0x8c2bc3ed, 0x9ef4b894, 0x3ddea49e,
              0x45667a7d],
            [0xebd00ba7, 0x94b93b8c, 0xf6364c56, 0x04467f1f, 0x832afcae, 0xbd9286c5, 0xdc38fab8,
              0x71e25a96]) ∧
    ¬ onCurve 2 wei25519_2_b (value wei25519_p)
        (value [0x26520368, 0xef96fca9, 0x60306fae, 0xe72c6e2b, 0x8c2bc3ed, 0x9ef4b894,
          0x3ddea49e, 0x45667a7d])
        (value [0xebd00ba7, 0x94b93b8c, 0xf6364c56, 0x04467f1f, 0x832afcae, 0xbd9286c5,
          0xdc38fab8, 0x71e25a96]) := by
  refine ⟨by decide!, ?_, by decide!⟩
  rw [ecc_ec_mult_eval wei25519_2 600 [1, 0, 0, 0, 0, 0, 0, 0] wei25519_2_gx wei25519_2_gy
    [2, 0, 0, 0, 0, 0, 0, 0] (by decide) (by decide) (by decide) (by decide) (by decide)]
  decide!

/-! ## Exactness of the limb primitives -/

/-- C33: limb addition is exact.  For every length `L` and all `L`-word inputs `x`, `y`,
`add(x, y, result, L)` writes `L` words whose value is `(x + y) mod 2^(32 L)` and returns a
carry `c` that is `0` or `1` with `value(result) + c * 2^(32 L) = x + y`. -/
theorem add_exact (x y : List Nat) (L : Nat) (hx : Limbs x) (hy : Limbs y)
    (hlx : x.length = L) (hly : y.length = L) :
    (add x y L).1.length = L ∧ Limbs (add x y L).1 ∧
      value (add x y L).1 = (value x + value y) % 2 ^ (32 * L) ∧
      ((add x y L).2 = 0 ∨ (add x y L).2 = 1) ∧
      value (add x y L).1 + (add x y L).2 * 2 ^ (32 * L) = value x + value y := by
  obtain ⟨hv, hc, hl, hL⟩ := add_spec x y L hx hy (by omega) (by omega)
  rw [take_eq_self hlx, take_eq_self hly] at hv
  have hlt := value_lt hL
  rw [hl] at hlt
  refine ⟨hl, hL, ?_, by omega, by rw [Nat.mul_comm]; exact hv⟩
  rw [← hv, Nat.add_mul_mod_self_left, Nat.mod_eq_of_lt hlt]

/-- Instance of `add_exact`: `0xffffffff + 1` over one word gives `0` with carry `1`. -/
theorem add_exact_witness :
    (add [0xffffffff] [1] 1).1.length = 1 ∧ Limbs (add [0xffffffff] [1] 1).1 ∧
      value (add [0xffffffff] [1] 1).1 = (value [0xffffffff] + value [1]) % 2 ^ (32 * 1) ∧
      ((add [0xffffffff] [1] 1).2 = 0 ∨ (add [0xffffffff] [1] 1).2 = 1) ∧
      value (add [0xffffffff] [1] 1).1 + (add [0xffffffff] [1] 1).2 * 2 ^ (32 * 1) =
        value [0xffffffff] + value [1] :=
  add_exact [0xffffffff] [1] 1 (by decide) (by decide) rfl rfl

/-- C34: limb subtraction is exact.  For every length `L` and all `L`-word inputs `x`, `y`,
`sub(x, y, result, L)` writes `L` words whose value is `(x - y) mod 2^(32 L)` and returns a
borrow `b` that is `0` or `1` with `value(result) - b * 2^(32 L) = x - y` over the integers;
the borrow is `1` exactly when `x < y`. -/
theorem sub_exact (x y : List Nat) (L : Nat) (hx : Limbs x) (hy : Limbs y)
    (hlx : x.length = L) (hly : y.length = L) :
    (sub x y L).1.length = L ∧ Limbs (sub x y L).1 ∧
      (value (sub x y L).1 : Int) = ((value x : Int) - value y) % 2 ^ (32 * L) ∧
      ((sub x y L).2 = 0 ∨ (sub x y L).2 = 1) ∧
      (value (sub x y L).1 : Int) - (sub x y L).2 * 2 ^ (32 * L) = (value x : Int) - value y ∧
      ((sub x y L).2 = 1 ↔ value x < value y) := by
  obtain ⟨hv, hc, hl, hL⟩ := sub_spec x y L hx hy (by omega) (by omega)
  have hb := sub_borrow x y L hx hy (by omega) (by omega)
  rw [take_eq_self hlx, take_eq_self hly] at hv hb
  have hlt := value_lt hL
  rw [hl] at hlt
  have hz : ((value (sub x y L).1 : Nat) : Int) + value y =
      value x + 2 ^ (32 * L) * ((sub x y L).2 : Nat) := by exact_mod_cast hv
  have hlt2 : ((value (sub x y L).1 : Nat) : Int) < 2 ^ (32 * L) := by exact_mod_cast hlt
  have h0 : (0 : Int) ≤ value (sub x y L).1 := Int.ofNat_nonneg _
  refine ⟨hl, hL, ?_, by omega, ?_, by omega⟩
  · rcases (show (sub x y L).2 = 0 ∨ (sub x y L).2 = 1 by omega) with h | h
    · rw [h] at hz
      have e : ((value x : Int) - value y) = value (sub x y L).1 := by
        simp only [Nat.cast_zero, mul_zero, add_zero] at hz; omega
      rw [e, Int.emod_eq_of_lt h0 hlt2]
    · rw [h] at hz
      have e : ((value x : Int) - value y) = value (sub x y L).1 + 2 ^ (32 * L) * (-1) := by
        simp only [Nat.cast_one, mul_one] at hz
        rw [mul_neg, mul_one]; omega
      rw [e, Int.add_mul_emod_self_left, Int.emod_eq_of_lt h0 hlt2]
  · rw [mul_comm]; omega

/-- Instance of `sub_exact`: `0 - 1` over one word gives `0xffffffff` with borrow `1`. -/
theorem sub_exact_witness :
    (sub [0] [1] 1).1.length = 1 ∧ Limbs (sub [0] [1] 1).1 ∧
      (value (sub [0] [1] 1).1 : Int) = ((value [0] : Int) - value [1]) % 2 ^ (32 * 1) ∧
      ((sub [0] [1] 1).2 = 0 ∨ (sub [0] [1] 1).2 = 1) ∧
      (value (sub [0] [1] 1).1 : Int) - (sub [0] [1] 1).2 * 2 ^ (32 * 1) =
        (value [0] : Int) - value [1] ∧
      ((sub [0] [1] 1).2 = 1 ↔ value [0] < value [1]) :=
  sub_exact [0] [1] 1 (by decide) (by decide) rfl rfl

/-- C31: `fieldAdd` is congruent to the sum.  For every modulus `m` with `0 < m < 2^256`,
a reducer holding `2^256 - m`, and all 8-word `x`, `y` below `m`, `fieldAdd(x, y, reducer)`
has the value `x + y` when `x + y < 2^256` and `x + y - m` otherwise; in both cases it is
congruent to `x + y` modulo `m`, and when the first addition carries, the second addition
(of the reducer) produces no carry. -/
theorem fieldAdd_congruent (x y reducer : List Nat) (m : Nat) (hx : Limbs x) (hy : Limbs y)
    (hr : Limbs reducer) (hlx : x.length = 8) (hly : y.length = 8) (hlr : 8 ≤ reducer.length)
    (hm0 : 0 < m) (hm : m < 2 ^ 256) (hR : value (reducer.take 8) = 2 ^ 256 - m)
    (hxm : value x < m) (hym : value y < m) :
    (fieldAdd x y reducer).length = 8 ∧ Limbs (fieldAdd x y reducer) ∧
      value (fieldAdd x y reducer) =
        (if value x + value y < 2 ^ 256 then value x + value y else value x + value y - m) ∧
      value (fieldAdd x y reducer) % m = (value x + value y) % m ∧
      ((add x y arrayLength).2 = 0 ∨
        (add (add x y arrayLength).1 reducer arrayLength).2 = 0) := by
  obtain ⟨hl, hL, hv⟩ := fieldAdd_spec x y reducer hx hy hr hlx hly hlr
  have e : value (fieldAdd x y reducer) =
      (if value x + value y < 2 ^ 256 then value x + value y else value x + value y - m) := by
    rw [hv, hR]
    by_cases h : value x + value y < 2 ^ 256
    · rw [if_pos h, if_pos h]
    · rw [if_neg h, if_neg h]
      have e1 : value x + value y - 2 ^ 256 + (2 ^ 256 - m) = value x + value y - m := by omega
      rw [e1]
      exact Nat.mod_eq_of_lt (by omega)
  refine ⟨hl, hL, e, ?_, ?_⟩
  · rw [e]
    by_cases h : value x + value y < 2 ^ 256
    · rw [if_pos h]
    · rw [if_neg h]
      have e2 : value x + value y = value x + value y - m + m := by omega
      conv_rhs => rw [e2]
      rw [Nat.add_mod_right]
  · obtain ⟨hv1, hc1, hl1, hL1⟩ := add_spec x y 8 hx hy (by omega) (by omega)
    rw [take_eq_self hlx, take_eq_self hly] at hv1
    obtain ⟨hv2, hc2, -, -⟩ := add_spec (add x y 8).1 reducer 8 hL1 hr (by omega) hlr
    rw [take_eq_self hl1, hR] at hv2
    show (add x y 8).2 = 0 ∨ (add (add x y 8).1 reducer 8).2 = 0
    have h32 : (2 : Nat) ^ (32 * 8) = 2 ^ 256 := rfl
    rw [h32] at hv1 hv2
    omega

/-- Instance of `fieldAdd_congruent` on the P-256 prime, at `x = y = p - 1`, where the
first addition carries. -/
theorem fieldAdd_congruent_witness :
    (add [0xfffffffe, 0xffffffff, 0xffffffff, 0, 0, 0, 1, 0xffffffff]
        [0xfffffffe, 0xffffffff, 0xffffffff, 0, 0, 0, 1, 0xffffffff] arrayLength).2 = 1 ∧
    ((fieldAdd [0xfffffffe, 0xffffffff, 0xffffffff, 0, 0, 0, 1, 0xffffffff]
        [0xfffffffe, 0xffffffff, 0xffffffff, 0, 0, 0, 1, 0xffffffff] p256_pr).length = 8 ∧
      Limbs (fieldAdd [0xfffffffe, 0xffffffff, 0xffffffff, 0, 0, 0, 1, 0xffffffff]
        [0xfffffffe, 0xffffffff, 0xffffffff, 0, 0, 0, 1, 0xffffffff] p256_pr) ∧
      value (fieldAdd [0xfffffffe, 0xffffffff, 0xffffffff, 0, 0, 0, 1, 0xffffffff]
          [0xfffffffe, 0xffffffff, 0xffffffff, 0, 0, 0, 1, 0xffffffff] p256_pr) =
        (if value [0xfffffffe, 0xffffffff, 0xffffffff, 0, 0, 0, 1, 0xffffffff] +
            value [0xfffffffe, 0xffffffff, 0xffffffff, 0, 0, 0, 1, 0xffffffff] < 2 ^ 256
          then value [0xfffffffe, 0xffffffff, 0xffffffff, 0, 0, 0, 1, 0xffffffff] +
            value [0xfffffffe, 0xffffffff, 0xffffffff, 0, 0, 0, 1, 0xffffffff]
          else value [0xfffffffe, 0xffffffff, 0xffffffff, 0, 0, 0, 1, 0xffffffff] +
            value [0xfffffffe, 0xffffffff, 0xffffffff, 0, 0, 0, 1, 0xffffffff] -
              value p256_p) ∧
      value (fieldAdd [0xfffffffe, 0xffffffff, 0xffffffff, 0, 0, 0, 1, 0xffffffff]
          [0xfffffffe, 0xffffffff, 0xffffffff, 0, 0, 0, 1, 0xffffffff] p256_pr) % value p256_p =
        (value [0xfffffffe, 0xffffffff, 0xffffffff, 0, 0, 0, 1, 0xffffffff] +
          value [0xfffffffe, 0xffffffff, 0xffffffff, 0, 0, 0, 1, 0xffffffff]) % value p256_p ∧
      ((add [0xfffffffe, 0xffffffff, 0xffffffff, 0, 0, 0, 1, 0xffffffff]
          [0xfffffffe, 0xffffffff, 0xffffffff, 0, 0, 0, 1, 0xffffffff] arrayLength).2 = 0 ∨
        (add (add [0xfffffffe, 0xffffffff, 0xffffffff, 0, 0, 0, 1, 0xffffffff]
          [0xfffffffe, 0xffffffff, 0xffffffff, 0, 0, 0, 1, 0xffffffff] arrayLength).1
          p256_pr arrayLength).2 = 0)) :=
  ⟨by decide,
    fieldAdd_congruent [0xfffffffe, 0xffffffff, 0xffffffff, 0, 0, 0, 1, 0xffffffff]
      [0xfffffffe, 0xffffffff, 0xffffffff, 0, 0, 0, 1, 0xffffffff] p256_pr (value p256_p)
      (by decide) (by decide) (by decide) rfl rfl (by decide) (by decide) (by decide)
      (by decide) (by decide) (by decide)⟩

/-- C32: `fieldMult` is the exact product.  For every length `L` (in particular for each
of 1 to 9) and all `L`-word inputs `x`, `y`, `fieldMult(x, y, result, L)` writes `2 L` words
whose value is exactly `x * y`: nothing is lost in the partial sums. -/
theorem fieldMult_exact (x y : List Nat) (L : Nat)
    (hx : Limbs x) (hy : Limbs y) (hlx : x.length = L) (hly : y.length = L) :
    (fieldMult x y L).length = 2 * L ∧ Limbs (fieldMult x y L) ∧
      value (fieldMult x y L) = value x * value y := by
  obtain ⟨hl, hL, hv⟩ := fieldMult_spec x y L hx hy (by omega) (by omega)
  rw [take_eq_self hlx, take_eq_self hly] at hv
  exact ⟨by omega, hL, hv⟩

/-- Instance of `fieldMult_exact`: the square of the largest two-word number. -/
theorem fieldMult_exact_witness :
    (fieldMult [0xffffffff, 0xffffffff] [0xffffffff, 0xffffffff] 2).length = 2 * 2 ∧
      Limbs (fieldMult [0xffffffff, 0xffffffff] [0xffffffff, 0xffffffff] 2) ∧
      value (fieldMult [0xffffffff, 0xffffffff] [0xffffffff, 0xffffffff] 2) =
        value [0xffffffff, 0xffffffff] * value [0xffffffff, 0xffffffff] :=
  fieldMult_exact [0xffffffff, 0xffffffff] [0xffffffff, 0xffffffff] 2
    (by decide) (by decide) rfl rfl

/-! ## Inputs on which a zero is handed to `fieldInv` -/

theorem fieldAdd_zero_zero (r : List Nat) : fieldAdd (setZero 8) (setZero 8) r = setZero 8 := rfl

/-- With `py = 0` and `px ≠ 0` the doubling reaches `fieldInv(0)`, which never returns. -/
theorem ec_double_zero_y (g : Params) (fuel : Nat) (stray px : List Nat)
    (hpx : isZero px = false)
    (h1 : isOne (copy g.ecc_prime_m (setZero 8) arrayLength) = false) :
    ec_double g fuel stray px (setZero 8) = none := by
  unfold ec_double
  rw [hpx, Bool.false_and, if_neg Bool.false_ne_true]
  dsimp only
  rw [fieldAdd_zero_zero, fieldInv_zero fuel _ _ h1]
  generalize fieldModP g fuel stray (fieldMult px px arrayLength) = o1
  cases o1 with
  | none => rfl
  | some c1 =>
    rw [Option.bind_eq_bind, Option.some_bind]
    generalize fieldModP g fuel stray (fieldMult c1 ((setZero 8).set 0 3) arrayLength) = o2
    cases o2 with
    | none => rfl
    | some c2 => rfl

/-- C37: `ec_double` is not total on field coordinates.  On each registered curve, for
every input with `y = 0` and `x ≠ 0`, whatever the number of loop rounds allowed, the
doubling does not return: it calls `fieldInv` on `2 y = 0`, whose loop never ends. -/
theorem ec_double_zero_y_diverges (fuel : Nat) (stray px : List Nat)
    (hpx : isZero px = false) :
    ec_double secp256r1 fuel stray px (setZero 8) = none ∧
      ec_double wei25519 fuel stray px (setZero 8) = none ∧
      ec_double wei25519_2 fuel stray px (setZero 8) = none :=
  ⟨ec_double_zero_y _ fuel stray px hpx (by decide),
    ec_double_zero_y _ fuel stray px hpx (by decide),
    ec_double_zero_y _ fuel stray px hpx (by decide)⟩

/-- Instance of `ec_double_zero_y_diverges` at the field element `x = 1`, `y = 0`, with
`2^32` rounds allowed. -/
theorem ec_double_zero_y_diverges_witness :
    isZero oneWords = false ∧ value oneWords < value p256_p ∧
      value oneWords < value wei25519_p ∧
      ec_double secp256r1 (2 ^ 32) (setZero 8) oneWords (setZero 8) = none ∧
      ec_double wei25519 (2 ^ 32) (setZero 8) oneWords (setZero 8) = none ∧
      ec_double wei25519_2 (2 ^ 32) (setZero 8) oneWords (setZero 8) = none :=
  ⟨by decide, by decide, by decide,
    ec_double_zero_y_diverges (2 ^ 32) (setZero 8) oneWords (by decide)⟩

/-- C38: `twisted_edwards_to_short_weierstrass` is not total on field coordinates.  With
WEI25519 active, for every input with `y = 1`, among them the Edwards neutral element
`(0, 1)`, and whatever the number of loop rounds allowed, the call does not return: it
calls `fieldInv` on `1 - y = 0`, whose loop never ends. -/
theorem twisted_edwards_to_short_weierstrass_neutral_diverges (fuel : Nat)
    (stray px : List Nat) :
    twisted_edwards_to_short_weierstrass wei25519 fuel stray px oneWords = none ∧
      twisted_edwards_to_short_weierstrass wei25519 fuel stray (setZero 8) oneWords = none := by
  have key : ∀ qx : List Nat,
      twisted_edwards_to_short_weierstrass wei25519 fuel stray qx oneWords = none := by
    intro qx
    have hy : (Convert.ecc_isZero oneWords : Bool) = false := by decide
    have hs : isSame oneWords Convert.minus_one arrayLength = false := by decide
    have hsub : fieldSub ((setZero arrayLength).set 0 1) oneWords wei25519.ecc_prime_m =
        setZero 8 := by decide
    unfold twisted_edwards_to_short_weierstrass
    rw [hy, hs, if_neg (fun h => Bool.false_ne_true h.2),
      if_neg (fun h => Bool.false_ne_true h.2)]
    dsimp only
    rw [hsub, fieldInv_zero fuel _ _ (by decide)]
    rfl
  exact ⟨key px, key (setZero 8)⟩

/-- C39: `fieldModX` reads outside its input.  With `length = 16` the test guarding the
copy-through shortcut inspects the words 32 to 39 counted from `A`, none of which is below
16.  For the 16-word input `2^288`, whose upper half is not zero, and the order of
SECP256R1 as modulus: when the words 32 to 39 of the surrounding memory are zero the
shortcut is taken and the result is `0`, although `2^288 mod n` is not `0`; when word 32
is `1` the same input is reduced to `2^288 mod n`. -/
theorem fieldModX_shortcut_reads_outside (fuel : Nat) :
    shortcutReads = [32, 33, 34, 35, 36, 37, 38, 39] ∧
    shortcutReads.filter (fun i => decide (i < 16)) = [] ∧
    shortcutInput.length = 16 ∧
    isZero (shortcutInput.drop 8) = false ∧
    fieldModXAt fuel (shortcutInput ++ setZero 24) (setZero 9) 16 secp256r1.ecc_order_m
        secp256r1.ecc_order_mu secp256r1.ecc_order_k 9 = some (setZero 9) ∧
    fieldModXAt 100 (shortcutInput ++ setZero 16 ++ oneWords) (setZero 9) 16
        secp256r1.ecc_order_m secp256r1.ecc_order_mu secp256r1.ecc_order_k 9 =
      some [0x0, 0x39cdaaf, 0xc46353d, 0x58e8617b, 0x43190552, 0x0, 0x0, 0xffffffff, 0x0] ∧
    value shortcutInput % value secp256r1.ecc_order_m =
      value [0x0, 0x39cdaaf, 0xc46353d, 0x58e8617b, 0x43190552, 0x0, 0x0, 0xffffffff, 0x0] := by
  refine ⟨by decide, by decide, by decide, by decide, ?_, by decide!, by decide!⟩
  unfold fieldModXAt fieldModX
  rw [if_neg (by decide), if_pos (by decide)]
  decide

/-- C40: the Montgomery conversions hand an 8-word buffer to the prime reduction.  In
`montgomery_to_short_weierstrass` the sum written to the local `tmp` has 8 words, while
`ecc_fieldModP` reduces 16 words from that address.  With WEI25519 active and the input
`u = 9`, the returned x-coordinate is the base point `wei25519_gx` when the eight words
after `tmp` are zero and `wei25519_gx + 38` when they hold `1`; with SECP256R1 active (where
the reduction is `fieldModP256`) the two results differ as well.  The result depends on
memory that is not part of the input point. -/
theorem montgomery_to_short_weierstrass_reads_past_tmp :
    (fieldAdd nineWords Convert.delta wei25519.ecc_prime_r).length = 8 ∧
    montgomery_to_short_weierstrass wei25519 100 oneWords (setZero 8) nineWords wei25519_gy =
      some (wei25519_gx, wei25519_gy) ∧
    montgomery_to_short_weierstrass wei25519 100 oneWords oneWords nineWords wei25519_gy =
      some ([0xaaad2480, 0xaaaaaaaa, 0xaaaaaaaa, 0xaaaaaaaa, 0xaaaaaaaa, 0xaaaaaaaa,
        0xaaaaaaaa, 0x2aaaaaaa], wei25519_gy) ∧
    montgomery_to_short_weierstrass secp256r1 100 (setZero 8) (setZero 8) nineWords
        wei25519_gy = some (wei25519_gx, wei25519_gy) ∧
    montgomery_to_short_weierstrass secp256r1 100 (setZero 8) oneWords nineWords
        wei25519_gy =
      some ([0xaaad245b, 0xaaaaaaaa, 0xaaaaaaaa, 0xaaaaaaa9, 0xaaaaaaaa, 0xaaaaaaaa,
        0xaaaaaaa9, 0x2aaaaaab], wei25519_gy) := by
  decide!

/-! ## Primality of the group orders -/

theorem powModAux_spec (m : Nat) : ∀ (fuel a e acc : Nat), e < 2 ^ fuel →
    powModAux m fuel a e acc % m = acc * a ^ e % m
  | 0, a, e, acc, h => by
    have : e = 0 := by simpa using h
    subst this
    simp [powModAux]
  | fuel + 1, a, e, acc, h => by
    rw [powModAux]
    by_cases he : e = 0
    · subst he; simp
    · rw [if_neg he, strictNat_eq, strictNat_eq,
        powModAux_spec m fuel _ _ _ (by rw [pow_succ] at h; omega)]
      have e2 : e = 2 * (e / 2) + e % 2 := (Nat.div_add_mod e 2).symm
      have hsq : (a * a % m) ^ (e / 2) % m = a ^ (2 * (e / 2)) % m := by
        rw [← Nat.pow_mod, pow_mul, pow_two]
      by_cases hb : e % 2 = 1
      · rw [if_pos hb]
        conv_rhs => rw [e2, hb, pow_succ]
        rw [Nat.mul_mod, Nat.mod_mod, hsq, ← Nat.mul_mod, Nat.mul_mod (acc * a), ← Nat.mul_mod]
        congr 1; ring
      · rw [if_neg hb]
        have hb0 : e % 2 = 0 := by omega
        conv_rhs => rw [e2, hb0, Nat.add_zero]
        rw [Nat.mul_mod, hsq, ← Nat.mul_mod]

theorem prime_of_lucasCert (p a : Nat) (fs : List Nat) (hfs : ∀ f ∈ fs, Nat.Prime f)
    (h : lucasCert p a fs = true) : Nat.Prime p := by
  unfold lucasCert at h
  simp only [Bool.and_eq_true, decide_eq_true_eq, List.all_eq_true] at h
  obtain ⟨⟨⟨⟨hp, hlt⟩, hdiv⟩, ha⟩, hq⟩ := h
  rw [powModAux_spec p 256 a _ 1 hlt, Nat.one_mul] at ha
  have cast_one : ∀ e : Nat, (a : ZMod p) ^ e = 1 → a ^ e % p = 1 := by
    intro e he
    have h1 : ((a ^ e : Nat) : ZMod p) = ((1 : Nat) : ZMod p) := by push_cast; exact he
    have h2 := (ZMod.natCast_eq_natCast_iff _ _ _).1 h1
    unfold Nat.ModEq at h2
    rw [h2, Nat.mod_eq_of_lt hp]
  apply lucas_primality p (a : ZMod p)
  · have h1 : ((a ^ (p - 1) : Nat) : ZMod p) = ((1 : Nat) : ZMod p) := by
      rw [ZMod.natCast_eq_natCast_iff]
      unfold Nat.ModEq
      rw [ha, Nat.mod_eq_of_lt hp]
    push_cast at h1
    exact h1
  · intro q hqp hqd he
    have hqf : q ∣ fs.prod := by
      have : q ∣ fs.prod ^ 256 := dvd_trans hqd (Nat.dvd_of_mod_eq_zero hdiv)
      exact hqp.dvd_of_dvd_pow this
    obtain ⟨f, hf, hqf⟩ := (Prime.dvd_prod_iff (Nat.prime_iff.1 hqp)).1 hqf
    have hqe : q = f := (Nat.prime_dvd_prime_iff_eq hqp (hfs f hf)).1 hqf
    subst hqe
    have := hq q hf
    simp only [decide_eq_true_eq] at this
    rw [powModAux_spec p 256 a _ 1 (lt_of_le_of_lt (Nat.div_le_self _ _) hlt), Nat.one_mul] at this
    exact this (cast_one _ he)

theorem forall_prime_nil : ∀ x ∈ ([] : List Nat), Nat.Prime x :=
  fun _ h => absurd h (List.not_mem_nil _)

theorem forall_prime_cons {f : Nat} {fs : List Nat} (h : Nat.Prime f)
    (hs : ∀ x ∈ fs, Nat.Prime x) : ∀ x ∈ f :: fs, Nat.Prime x :=
  List.forall_mem_cons.2 ⟨h, hs⟩

theorem prime_2 : Nat.Prime 2 := by norm_num
theorem prime_3 : Nat.Prime 3 := by norm_num
theorem prime_5 : Nat.Prime 5 := by norm_num
theorem prime_7 : Nat.Prime 7 := by norm_num
theorem prime_11 : Nat.Prime 11 := by norm_num
theorem prime_17 : Nat.Prime 17 := by norm_num
theorem prime_19 : Nat.Prime 19 := by norm_num
theorem prime_23 : Nat.Prime 23 := by norm_num
theorem prime_29 : Nat.Prime 29 := by norm_num
theorem prime_31 : Nat.Prime 31 := by norm_num
theorem prime_41 : Nat.Prime 41 := by norm_num
theorem prime_43 : Nat.Prime 43 := by norm_num
theorem prime_71 : Nat.Prime 71 := by norm_num
theorem prime_73 : Nat.Prime 73 := by norm_num
theorem prime_127 : Nat.Prime 127 := by norm_num
theorem prime_131 : Nat.Prime 131 := by norm_num
theorem prime_229 : Nat.Prime 229 := by norm_num
theorem prime_263 : Nat.Prime 263 := by norm_num
theorem prime_269 : Nat.Prime 269 := by norm_num
theorem prime_307 : Nat.Prime 307 := by norm_num
theorem prime_311 : Nat.Prime 311 := by norm_num
theorem prime_337 : Nat.Prime 337 := by norm_num
theorem prime_373 : Nat.Prime 373 := by norm_num
theorem prime_1201 : Nat.Prime 1201 := by norm_num
theorem prime_1297 : Nat.Prime 1297 := by norm_num
theorem prime_1361 : Nat.Prime 1361 := by norm_num
theorem prime_2551 : Nat.Prime 2551 := by norm_num
theorem prime_2851 : Nat.Prime 2851 := by norm_num
theorem prime_3023 : Nat.Prime 3023 := by norm_num
theorem prime_3407 : Nat.Prime 3407 := by norm_num
theorem prime_3797 : Nat.Prime 3797 := by norm_num
theorem prime_5879 : Nat.Prime 5879 := by norm_num
theorem prime_16879 : Nat.Prime 16879 := by norm_num
theorem prime_17231 : Nat.Prime 17231 := by norm_num
theorem prime_17449 : Nat.Prime 17449 := by norm_num
theorem prime_22111 : Nat.Prime 22111 := by norm_num
theorem prime_30703 : Nat.Prime 30703 := by norm_num
theorem prime_34123 : Nat.Prime 34123 := by norm_num
theorem prime_38189 : Nat.Prime 38189 := by norm_num
theorem prime_82163 : Nat.Prime 82163 := by norm_num

set_option maxRecDepth 100000 in
theorem prime_104471 : Nat.Prime 104471 :=
  prime_of_lucasCert _ 11 [2, 5, 31, 337]
    (forall_prime_cons prime_2 (forall_prime_cons prime_5 (forall_prime_cons prime_31
      (forall_prime_cons prime_337 forall_prime_nil))))
    (by decide!)

set_option maxRecDepth 100000 in
theorem prime_126241 : Nat.Prime 126241 :=
  prime_of_lucasCert _ 7 [2, 3, 5, 263]
    (forall_prime_cons prime_2 (forall_prime_cons prime_3 (forall_prime_cons prime_5
      (forall_prime_cons prime_263 forall_prime_nil))))
    (by decide!)

set_option maxRecDepth 100000 in
theorem prime_132667 : Nat.Prime 132667 :=
  prime_of_lucasCert _ 5 [2, 3, 22111]
    (forall_prime_cons prime_2 (forall_prime_cons prime_3 (forall_prime_cons prime_22111
      forall_prime_nil)))
    (by decide!)

set_option maxRecDepth 100000 in
theorem prime_137849 : Nat.Prime 137849 :=
  prime_of_lucasCert _ 3 [2, 17231]
    (forall_prime_cons prime_2 (forall_prime_cons prime_17231 forall_prime_nil))
    (by decide!)

set_option maxRecDepth 100000 in
theorem prime_155317 : Nat.Prime 155317 :=
  prime_of_lucasCert _ 5 [2, 3, 7, 43]
    (forall_prime_cons prime_2 (forall_prime_cons prime_3 (forall_prime_cons prime_7
      (forall_prime_cons prime_43 forall_prime_nil))))
    (by decide!)

set_option maxRecDepth 100000 in
theorem prime_409477 : Nat.Prime 409477 :=
  prime_of_lucasCert _ 2 [2, 3, 34123]
    (forall_prime_cons prime_2 (forall_prime_cons prime_3 (forall_prime_cons prime_34123
      forall_prime_nil)))
    (by decide!)

set_option maxRecDepth 100000 in
theorem prime_531581 : Nat.Prime 531581 :=
  prime_of_lucasCert _ 2 [2, 5, 7, 3797]
    (forall_prime_cons prime_2 (forall_prime_cons prime_5 (forall_prime_cons prime_7
      (forall_prime_cons prime_3797 forall_prime_nil))))
    (by decide!)

set_option maxRecDepth 100000 in
theorem prime_1224481 : Nat.Prime 1224481 :=
  prime_of_lucasCert _ 13 [2, 3, 5, 2551]
    (forall_prime_cons prime_2 (forall_prime_cons prime_3 (forall_prime_cons prime_5
      (forall_prime_cons prime_2551 forall_prime_nil))))
    (by decide!)

set_option maxRecDepth 100000 in
theorem prime_3969899 : Nat.Prime 3969899 :=
  prime_of_lucasCert _ 2 [2, 19, 104471]
    (forall_prime_cons prime_2 (forall_prime_cons prime_19 (forall_prime_cons prime_104471
      forall_prime_nil)))
    (by decide!)

set_option maxRecDepth 100000 in
theorem prime_9350987 : Nat.Prime 9350987 :=
  prime_of_lucasCert _ 2 [2, 17, 229, 1201]
    (forall_prime_cons prime_2 (forall_prime_cons prime_17 (forall_prime_cons prime_229
      (forall_prime_cons prime_1201 forall_prime_nil))))
    (by decide!)

set_option maxRecDepth 100000 in
theorem prime_14741173 : Nat.Prime 14741173 :=
  prime_of_lucasCert _ 2 [2, 3, 409477]
    (forall_prime_cons prime_2 (forall_prime_cons prime_3 (forall_prime_cons prime_409477
      forall_prime_nil)))
    (by decide!)

set_option maxRecDepth 100000 in
theorem prime_58964693 : Nat.Prime 58964693 :=
  prime_of_lucasCert _ 2 [2, 14741173]
    (forall_prime_cons prime_2 (forall_prime_cons prime_14741173 forall_prime_nil))
    (by decide!)

set_option maxRecDepth 100000 in
theorem prime_187019741 : Nat.Prime 187019741 :=
  prime_of_lucasCert _ 2 [2, 5, 9350987]
    (forall_prime_cons prime_2 (forall_prime_cons prime_5 (forall_prime_cons prime_9350987
      forall_prime_nil)))
    (by decide!)

set_option maxRecDepth 100000 in
theorem prime_191039911 : Nat.Prime 191039911 :=
  prime_of_lucasCert _ 3 [2, 3, 5, 41, 155317]
    (forall_prime_cons prime_2 (forall_prime_cons prime_3 (forall_prime_cons prime_5
      (forall_prime_cons prime_41 (forall_prime_cons prime_155317 forall_prime_nil)))))
    (by decide!)

set_option maxRecDepth 100000 in
theorem prime_292386187 : Nat.Prime 292386187 :=
  prime_of_lucasCert _ 2 [2, 3, 307, 5879]
    (forall_prime_cons prime_2 (forall_prime_cons prime_3 (forall_prime_cons prime_307
      (forall_prime_cons prime_5879 forall_prime_nil))))
    (by decide!)

set_option maxRecDepth 100000 in
theorem prime_311245691 : Nat.Prime 311245691 :=
  prime_of_lucasCert _ 2 [2, 5, 7, 17, 29, 311]
    (forall_prime_cons prime_2 (forall_prime_cons prime_5 (forall_prime_cons prime_7
      (forall_prime_cons prime_17 (forall_prime_cons prime_29 (forall_prime_cons prime_311
      forall_prime_nil))))))
    (by decide!)

set_option maxRecDepth 100000 in
theorem prime_622491383 : Nat.Prime 622491383 :=
  prime_of_lucasCert _ 5 [2, 311245691]
    (forall_prime_cons prime_2 (forall_prime_cons prime_311245691 forall_prime_nil))
    (by decide!)

set_option maxRecDepth 100000 in
theorem prime_213441916511 : Nat.Prime 213441916511 :=
  prime_of_lucasCert _ 13 [2, 5, 73, 292386187]
    (forall_prime_cons prime_2 (forall_prime_cons prime_5 (forall_prime_cons prime_73
      (forall_prime_cons prime_292386187 forall_prime_nil))))
    (by decide!)

set_option maxRecDepth 100000 in
theorem prime_1002328039319 : Nat.Prime 1002328039319 :=
  prime_of_lucasCert _ 19 [2, 126241, 3969899]
    (forall_prime_cons prime_2 (forall_prime_cons prime_126241 (forall_prime_cons prime_3969899
      forall_prime_nil)))
    (by decide!)

set_option maxRecDepth 100000 in
theorem prime_1257559732178653 : Nat.Prime 1257559732178653 :=
  prime_of_lucasCert _ 2 [2, 3, 7, 23, 531581, 1224481]
    (forall_prime_cons prime_2 (forall_prime_cons prime_3 (forall_prime_cons prime_7
      (forall_prime_cons prime_23 (forall_prime_cons prime_531581 (forall_prime_cons
      prime_1224481 forall_prime_nil))))))
    (by decide!)

set_option maxRecDepth 100000 in
theorem prime_208150935158385979 : Nat.Prime 208150935158385979 :=
  prime_of_lucasCert _ 2 [2, 3, 11, 43, 127, 3023, 191039911]
    (forall_prime_cons prime_2 (forall_prime_cons prime_3 (forall_prime_cons prime_11
      (forall_prime_cons prime_43 (forall_prime_cons prime_127 (forall_prime_cons prime_3023
      (forall_prime_cons prime_191039911 forall_prime_nil)))))))
    (by decide!)

set_option maxRecDepth 100000 in
theorem prime_4434155615661930479 : Nat.Prime 4434155615661930479 :=
  prime_of_lucasCert _ 17 [2, 41, 43, 1257559732178653]
    (forall_prime_cons prime_2 (forall_prime_cons prime_41 (forall_prime_cons prime_43
      (forall_prime_cons prime_1257559732178653 forall_prime_nil))))
    (by decide!)

set_option maxRecDepth 100000 in
theorem prime_3044861653679985063343 : Nat.Prime 3044861653679985063343 :=
  prime_of_lucasCert _ 5 [2, 3, 11, 30703, 82163, 132667, 137849]
    (forall_prime_cons prime_2 (forall_prime_cons prime_3 (forall_prime_cons prime_11
      (forall_prime_cons prime_30703 (forall_prime_cons prime_82163 (forall_prime_cons
      prime_132667 (forall_prime_cons prime_137849 forall_prime_nil)))))))
    (by decide!)

set_option maxRecDepth 100000 in
theorem prime_172054593956031949258510691 : Nat.Prime 172054593956031949258510691 :=
  prime_of_lucasCert _ 2 [2, 5, 1361, 2851, 4434155615661930479]
    (forall_prime_cons prime_2 (forall_prime_cons prime_5 (forall_prime_cons prime_1361
      (forall_prime_cons prime_2851 (forall_prime_cons prime_4434155615661930479
      forall_prime_nil)))))
    (by decide!)

set_option maxRecDepth 100000 in
theorem prime_2624747550333869278416773953 : Nat.Prime 2624747550333869278416773953 :=
  prime_of_lucasCert _ 7 [2, 3, 1297, 16879, 208150935158385979]
    (forall_prime_cons prime_2 (forall_prime_cons prime_3 (forall_prime_cons prime_1297
      (forall_prime_cons prime_16879 (forall_prime_cons prime_208150935158385979
      forall_prime_nil)))))
    (by decide!)

set_option maxRecDepth 100000 in
theorem prime_198211423230930754013084525763697 : Nat.Prime 198211423230930754013084525763697 :=
  prime_of_lucasCert _ 5 [2, 3, 23, 58964693, 3044861653679985063343]
    (forall_prime_cons prime_2 (forall_prime_cons prime_3 (forall_prime_cons prime_23
      (forall_prime_cons prime_58964693 (forall_prime_cons prime_3044861653679985063343
      forall_prime_nil)))))
    (by decide!)

set_option maxRecDepth 100000 in
theorem prime_19757330305831588566944191468367130476339 :
    Nat.Prime 19757330305831588566944191468367130476339 :=
  prime_of_lucasCert _ 2 [2, 269, 213441916511, 172054593956031949258510691]
    (forall_prime_cons prime_2 (forall_prime_cons prime_269 (forall_prime_cons prime_213441916511
      (forall_prime_cons prime_172054593956031949258510691 forall_prime_nil))))
    (by decide!)

set_option maxRecDepth 100000 in
theorem prime_276602624281642239937218680557139826668747 :
    Nat.Prime 276602624281642239937218680557139826668747 :=
  prime_of_lucasCert _ 2 [2, 7, 19757330305831588566944191468367130476339]
    (forall_prime_cons prime_2 (forall_prime_cons prime_7 (forall_prime_cons
      prime_19757330305831588566944191468367130476339 forall_prime_nil)))
    (by decide!)

set_option maxRecDepth 100000 in
/-- The order registered for WEI25519 and WEI25519_2 is prime. -/
theorem prime_wei25519_n : Nat.Prime (value wei25519_n) := by
  have h : value wei25519_n =
      7237005577332262213973186563042994240857116359379907606001950938285454250989 := by decide!
  rw [h]
  exact prime_of_lucasCert _ 2
    [2, 3, 11, 198211423230930754013084525763697, 276602624281642239937218680557139826668747]
    (forall_prime_cons prime_2 (forall_prime_cons prime_3 (forall_prime_cons prime_11
      (forall_prime_cons prime_198211423230930754013084525763697 (forall_prime_cons
      prime_276602624281642239937218680557139826668747 forall_prime_nil)))))
    (by decide!)

set_option maxRecDepth 100000 in
/-- The order registered for SECP256R1 is prime. -/
theorem prime_p256_n : Nat.Prime (value p256_n) := by
  have h : value p256_n =
      115792089210356248762697446949407573529996955224135760342422259061068512044369 := by decide!
  rw [h]
  exact prime_of_lucasCert _ 7
    [2, 3, 71, 131, 373, 3407, 17449, 38189, 187019741, 622491383, 1002328039319,
      2624747550333869278416773953]
    (forall_prime_cons prime_2 (forall_prime_cons prime_3 (forall_prime_cons prime_71
      (forall_prime_cons prime_131 (forall_prime_cons prime_373 (forall_prime_cons prime_3407
      (forall_prime_cons prime_17449 (forall_prime_cons prime_38189 (forall_prime_cons
      prime_187019741 (forall_prime_cons prime_622491383 (forall_prime_cons prime_1002328039319
      (forall_prime_cons prime_2624747550333869278416773953 forall_prime_nil))))))))))))
    (by decide!)

/-- The inverse written by `fieldInv` only depends on the class of its argument modulo the
modulus: `A + m` and `A` give the same eight words. -/
theorem fieldInv_shift (A As m r : List Nat) (fuel : Nat) (hA : Limbs A) (hAs : Limbs As)
    (hlA : A.length = 8) (hlAs : As.length = 8) (hm : Limbs m) (hlm : 8 ≤ m.length)
    (hM : value (m.take 8) % 2 = 1) (h1 : 1 < value (m.take 8))
    (hg : Nat.gcd (value A) (value (m.take 8)) = 1)
    (hv : value As = value A + value (m.take 8))
    (hf : value As + value (m.take 8) ≤ fuel) :
    fieldInv fuel As m r = fieldInv fuel A m r ∧
      ∃ w, fieldInv fuel A m r = some w ∧ w.length = 8 ∧ Limbs w ∧
        value w < value (m.take 8) ∧ value w * value A % value (m.take 8) = 1 := by
  obtain ⟨B, hB, hlB, hLB, hBlt, hBc⟩ :=
    fieldInv_spec A m r fuel hA hlA hm hlm hM h1 hg (by omega)
  have hgs : Nat.gcd (value As) (value (m.take 8)) = 1 := by
    rw [hv]; simpa using hg
  obtain ⟨C, hC, hlC, hLC, hClt, hCc⟩ :=
    fieldInv_spec As m r fuel hAs hlAs hm hlm hM h1 hgs hf
  have hCA : value C * value A ≡ 1 [MOD value (m.take 8)] := by
    rw [hv, Nat.mul_add] at hCc
    have h0 : value C * value (m.take 8) ≡ 0 [MOD value (m.take 8)] :=
      (Nat.modEq_zero_iff_dvd).2 (Dvd.intro_left _ rfl)
    have := (Nat.ModEq.add_right_cancel h0 (by simpa using hCc) :
      value C * value A ≡ 1 [MOD value (m.take 8)])
    exact this
  have hmod : value C ≡ value B [MOD value (m.take 8)] :=
    inverse_unique (by rw [Nat.gcd_comm]; exact hg) hBc hCA
  have hval : value C = value B := by
    unfold Nat.ModEq at hmod
    rwa [Nat.mod_eq_of_lt hClt, Nat.mod_eq_of_lt hBlt] at hmod
  have hCB : C = B :=
    (eq_toLimbs_of hlC hLC hval).trans (eq_toLimbs_of hlB hLB rfl).symm
  refine ⟨by rw [hC, hB, hCB], B, hB, hlB, hLB, hBlt, ?_⟩
  unfold Nat.ModEq at hBc
  rw [hBc, Nat.mod_eq_of_lt h1]

set_option maxRecDepth 100000 in
theorem registered_order_prime (g : Params)
    (hg : g = secp256r1 ∨ g = wei25519 ∨ g = wei25519_2) :
    Nat.Prime (value g.ecc_order_m) ∧ value (g.ecc_order_m.take 8) = value g.ecc_order_m := by
  rcases hg with rfl | rfl | rfl
  · exact ⟨prime_p256_n, by decide!⟩
  · exact ⟨prime_wei25519_n, by decide!⟩
  · exact ⟨prime_wei25519_n, by decide!⟩

/-- C36: verification does not depend on the representative of `s`.  On each registered
curve with order `n`, for every public key, digest and `r`, and every 8-word `s` with
`1 ≤ s < n` whose shift `s + n` still fits eight words (`sn` holds `s + n`), once the loops
of `fieldInv` are given enough rounds, `fieldInv(s + n)` and `fieldInv(s)` write the same
eight words, the inverse of `s` modulo `n`, and `ecc_ecdsa_validate` returns the same value
for `s + n` as for `s`. -/
theorem ecc_ecdsa_validate_s_representative (g : Params)
    (hg : g = secp256r1 ∨ g = wei25519 ∨ g = wei25519_2) (fuel : Nat)
    (stray x y e r s sn : List Nat) (hs : Limbs s) (hsn : Limbs sn) (hls : s.length = 8)
    (hlsn : sn.length = 8) (h1 : 1 ≤ value s) (hn : value s < value g.ecc_order_m)
    (hv : value sn = value s + value g.ecc_order_m)
    (hf : value sn + value g.ecc_order_m ≤ fuel) :
    fieldInv fuel sn g.ecc_order_m g.ecc_order_r =
        fieldInv fuel s g.ecc_order_m g.ecc_order_r ∧
      (∃ w, fieldInv fuel s g.ecc_order_m g.ecc_order_r = some w ∧ w.length = 8 ∧ Limbs w ∧
        value w < value g.ecc_order_m ∧ value w * value s % value g.ecc_order_m = 1) ∧
      ecc_ecdsa_validate g fuel stray x y e r sn = ecc_ecdsa_validate g fuel stray x y e r s := by
  obtain ⟨hL, hl, hodd, hgt, -⟩ := curve_order_facts g hg
  obtain ⟨hp, ht⟩ := registered_order_prime g hg
  have hcop : Nat.gcd (value s) (value (g.ecc_order_m.take 8)) = 1 := by
    rw [ht, Nat.gcd_comm]
    exact (Nat.Prime.coprime_iff_not_dvd hp).2
      (fun hd => absurd (Nat.le_of_dvd (by omega) hd) (by omega))
  obtain ⟨he, hw⟩ := fieldInv_shift s sn g.ecc_order_m g.ecc_order_r fuel hs hsn hls hlsn hL hl
    hodd hgt hcop (by rw [ht]; exact hv) (by rw [ht]; exact hf)
  rw [ht] at hw
  refine ⟨he, hw, ?_⟩
  unfold ecc_ecdsa_validate
  rw [he]

/-- Instance of `ecc_ecdsa_validate_s_representative` on WEI25519 at `s = 1`, `s + n = n + 1`,
for the base point as public key. -/
theorem ecc_ecdsa_validate_s_representative_witness :
    fieldInv (2 ^ 254)
        [0x5cf5d3ee, 0x5812631a, 0xa2f79cd6, 0x14def9de, 0, 0, 0, 0x10000000]
        wei25519.ecc_order_m wei25519.ecc_order_r =
        fieldInv (2 ^ 254) oneWords wei25519.ecc_order_m wei25519.ecc_order_r ∧
      (∃ w, fieldInv (2 ^ 254) oneWords wei25519.ecc_order_m wei25519.ecc_order_r = some w ∧
        w.length = 8 ∧ Limbs w ∧
        value w < value wei25519.ecc_order_m ∧
        value w * value oneWords % value wei25519.ecc_order_m = 1) ∧
      ecc_ecdsa_validate wei25519 (2 ^ 254) (setZero 8) wei25519_gx wei25519_gy oneWords
          oneWords [0x5cf5d3ee, 0x5812631a, 0xa2f79cd6, 0x14def9de, 0, 0, 0, 0x10000000] =
        ecc_ecdsa_validate wei25519 (2 ^ 254) (setZero 8) wei25519_gx wei25519_gy oneWords
          oneWords oneWords :=
  ecc_ecdsa_validate_s_representative wei25519 (Or.inr (Or.inl rfl)) (2 ^ 254) (setZero 8)
    wei25519_gx wei25519_gy oneWords oneWords oneWords
    [0x5cf5d3ee, 0x5812631a, 0xa2f79cd6, 0x14def9de, 0, 0, 0, 0x10000000]
    (by decide) (by decide) rfl rfl (by decide) (by decide) (by decide) (by decide)

end Ecc
